import Mathlib

/-! FreeRTOS STM32F4 learning projects: synchronisation core.

Shallow embedding of the task code of the demos and proofs about it.

* `TaskNotification`: `TASK-CREATION_DELETION_DELAY_TASK-NOTIFICATION/Core/Src/main.c`
  (the debounced button handler and the two self-deleting LED tasks).
* `BinarySemaphore`: `BINARY_SEMAPHORE_DEMONSTRATION/Core/Src/main.c`
  (master and slave over a depth-1 queue and a binary semaphore).
* `MutexDemo`: `MUTEX_Demonstration/Core/Src/main.c`
  (two tasks of different priority printing to the UART under a mutex).

Task code is embedded statement by statement: every task has a control
location, and one step executes the statement at that location.  The calls a
step makes are returned as a list of actions, so that traces can be inspected.
Kernel primitives whose sources are not part of the demos are modelled
separately and marked as such.
-/

namespace TaskNotification

/-! ## Data model -/

/-- The four task handles `task1_RED_LED_handle` .. `task4_ORANGE_LED_handle`. -/
inductive TaskHandle_t
  | task1_RED_LED_handle
  | task2_GREEN_LED_handle
  | task3_BLUE_LED_handle
  | task4_ORANGE_LED_handle
  deriving DecidableEq, Repr

/-- The `eNotifyAction` argument of `xTaskNotifyFromISR`; the demo only uses `eNoAction`. -/
inductive eNotifyAction
  | eNoAction
  | eSetBits
  | eIncrement
  | eSetValueWithOverwrite
  | eSetValueWithoutOverwrite
  deriving DecidableEq, Repr

/-- Control locations of `task1_RED_LED` and `task2_GREEN_LED`, which share one shape.
Each location names the statement the task executes next. -/
inductive Loc
  /-- Statement `HAL_GPIO_TogglePin(GPIOD, pin)` at the top of the loop. -/
  | toggle
  /-- Statement `notify_status = xTaskNotifyWait(0, 0, NULL, pdMS_TO_TICKS(1000))`. -/
  | wait
  /-- Statement `portENTER_CRITICAL()`, reached when `notify_status == pdTRUE`. -/
  | enterCritical
  /-- Statement `task_to_delete_handle = successor`. -/
  | assign
  /-- Statement `HAL_GPIO_WritePin(GPIOD, pin, GPIO_PIN_SET)`. -/
  | writePin
  /-- Statement `portEXIT_CRITICAL()`. -/
  | exitCritical
  /-- Statement `vTaskDelete(NULL)`. -/
  | delete
  /-- The task has deleted itself; it never runs again. -/
  | deleted
  deriving DecidableEq, Repr

/-- Calls and stores made by the handler and the two tasks, in program order. -/
inductive Action
  | HAL_GPIO_TogglePin (pin : Nat)
  | HAL_GPIO_WritePin (pin : Nat) (pinState : Bool)
  | xTaskNotifyWait (ret : Bool)
  | portENTER_CRITICAL
  | portEXIT_CRITICAL
  | store_task_to_delete_handle (v : Option TaskHandle_t)
  | vTaskDelete_NULL (self : TaskHandle_t)
  | store_last_press_time (t : Nat)
  | xTaskNotifyFromISR (xTaskToNotify : TaskHandle_t) (ulValue : Nat) (eAction : eNotifyAction)
  | portYIELD_FROM_ISR (xHigherPriorityTaskWoken : Bool)
  | xTaskCreate (pxCreatedTask : TaskHandle_t) (ret : Int)
  | configASSERT (x : Int)
  | taskDISABLE_INTERRUPTS
  | vTaskStartScheduler
  deriving DecidableEq, Repr

/-- Program state of the demo: the two globals the chain uses, the handler's static
`last_press_time`, the control locations of the Red and Green tasks, their notification
mailboxes and the two LED pins. `none` stands for the `NULL` handle. -/
structure System where
  task_to_delete_handle : Option TaskHandle_t
  last_press_time : Nat
  red : Loc
  green : Loc
  redPending : Bool
  greenPending : Bool
  bluePending : Bool
  orangePending : Bool
  pd12 : Bool
  pd14 : Bool
  deriving DecidableEq, Repr

/-! ## Tick arithmetic -/

/-- Constant `configTICK_RATE_HZ` from `FreeRTOSConfig.h`. -/
def configTICK_RATE_HZ : Nat := 1000

/-- Number of values of `TickType_t` (`configUSE_16_BIT_TICKS` is 0, so ticks are 32 bit). -/
def tickModulus : Nat := 4294967296

/-- Unsigned 32-bit subtraction `a - b` on `TickType_t`. -/
def tickSub (a b : Nat) : Nat := (a + tickModulus - b % tickModulus) % tickModulus

/-- Modelled from the spec: the kernel macro `pdMS_TO_TICKS` is not among the demo sources;
it converts milliseconds to ticks at `configTICK_RATE_HZ` ticks per second, in `TickType_t`. -/
def pdMS_TO_TICKS (xTimeInMs : Nat) : Nat :=
  ((xTimeInMs * configTICK_RATE_HZ) % tickModulus / 1000) % tickModulus

/-! ## Kernel mailbox -/

/-- Modelled from the spec: `xTaskNotifyFromISR` with `eNoAction` sets Pending on the mailbox
of the target task; a notification that arrives while one is pending is coalesced. -/
def notifyPending (s : System) (h : TaskHandle_t) : System :=
  match h with
  | .task1_RED_LED_handle => { s with redPending := true }
  | .task2_GREEN_LED_handle => { s with greenPending := true }
  | .task3_BLUE_LED_handle => { s with bluePending := true }
  | .task4_ORANGE_LED_handle => { s with orangePending := true }

/-! ## The button handler -/

/-- One run of `button_interrupt_handler`. `current_time` is the value returned by
`xTaskGetTickCountFromISR()`, `woken` the value `xTaskNotifyFromISR` leaves in
`pxHigherPriorityTaskWoken`. Returns the new state and the calls made. -/
def button_interrupt_handler (s : System) (current_time : Nat) (woken : Bool) :
    System × List Action :=
  if tickSub current_time s.last_press_time < pdMS_TO_TICKS 200 then
    (s, [])
  else
    let s1 := { s with last_press_time := current_time }
    match s1.task_to_delete_handle with
    | none => (s1, [.store_last_press_time current_time])
    | some h =>
      (notifyPending s1 h,
        [.store_last_press_time current_time,
         .xTaskNotifyFromISR h 0 .eNoAction,
         .portYIELD_FROM_ISR woken])

/-! ## The two tasks of the deletion chain -/

/-- Modelled from the spec: `xTaskNotifyWait(0, 0, NULL, timeout)` returns `pdTRUE` when a
notification is pending on the caller and consumes it; otherwise the caller blocks and the
call returns `pdFALSE` once the timeout has elapsed. The result is the new pending flag and
the return value. -/
def xTaskNotifyWait (pending : Bool) : Bool × Bool := (false, pending)

/-- Locations between `portENTER_CRITICAL()` and `portEXIT_CRITICAL()`. -/
def Loc.inCritical : Loc → Bool
  | .assign | .writePin | .exitCritical => true
  | _ => false

/-- One statement of `task1_RED_LED`. -/
def task1_RED_LED (s : System) : System × List Action :=
  match s.red with
  | .toggle => ({ s with pd14 := !s.pd14, red := .wait }, [.HAL_GPIO_TogglePin 14])
  | .wait =>
    let w := xTaskNotifyWait s.redPending
    if w.2 = true then
      ({ s with redPending := w.1, red := .enterCritical }, [.xTaskNotifyWait true])
    else
      ({ s with redPending := w.1, red := .toggle }, [.xTaskNotifyWait false])
  | .enterCritical => ({ s with red := .assign }, [.portENTER_CRITICAL])
  | .assign =>
    ({ s with task_to_delete_handle := none, red := .writePin },
      [.store_task_to_delete_handle none])
  | .writePin => ({ s with pd14 := true, red := .exitCritical }, [.HAL_GPIO_WritePin 14 true])
  | .exitCritical => ({ s with red := .delete }, [.portEXIT_CRITICAL])
  | .delete => ({ s with red := .deleted }, [.vTaskDelete_NULL .task1_RED_LED_handle])
  | .deleted => (s, [])

/-- One statement of `task2_GREEN_LED`. -/
def task2_GREEN_LED (s : System) : System × List Action :=
  match s.green with
  | .toggle => ({ s with pd12 := !s.pd12, green := .wait }, [.HAL_GPIO_TogglePin 12])
  | .wait =>
    let w := xTaskNotifyWait s.greenPending
    if w.2 = true then
      ({ s with greenPending := w.1, green := .enterCritical }, [.xTaskNotifyWait true])
    else
      ({ s with greenPending := w.1, green := .toggle }, [.xTaskNotifyWait false])
  | .enterCritical => ({ s with green := .assign }, [.portENTER_CRITICAL])
  | .assign =>
    ({ s with task_to_delete_handle := some .task1_RED_LED_handle, green := .writePin },
      [.store_task_to_delete_handle (some .task1_RED_LED_handle)])
  | .writePin => ({ s with pd12 := true, green := .exitCritical }, [.HAL_GPIO_WritePin 12 true])
  | .exitCritical => ({ s with green := .delete }, [.portEXIT_CRITICAL])
  | .delete => ({ s with green := .deleted }, [.vTaskDelete_NULL .task2_GREEN_LED_handle])
  | .deleted => (s, [])

/-- The state `main` leaves when it starts the scheduler: both tasks created and not yet run,
`task_to_delete_handle = task2_GREEN_LED_handle`, `last_press_time` still at its initialiser 0,
the LED pins reset by `MX_GPIO_Init`. -/
def main_state : System :=
  { task_to_delete_handle := some .task2_GREEN_LED_handle
    last_press_time := 0
    red := .toggle
    green := .toggle
    redPending := false
    greenPending := false
    bluePending := false
    orangePending := false
    pd12 := false
    pd14 := false }

/-- Whether the task behind a handle has deleted itself. Blue and Orange loop forever. -/
def isDeleted (s : System) : TaskHandle_t → Bool
  | .task1_RED_LED_handle => decide (s.red = .deleted)
  | .task2_GREEN_LED_handle => decide (s.green = .deleted)
  | .task3_BLUE_LED_handle => false
  | .task4_ORANGE_LED_handle => false

/-! ## Interleaving -/

/-- What can happen next: the button interrupt fires, or one of the two chain tasks executes
its next statement. -/
inductive Event
  | button (current_time : Nat) (woken : Bool)
  | red
  | green
  deriving DecidableEq, Repr

/-- An event can happen unless a critical section excludes it: between `portENTER_CRITICAL`
and `portEXIT_CRITICAL` of one task neither the button interrupt nor the other task runs.
A deleted task does not run. -/
def enabled (s : System) : Event → Bool
  | .button _ _ => !s.red.inCritical && !s.green.inCritical
  | .red => !s.green.inCritical && decide (s.red ≠ .deleted)
  | .green => !s.red.inCritical && decide (s.green ≠ .deleted)

/-- Effect of one event. -/
def step (s : System) : Event → System × List Action
  | .button t w => button_interrupt_handler s t w
  | .red => task1_RED_LED s
  | .green => task2_GREEN_LED s

/-- States reachable from `main_state` by interleaving the handler with the statements of
the two tasks in any order whatsoever. -/
inductive Interleaved : System → Prop
  | init : Interleaved main_state
  | next (s : System) (e : Event) : Interleaved s → Interleaved (step s e).1

/-- States reachable from `main_state` when critical sections are honoured: only enabled
events happen. -/
inductive Reachable : System → Prop
  | init : Reachable main_state
  | next (s : System) (e : Event) : Reachable s → enabled s e = true → Reachable (step s e).1

/-- Runs a list of events one after the other, collecting the actions. -/
def exec (s : System) : List Event → System × List Action
  | [] => (s, [])
  | e :: es =>
    let r := step s e
    let r2 := exec r.1 es
    (r2.1, r.2 ++ r2.2)

/-- The targets of the `xTaskNotifyFromISR` calls in a trace, in order. -/
def notified : List Action → List TaskHandle_t
  | [] => []
  | .xTaskNotifyFromISR h _ _ :: as => h :: notified as
  | _ :: as => notified as

/-- The times of the accepted triggers in a trace: those that stored `last_press_time`. -/
def acceptedAt : List Action → List Nat
  | [] => []
  | .store_last_press_time t :: as => t :: acceptedAt as
  | _ :: as => acceptedAt as

/-- The button events at the given tick counts, one after the other. -/
def presses (ts : List Nat) : List Event := ts.map (fun t => Event.button t false)

/-- Runs `task2_GREEN_LED` until it has deleted itself, for at most `fuel` statements. -/
def runGreen : Nat → System → System × List Action
  | 0, s => (s, [])
  | n + 1, s =>
    if s.green = .deleted then (s, [])
    else
      let r := task2_GREEN_LED s
      let r2 := runGreen n r.1
      (r2.1, r.2 ++ r2.2)

/-- Runs `task1_RED_LED` until it has deleted itself, for at most `fuel` statements. -/
def runRed : Nat → System → System × List Action
  | 0, s => (s, [])
  | n + 1, s =>
    if s.red = .deleted then (s, [])
    else
      let r := task1_RED_LED s
      let r2 := runRed n r.1
      (r2.1, r.2 ++ r2.2)

/-- The first stage of the chain: the handler runs at tick `t`, then Green runs until it
stops. -/
def greenResponse (fuel : Nat) (s : System) (t : Nat) (w : Bool) : System × List Action :=
  runGreen fuel (button_interrupt_handler s t w).1

/-- The second stage of the chain: the handler runs at tick `t`, then Red runs until it
stops. -/
def redResponse (fuel : Nat) (s : System) (t : Nat) (w : Bool) : System × List Action :=
  runRed fuel (button_interrupt_handler s t w).1

/-- Locations at which a task has not yet written its successor into the chain pointer. -/
def Loc.beforeAssign : Loc → Bool
  | .toggle | .wait | .enterCritical | .assign => true
  | _ => false

/-- Locations of a task that blinks and has not been woken by a notification. -/
def Loc.blinking : Loc → Bool
  | .toggle | .wait => true
  | _ => false

/-- The chain invariant: the pointer is at Green while Green has not advanced it (and Red
then has neither been notified nor woken), at Red from then until Red has advanced it, and
NULL afterwards. -/
def chainInv (s : System) : Bool :=
  match s.task_to_delete_handle with
  | some .task2_GREEN_LED_handle =>
    s.green.beforeAssign && s.red.blinking && !s.redPending
  | some .task1_RED_LED_handle => !s.green.beforeAssign && s.red.beforeAssign
  | some _ => false
  | none => !s.green.beforeAssign && !s.red.beforeAssign

/-! ## The entry point -/

/-- Modelled from the spec: the kernel constant `pdPASS` is not among the demo sources; it
is the success status of a creation call, `pdTRUE`, that is 1. -/
def pdPASS : Int := 1

/-- Macro `configASSERT(x)` of `FreeRTOSConfig.h`: `if ((x) == 0)` it disables interrupts
and spins for ever. The result says whether it halts. -/
def configASSERT (x : Int) : Bool := decide (x = 0)

/-- What `main` has done so far: its globals (`none` is the zero-initialised `NULL`), whether
it is stuck in the loop of a failed `configASSERT`, and the calls and stores made. -/
structure MainRun where
  status : Int
  task1_RED_LED_handle : Option TaskHandle_t
  task2_GREEN_LED_handle : Option TaskHandle_t
  task3_BLUE_LED_handle : Option TaskHandle_t
  task4_ORANGE_LED_handle : Option TaskHandle_t
  task_to_delete_handle : Option TaskHandle_t
  halted : Bool
  trace : List Action
  deriving DecidableEq, Repr

/-- The globals as the C start-up code initialises them. -/
def MainRun.start : MainRun :=
  { status := 0
    task1_RED_LED_handle := none
    task2_GREEN_LED_handle := none
    task3_BLUE_LED_handle := none
    task4_ORANGE_LED_handle := none
    task_to_delete_handle := none
    halted := false
    trace := [] }

/-- Statement `status = xTaskCreate(.., &handle)`: `ret` is what the kernel returns; the
handle variable is written only when the task was created. -/
def MainRun.create (m : MainRun) (h : TaskHandle_t) (ret : Int) : MainRun :=
  if m.halted = true then m
  else
    let m1 := { m with status := ret, trace := m.trace ++ [.xTaskCreate h ret] }
    if ret = pdPASS then
      match h with
      | .task1_RED_LED_handle => { m1 with task1_RED_LED_handle := some h }
      | .task2_GREEN_LED_handle => { m1 with task2_GREEN_LED_handle := some h }
      | .task3_BLUE_LED_handle => { m1 with task3_BLUE_LED_handle := some h }
      | .task4_ORANGE_LED_handle => { m1 with task4_ORANGE_LED_handle := some h }
    else m1

/-- Statement `configASSERT(status = pdPASS);` as written in `main`: the argument is an
assignment, so `status` becomes `pdPASS` and the macro tests that value. -/
def MainRun.assertStatus (m : MainRun) : MainRun :=
  if m.halted = true then m
  else
    let m1 := { m with status := pdPASS }
    if configASSERT m1.status = true then
      { m1 with
          halted := true
          trace := m1.trace ++ [.configASSERT m1.status, .taskDISABLE_INTERRUPTS] }
    else { m1 with trace := m1.trace ++ [.configASSERT m1.status] }

/-- Statement `task_to_delete_handle = task2_GREEN_LED_handle;` of `main`. -/
def MainRun.setChainHead (m : MainRun) : MainRun :=
  if m.halted = true then m
  else
    { m with
        task_to_delete_handle := m.task2_GREEN_LED_handle
        trace := m.trace ++ [.store_task_to_delete_handle m.task2_GREEN_LED_handle] }

/-- Statement `vTaskStartScheduler();` of `main`. -/
def MainRun.startScheduler (m : MainRun) : MainRun :=
  if m.halted = true then m else { m with trace := m.trace ++ [.vTaskStartScheduler] }

/-- The user code of `main`, from the first `xTaskCreate` to `vTaskStartScheduler`; `r1` to
`r4` are the values the four `xTaskCreate` calls return. -/
def main (r1 r2 r3 r4 : Int) : MainRun :=
  let m1 := (MainRun.start.create .task1_RED_LED_handle r1).assertStatus
  let m2 := (m1.create .task2_GREEN_LED_handle r2).assertStatus
  let m3 := m2.setChainHead
  let m4 := (m3.create .task3_BLUE_LED_handle r3).assertStatus
  let m5 := (m4.create .task4_ORANGE_LED_handle r4).assertStatus
  m5.startScheduler

/-- Whether every store to `task_to_delete_handle` in a trace lies between a
`portENTER_CRITICAL` and the matching `portEXIT_CRITICAL`; `depth` is the number of critical
sections open where the trace begins. -/
def storesGuarded : Nat → List Action → Bool
  | _, [] => true
  | depth, .portENTER_CRITICAL :: as => storesGuarded (depth + 1) as
  | depth, .portEXIT_CRITICAL :: as => storesGuarded (depth - 1) as
  | depth, .store_task_to_delete_handle _ :: as => decide (0 < depth) && storesGuarded depth as
  | depth, _ :: as => storesGuarded depth as

/-- The number of critical sections open in a state. -/
def openCritical (s : System) : Nat :=
  (if s.red.inCritical = true then 1 else 0) + (if s.green.inCritical = true then 1 else 0)

/-! ## The calls of one task -/

/-- The task an event belongs to; the button interrupt belongs to none. -/
def Event.task : Event → Option TaskHandle_t
  | .red => some .task1_RED_LED_handle
  | .green => some .task2_GREEN_LED_handle
  | .button _ _ => none

/-- The calls and stores one task makes while a list of events runs, in order. -/
def taskCalls (h : TaskHandle_t) (s : System) : List Event → List Action
  | [] => []
  | e :: es => (if e.task = some h then (step s e).2 else []) ++ taskCalls h (step s e).1 es

/-- One pass through the loop in which `xTaskNotifyWait` times out: the toggle of the LED
on `pin` and the wait that returns `pdFALSE`. -/
def blinkPass (pin : Nat) : List Action := [.HAL_GPIO_TogglePin pin, .xTaskNotifyWait false]

/-- The calls and stores a chain task at the given location has made since its last wait
that timed out; `pin` is its LED, `successor` what it stores into the chain pointer and
`self` its own handle. -/
def Loc.progress (pin : Nat) (successor : Option TaskHandle_t) (self : TaskHandle_t) :
    Loc → List Action
  | .toggle => []
  | .wait => [.HAL_GPIO_TogglePin pin]
  | .enterCritical => [.HAL_GPIO_TogglePin pin, .xTaskNotifyWait true]
  | .assign => [.HAL_GPIO_TogglePin pin, .xTaskNotifyWait true, .portENTER_CRITICAL]
  | .writePin =>
    [.HAL_GPIO_TogglePin pin, .xTaskNotifyWait true, .portENTER_CRITICAL,
     .store_task_to_delete_handle successor]
  | .exitCritical =>
    [.HAL_GPIO_TogglePin pin, .xTaskNotifyWait true, .portENTER_CRITICAL,
     .store_task_to_delete_handle successor, .HAL_GPIO_WritePin pin true]
  | .delete =>
    [.HAL_GPIO_TogglePin pin, .xTaskNotifyWait true, .portENTER_CRITICAL,
     .store_task_to_delete_handle successor, .HAL_GPIO_WritePin pin true,
     .portEXIT_CRITICAL]
  | .deleted =>
    [.HAL_GPIO_TogglePin pin, .xTaskNotifyWait true, .portENTER_CRITICAL,
     .store_task_to_delete_handle successor, .HAL_GPIO_WritePin pin true,
     .portEXIT_CRITICAL, .vTaskDelete_NULL self]

/-! ## Interrupt priorities -/

/-- Constant `configPRIO_BITS` of `FreeRTOSConfig.h`: `__NVIC_PRIO_BITS` of the device header
where that is defined and 4 otherwise; the STM32F4 has 4 priority bits either way. -/
def configPRIO_BITS : Nat := 4

/-- Constant `configLIBRARY_LOWEST_INTERRUPT_PRIORITY` of `FreeRTOSConfig.h`. -/
def configLIBRARY_LOWEST_INTERRUPT_PRIORITY : Nat := 15

/-- Constant `configLIBRARY_MAX_SYSCALL_INTERRUPT_PRIORITY` of `FreeRTOSConfig.h`. -/
def configLIBRARY_MAX_SYSCALL_INTERRUPT_PRIORITY : Nat := 5

/-- Macro `configKERNEL_INTERRUPT_PRIORITY` of `FreeRTOSConfig.h`. -/
def configKERNEL_INTERRUPT_PRIORITY : Nat :=
  configLIBRARY_LOWEST_INTERRUPT_PRIORITY <<< (8 - configPRIO_BITS)

/-- Macro `configMAX_SYSCALL_INTERRUPT_PRIORITY` of `FreeRTOSConfig.h`. -/
def configMAX_SYSCALL_INTERRUPT_PRIORITY : Nat :=
  configLIBRARY_MAX_SYSCALL_INTERRUPT_PRIORITY <<< (8 - configPRIO_BITS)

/-- The preemption priority `MX_GPIO_Init` gives the button interrupt:
`HAL_NVIC_SetPriority(EXTI0_IRQn, 6, 0)`. -/
def EXTI0_IRQn_PreemptPriority : Nat := 6

/-- The rule of `FreeRTOSConfig.h` for interrupt handlers: priorities
`configLIBRARY_MAX_SYSCALL_INTERRUPT_PRIORITY` to `configLIBRARY_LOWEST_INTERRUPT_PRIORITY`
may call the `FromISR` functions of the kernel, more urgent ones (lower numbers) never. -/
def fromISRAllowed (priority : Nat) : Bool :=
  decide (configLIBRARY_MAX_SYSCALL_INTERRUPT_PRIORITY ≤ priority) &&
    decide (priority ≤ configLIBRARY_LOWEST_INTERRUPT_PRIORITY)

/-- Modelled from the spec: the interrupt controller is not among the demo sources; a
priority level is held in the top `configPRIO_BITS` bits of a priority byte, the form in
which the two kernel priorities above are written. -/
def priorityByte (priority : Nat) : Nat := (priority <<< (8 - configPRIO_BITS)) % 256

/-- Modelled from the spec: the port layer behind `portENTER_CRITICAL` is not among the
demo sources; a critical section briefly disables the relevant interrupt class, the
interrupts whose priority byte is `configMAX_SYSCALL_INTERRUPT_PRIORITY` or numerically
above it, and that mask is in force only for a non-zero value. -/
def maskedInCritical (byte : Nat) : Bool :=
  decide (configMAX_SYSCALL_INTERRUPT_PRIORITY ≠ 0) &&
    decide (configMAX_SYSCALL_INTERRUPT_PRIORITY ≤ byte)

/-! ## Creation failures -/

/-- Constant `configUSE_MALLOC_FAILED_HOOK` of `FreeRTOSConfig.h`: with 1 the kernel calls
`vApplicationMallocFailedHook()` whenever heap memory runs out. -/
def configUSE_MALLOC_FAILED_HOOK : Nat := 1

/-- Modelled from the spec: the kernel constant `errCOULD_NOT_ALLOCATE_REQUIRED_MEMORY` is
not among the demo sources; it is the status of a creation that found no memory, -1. -/
def errCOULD_NOT_ALLOCATE_REQUIRED_MEMORY : Int := -1

/-- How a call of `xTaskCreate` ends: it returns a status, or it never returns because the
kernel has called `vApplicationMallocFailedHook`, whose body in `main.c` is `for (;;);`. -/
inductive CreateResult
  | returned (status : Int)
  | vApplicationMallocFailedHook
  deriving DecidableEq, Repr

/-- Modelled from the spec: `xTaskCreate` and the heap behind it are kernel code that is not
among the demo sources. A creation takes the memory of the task from the heap and returns
`pdPASS`; `allocated` says whether the heap had room. Without room the creation fails, which
at startup is fatal and halts before scheduling starts: with `configUSE_MALLOC_FAILED_HOOK`
at 1 the kernel calls `vApplicationMallocFailedHook`, which does not return; only without
the hook would the call return `errCOULD_NOT_ALLOCATE_REQUIRED_MEMORY`. -/
def xTaskCreate (allocated : Bool) : CreateResult :=
  if allocated = true then .returned pdPASS
  else if configUSE_MALLOC_FAILED_HOOK = 1 then .vApplicationMallocFailedHook
  else .returned errCOULD_NOT_ALLOCATE_REQUIRED_MEMORY

/-- A run of `main` on the kernel: what `main` itself has done, and the task whose creation
ended in `vApplicationMallocFailedHook`, if one did. -/
structure Startup where
  run : MainRun
  inHook : Option TaskHandle_t
  deriving DecidableEq, Repr

/-- Statements `status = xTaskCreate(.., &handle); configASSERT(status = pdPASS);` of `main`
on the kernel: the assertion is reached only when `xTaskCreate` returns. -/
def Startup.create (b : Startup) (h : TaskHandle_t) (allocated : Bool) : Startup :=
  if b.inHook.isSome = true then b
  else
    match xTaskCreate allocated with
    | .returned status => { b with run := (b.run.create h status).assertStatus }
    | .vApplicationMallocFailedHook => { b with inHook := some h }

/-- A statement of `main` that calls nothing in which it could get stuck; it is not reached
once a creation has ended in the hook. -/
def Startup.next (b : Startup) (statement : MainRun → MainRun) : Startup :=
  if b.inHook.isSome = true then b else { b with run := statement b.run }

end TaskNotification

namespace BinarySemaphore

/-! ## Data model -/

/-- Constant `ITEM_COUNT`, the sentinel of `SupplyItem_e`: the number of item types. -/
def ITEM_COUNT : Nat := 8

/-- Constant `ORDER_QUEUE_DEPTH`. -/
def ORDER_QUEUE_DEPTH : Nat := 1

/-- Constant `MAX_ORDER_QUANTITY`. -/
def MAX_ORDER_QUANTITY : Nat := 15

/-- Constant `MASTER_TASK_PRIORITY`. -/
def MASTER_TASK_PRIORITY : Nat := 3

/-- Constant `SLAVE_TASK_PRIORITY`. -/
def SLAVE_TASK_PRIORITY : Nat := 1

/-- Structure `WorkOrder_t`; `eItem` is the numeric value of the `SupplyItem_e` enumerator. -/
structure WorkOrder_t where
  usOrderId : Nat
  eItem : Nat
  ucQuantity : Nat
  deriving DecidableEq, Repr

/-- The lines the two tasks print through `vConsolePrint`, by format string and arguments. -/
inductive Line
  /-- Format `"[MASTER] Order #%u  ->  Distribute %u x %s"`. -/
  | masterOrder (usOrderId ucQuantity eItem : Nat)
  /-- Format `"[MASTER] ERROR: enqueue failed for order #%u"`. -/
  | masterError (usOrderId : Nat)
  /-- Format `"  [SLAVE] Handing out %s %u of %u ..."`. -/
  | slaveHandingOut (eItem ucUnit ucQuantity : Nat)
  /-- Format `"  [SLAVE] Order #%u COMPLETE  (%u x %s delivered)"`. -/
  | slaveComplete (usOrderId ucQuantity eItem : Nat)
  /-- Format `"  [SLAVE] WARNING: semaphore received but queue empty"`. -/
  | slaveWarning
  deriving DecidableEq, Repr

/-- Calls made by the two tasks. `vTaskDelay ms` stands for `vTaskDelay(pdMS_TO_TICKS(ms))`,
`xQueueReceive none` for a receive that did not return `pdPASS`. -/
inductive Action
  | xSemaphoreGive (ret : Bool)
  | vConsolePrint (line : Line)
  | xQueueSend (order : WorkOrder_t) (ret : Bool)
  | vTaskDelay (ms : Nat)
  | xSemaphoreTake (ret : Bool)
  | xQueueReceive (ret : Option WorkOrder_t)
  deriving DecidableEq, Repr

/-- Control locations of `vMasterTask`: the statement executed next. -/
inductive MasterLoc
  /-- The priming `xSemaphoreGive` before the loop. -/
  | prime
  /-- Statement `usSequenceCounter++` and the three assignments to `xOrder`. -/
  | build
  /-- Statement `vConsolePrint("[MASTER] Order ...")`. -/
  | print
  /-- Statement `xQueueSend(g_xOrderQueue, &xOrder, portMAX_DELAY)`; the task is blocked here while
  the queue is full. -/
  | send
  /-- Statement `vConsolePrint("[MASTER] ERROR ...")`, reached when `xQueueStatus != pdPASS`. -/
  | reportError
  /-- Statement `xSemaphoreGive(g_xOrderReadySemaphore)` inside the loop. -/
  | give
  /-- Statement `vTaskDelay(pdMS_TO_TICKS(1000))`, about to be called. -/
  | delay
  /-- Blocked inside `vTaskDelay` until the delay is over. -/
  | sleeping
  deriving DecidableEq, Repr

/-- Control locations of `vSlaveTask`: the statement executed next. -/
inductive SlaveLoc
  /-- Statement `xSemaphoreTake(g_xOrderReadySemaphore, portMAX_DELAY)`; blocked here while the
  semaphore is empty. -/
  | take
  /-- Statement `xQueueReceive(g_xOrderQueue, &xReceivedOrder, 0)` and the test of its result. -/
  | receive
  /-- Statement `ucUnit = 1U`. -/
  | loopInit
  /-- Statement `ucUnit <= xReceivedOrder.ucQuantity`. -/
  | loopTest
  /-- Statement `vConsolePrint("  [SLAVE] Handing out ...")`. -/
  | handOut
  /-- Statement `vTaskDelay(pdMS_TO_TICKS(50))`, about to be called. -/
  | handOutDelay
  /-- Blocked inside `vTaskDelay` until the delay is over. -/
  | handOutSleeping
  /-- Statement `ucUnit++`. -/
  | loopIncr
  /-- Statement `vConsolePrint("  [SLAVE] Order #%u COMPLETE ...")`. -/
  | complete
  /-- Statement `vConsolePrint("  [SLAVE] WARNING ...")`. -/
  | warning
  deriving DecidableEq, Repr

/-! ## Kernel objects -/

/-- Modelled from the spec: the queue behind `g_xOrderQueue` is a bounded handoff channel,
a FIFO of at most `uxLength` orders. -/
structure Queue_t where
  uxLength : Nat
  items : List WorkOrder_t
  deriving DecidableEq, Repr

/-- Modelled from the spec: `xQueueCreate(uxQueueLength, ..)` yields an empty channel of the
given capacity. -/
def xQueueCreate (uxQueueLength : Nat) : Queue_t := { uxLength := uxQueueLength, items := [] }

/-- Whether every slot of the queue is occupied. -/
def Queue_t.full (q : Queue_t) : Bool := decide (q.uxLength ≤ q.items.length)

/-- Modelled from the spec: `send` writes the order behind the ones already stored when a
slot is free and reports success; while the queue is full it stores nothing (the caller
stays blocked, and a send that gives up reports failure). -/
def xQueueSend (q : Queue_t) (order : WorkOrder_t) : Queue_t × Bool :=
  if q.full = true then (q, false) else ({ q with items := q.items ++ [order] }, true)

/-- Modelled from the spec: `receive` with timeout 0 removes and returns the oldest stored
order, or fails at once when the queue is empty. -/
def xQueueReceive (q : Queue_t) : Queue_t × Option WorkOrder_t :=
  match q.items with
  | [] => (q, none)
  | o :: rest => ({ q with items := rest }, some o)

/-- Modelled from the spec: `xSemaphoreCreateBinary` yields a readiness counter capped at 1
that starts at 0 (the source: "Binary semaphore starts taken"). -/
def xSemaphoreCreateBinary : Nat := 0

/-- Modelled from the spec: a give raises the counter to 1; a give on a counter already at 1
changes nothing and does not accumulate. Returns the new counter and whether it was raised. -/
def xSemaphoreGive (count : Nat) : Nat × Bool :=
  if count < 1 then (1, true) else (count, false)

/-- Modelled from the spec: a take lowers a non-zero counter and returns; on a zero counter
the caller stays blocked. Returns the new counter and whether the take went through. -/
def xSemaphoreTake (count : Nat) : Nat × Bool :=
  if 0 < count then (count - 1, true) else (count, false)

/-! ## Program state -/

/-- The state of the demo: the two kernel objects, the master's static counter and local
order, the slave's local order (`none` while uninitialised) and loop counter, and the control
locations of the two tasks. -/
structure System where
  g_xOrderReadySemaphore : Nat
  g_xOrderQueue : Queue_t
  usSequenceCounter : Nat
  xOrder : WorkOrder_t
  master : MasterLoc
  xReceivedOrder : Option WorkOrder_t
  ucUnit : Nat
  slave : SlaveLoc
  deriving DecidableEq, Repr

/-- The state in which `main` starts the scheduler: semaphore and queue freshly created,
both tasks created and not yet run. -/
def main_state : System :=
  { g_xOrderReadySemaphore := xSemaphoreCreateBinary
    g_xOrderQueue := xQueueCreate ORDER_QUEUE_DEPTH
    usSequenceCounter := 0
    xOrder := { usOrderId := 0, eItem := 0, ucQuantity := 0 }
    master := .prime
    xReceivedOrder := none
    ucUnit := 0
    slave := .take }

/-! ## The two tasks -/

/-- One statement of `vMasterTask`. `r1` and `r2` are the values the two `rand()` calls of
the `build` statement return (non-negative). A master blocked in `xQueueSend` or in
`vTaskDelay` makes no progress by itself. -/
def vMasterTask (s : System) (r1 r2 : Nat) : System × List Action :=
  match s.master with
  | .prime =>
    let g := xSemaphoreGive s.g_xOrderReadySemaphore
    ({ s with g_xOrderReadySemaphore := g.1, master := .build }, [.xSemaphoreGive g.2])
  | .build =>
    let c := (s.usSequenceCounter + 1) % 65536
    ({ s with
        usSequenceCounter := c
        xOrder :=
          { usOrderId := c
            eItem := r1 % ITEM_COUNT
            ucQuantity := ((r2 % MAX_ORDER_QUANTITY) + 1) % 256 }
        master := .print }, [])
  | .print =>
    ({ s with master := .send },
      [.vConsolePrint (.masterOrder s.xOrder.usOrderId s.xOrder.ucQuantity s.xOrder.eItem)])
  | .send =>
    let q := xQueueSend s.g_xOrderQueue s.xOrder
    if q.2 = true then
      ({ s with g_xOrderQueue := q.1, master := .give }, [.xQueueSend s.xOrder true])
    else (s, [])
  | .reportError =>
    ({ s with master := .build }, [.vConsolePrint (.masterError s.xOrder.usOrderId)])
  | .give =>
    let g := xSemaphoreGive s.g_xOrderReadySemaphore
    ({ s with g_xOrderReadySemaphore := g.1, master := .delay }, [.xSemaphoreGive g.2])
  | .delay => ({ s with master := .sleeping }, [.vTaskDelay 1000])
  | .sleeping => (s, [])

/-- A master blocked in `xQueueSend` on a full queue gives up: the call returns something
other than `pdPASS` and the master goes to its error branch. -/
def masterSendTimeout (s : System) : System × List Action :=
  if s.master = .send ∧ s.g_xOrderQueue.full = true then
    ({ s with master := .reportError }, [.xQueueSend s.xOrder false])
  else (s, [])

/-- The master's 1000 ms delay is over: `vTaskDelay` returns and the loop starts again. -/
def masterWake (s : System) : System × List Action :=
  if s.master = .sleeping then ({ s with master := .build }, []) else (s, [])

/-- One statement of `vSlaveTask`. A slave blocked in `xSemaphoreTake` or in `vTaskDelay`
makes no progress by itself. -/
def vSlaveTask (s : System) : System × List Action :=
  match s.slave with
  | .take =>
    let t := xSemaphoreTake s.g_xOrderReadySemaphore
    if t.2 = true then
      ({ s with g_xOrderReadySemaphore := t.1, slave := .receive }, [.xSemaphoreTake true])
    else (s, [])
  | .receive =>
    let q := xQueueReceive s.g_xOrderQueue
    match q.2 with
    | some o =>
      ({ s with g_xOrderQueue := q.1, xReceivedOrder := some o, slave := .loopInit },
        [.xQueueReceive (some o)])
    | none => ({ s with g_xOrderQueue := q.1, slave := .warning }, [.xQueueReceive none])
  | .loopInit => ({ s with ucUnit := 1, slave := .loopTest }, [])
  | .loopTest =>
    match s.xReceivedOrder with
    | some o =>
      if s.ucUnit ≤ o.ucQuantity then ({ s with slave := .handOut }, [])
      else ({ s with slave := .complete }, [])
    | none => (s, [])
  | .handOut =>
    match s.xReceivedOrder with
    | some o =>
      ({ s with slave := .handOutDelay },
        [.vConsolePrint (.slaveHandingOut o.eItem s.ucUnit o.ucQuantity)])
    | none => (s, [])
  | .handOutDelay => ({ s with slave := .handOutSleeping }, [.vTaskDelay 50])
  | .handOutSleeping => (s, [])
  | .loopIncr => ({ s with ucUnit := (s.ucUnit + 1) % 256, slave := .loopTest }, [])
  | .complete =>
    match s.xReceivedOrder with
    | some o =>
      ({ s with slave := .take },
        [.vConsolePrint (.slaveComplete o.usOrderId o.ucQuantity o.eItem)])
    | none => (s, [])
  | .warning => ({ s with slave := .take }, [.vConsolePrint .slaveWarning])

/-- The slave's 50 ms delay is over: `vTaskDelay` returns. -/
def slaveWake (s : System) : System × List Action :=
  if s.slave = .handOutSleeping then ({ s with slave := .loopIncr }, []) else (s, [])

/-! ## Scheduling -/

/-- What can happen next. -/
inductive Event
  /-- The master executes its next statement; `r1`, `r2` feed its `rand()` calls. -/
  | master (r1 r2 : Nat)
  /-- The master's blocked `xQueueSend` gives up. -/
  | masterSendTimeout
  /-- The master's delay is over. -/
  | masterWake
  /-- The slave executes its next statement. -/
  | slave
  /-- The slave's delay is over. -/
  | slaveWake
  deriving DecidableEq, Repr

/-- The master cannot run: it sleeps in `vTaskDelay` or waits in `xQueueSend` for a slot. -/
def masterBlocked (s : System) : Bool :=
  decide (s.master = .sleeping) || (decide (s.master = .send) && s.g_xOrderQueue.full)

/-- The slave cannot run: it sleeps in `vTaskDelay` or waits in `xSemaphoreTake`. -/
def slaveBlocked (s : System) : Bool :=
  decide (s.slave = .handOutSleeping) ||
    (decide (s.slave = .take) && decide (s.g_xOrderReadySemaphore = 0))

/-- Preemptive fixed-priority scheduling of the two tasks: the master
(`MASTER_TASK_PRIORITY` 3) runs whenever it is not blocked, the slave
(`SLAVE_TASK_PRIORITY` 1) only while the master is blocked. The master blocks in
`vTaskDelay` and in `xQueueSend` on a full queue only; `vConsolePrint` polls the UART and
does not block. Timer expiries can come at any moment. -/
def enabled (s : System) : Event → Bool
  | .master _ _ => !masterBlocked s
  | .masterSendTimeout => decide (s.master = .send) && s.g_xOrderQueue.full
  | .masterWake => decide (s.master = .sleeping)
  | .slave => masterBlocked s && !slaveBlocked s
  | .slaveWake => decide (s.slave = .handOutSleeping)

/-- Effect of one event. -/
def step (s : System) : Event → System × List Action
  | .master r1 r2 => vMasterTask s r1 r2
  | .masterSendTimeout => masterSendTimeout s
  | .masterWake => masterWake s
  | .slave => vSlaveTask s
  | .slaveWake => slaveWake s

/-- States reachable from `main_state` by interleaving the statements of the two tasks and
the timer expiries in any order whatsoever (a blocked task makes no progress), together with
the calls made so far. -/
inductive Interleaved : System → List Action → Prop
  | init : Interleaved main_state []
  | next (s : System) (tr : List Action) (e : Event) :
      Interleaved s tr → Interleaved (step s e).1 (tr ++ (step s e).2)

/-- The executions of the demo: states reachable from `main_state` under the scheduling
rule, together with the calls made so far. -/
inductive Reachable : System → List Action → Prop
  | init : Reachable main_state []
  | next (s : System) (tr : List Action) (e : Event) :
      Reachable s tr → enabled s e = true → Reachable (step s e).1 (tr ++ (step s e).2)

/-- Runs a list of events one after the other, collecting the calls. -/
def exec (s : System) : List Event → System × List Action
  | [] => (s, [])
  | e :: es =>
    let r := step s e
    let r2 := exec r.1 es
    (r2.1, r.2 ++ r2.2)

/-- Whether every event of a list is enabled when its turn comes. -/
def allEnabled (s : System) : List Event → Bool
  | [] => true
  | e :: es => enabled s e && allEnabled (step s e).1 es

/-- The orders successfully enqueued in a trace, in order. -/
def sent : List Action → List WorkOrder_t
  | [] => []
  | .xQueueSend o true :: as => o :: sent as
  | _ :: as => sent as

/-- The orders dequeued in a trace, in order. -/
def received : List Action → List WorkOrder_t
  | [] => []
  | .xQueueReceive (some o) :: as => o :: received as
  | _ :: as => received as

/-- The master's queue sends and semaphore gives in a trace, in order. -/
def signalling : List Action → List Action
  | [] => []
  | .xQueueSend o r :: as => .xQueueSend o r :: signalling as
  | .xSemaphoreGive r :: as => .xSemaphoreGive r :: signalling as
  | _ :: as => signalling as

/-- The handoff invariant: at most one order is stored and the counter is at most 1; before
the priming give nothing has happened; the counter is up over an empty queue only between
the priming give and the first send, while the slave has not run; a slave that has taken the
semaphore finds an order stored; and a master between its send and its sleep has its order
stored. -/
def handoffInv (s : System) : Prop :=
  s.g_xOrderQueue.uxLength = 1 ∧ s.g_xOrderQueue.items.length ≤ 1 ∧
  s.g_xOrderReadySemaphore ≤ 1 ∧
  (s.master = .prime →
    s.g_xOrderReadySemaphore = 0 ∧ s.g_xOrderQueue.items = [] ∧ s.slave = .take) ∧
  (s.g_xOrderReadySemaphore = 1 → s.g_xOrderQueue.items = [] →
    (s.master = .build ∨ s.master = .print ∨ s.master = .send) ∧ s.slave = .take) ∧
  (s.slave = .receive → s.g_xOrderQueue.items ≠ [] ∧ s.g_xOrderReadySemaphore = 0) ∧
  (s.master = .give ∨ s.master = .delay →
    s.g_xOrderQueue.items ≠ [] ∧ s.slave ≠ .receive) ∧
  s.slave ≠ .warning

/-! ## The entry point -/

/-- Calls made by `main` of the demo, and the endless loop it ends in. -/
inductive MainAction
  | vConsolePrint (text : String)
  | xSemaphoreCreateBinary (created : Bool)
  | xQueueCreate (uxQueueLength : Nat) (created : Bool)
  | xTaskCreate (pcName : String) (uxPriority : Nat)
  | vTaskStartScheduler
  /-- Statement `while (1) { }` at the end of `main`. -/
  | spin
  deriving DecidableEq, Repr

/-- The banner `main` prints first. -/
def bannerLine : String := "\r\n===== Master-Slave Stationery Distribution Demo =====\r\n\r\n"

/-- The line `main` prints when it gets past the `if`. -/
def createFailedLine : String := "[ERROR] Failed to create semaphore or queue.\r\n"

/-- The user code of `main`. `semCreated` and `queueCreated` say whether
`xSemaphoreCreateBinary` and `xQueueCreate` returned a non-NULL handle, `schedulerReturns`
whether `vTaskStartScheduler` came back (it does not return on success). -/
def main (semCreated queueCreated schedulerReturns : Bool) : List MainAction :=
  [.vConsolePrint bannerLine, .xSemaphoreCreateBinary semCreated,
    .xQueueCreate ORDER_QUEUE_DEPTH queueCreated] ++
  (if semCreated = true ∧ queueCreated = true then
    [.xTaskCreate "Master" MASTER_TASK_PRIORITY, .xTaskCreate "Slave" SLAVE_TASK_PRIORITY,
      .vTaskStartScheduler] ++
    (if schedulerReturns = true then [.vConsolePrint createFailedLine, .spin] else [])
  else [.vConsolePrint createFailedLine, .spin])

/-! ## The calls of the master -/

/-- Whether a call in a trace was made by the master. -/
def isMasterCall : Action → Bool
  | .xSemaphoreGive _ => true
  | .xQueueSend _ _ => true
  | .vTaskDelay ms => decide (ms = 1000)
  | .vConsolePrint (.masterOrder _ _ _) => true
  | .vConsolePrint (.masterError _) => true
  | _ => false

/-- The calls of the master in a trace, in order. -/
def masterCalls (tr : List Action) : List Action := tr.filter isMasterCall

/-- Which call of the master can come directly after which: after a failed send the error
line for that order, after the error line the line of a new order with the next sequence id,
after the line of an order the send of that order, after a successful send a give, after a
give the delay or (after the priming give) the line of an order, after the delay the line of
an order. -/
def masterFollows : Action → Action → Prop
  | .xQueueSend o false, y => y = .vConsolePrint (.masterError o.usOrderId)
  | .xQueueSend _ true, y => ∃ r, y = .xSemaphoreGive r
  | .vConsolePrint (.masterError id), y =>
    ∃ q it, y = .vConsolePrint (.masterOrder ((id + 1) % 65536) q it)
  | .vConsolePrint (.masterOrder id q it), y =>
    ∃ r, y = .xQueueSend { usOrderId := id, eItem := it, ucQuantity := q } r
  | .xSemaphoreGive _, y =>
    y = .vTaskDelay 1000 ∨ ∃ id q it, y = .vConsolePrint (.masterOrder id q it)
  | .vTaskDelay _, y => ∃ id q it, y = .vConsolePrint (.masterOrder id q it)
  | _, _ => True

/-- How the location of the master relates to the calls it has made so far. -/
def masterInv (m : MasterLoc) (xOrder : WorkOrder_t) (usSequenceCounter : Nat)
    (l : List Action) : Prop :=
  match m with
  | .prime => l = []
  | .build =>
    (∃ r, l = [.xSemaphoreGive r]) ∨
    l.getLast? = some (.vConsolePrint (.masterError usSequenceCounter)) ∨
    (∃ l2 o r, l = l2 ++ [.xQueueSend o true, .xSemaphoreGive r, .vTaskDelay 1000])
  | .print =>
    xOrder.usOrderId = usSequenceCounter ∧
    ((∃ r, l = [.xSemaphoreGive r]) ∨
      (∃ id, l.getLast? = some (.vConsolePrint (.masterError id)) ∧
        xOrder.usOrderId = (id + 1) % 65536) ∨
      (∃ l2 o r, l = l2 ++ [.xQueueSend o true, .xSemaphoreGive r, .vTaskDelay 1000]))
  | .send =>
    xOrder.usOrderId = usSequenceCounter ∧
    l.getLast? = some
      (.vConsolePrint (.masterOrder xOrder.usOrderId xOrder.ucQuantity xOrder.eItem))
  | .reportError =>
    xOrder.usOrderId = usSequenceCounter ∧ l.getLast? = some (.xQueueSend xOrder false)
  | .give => l.getLast? = some (.xQueueSend xOrder true)
  | .delay => ∃ l2 o r, l = l2 ++ [.xQueueSend o true, .xSemaphoreGive r]
  | .sleeping => ∃ l2 o r, l = l2 ++ [.xQueueSend o true, .xSemaphoreGive r, .vTaskDelay 1000]

/-- Every delay of the master comes directly after a successful send and a give. -/
def delayAfterGive (l : List Action) : Prop :=
  ∀ i, l[i]? = some (.vTaskDelay 1000) →
    ∃ j o r, i = j + 2 ∧ l[j]? = some (.xQueueSend o true) ∧
      l[j + 1]? = some (.xSemaphoreGive r)

/-- The master's location, the calls it has made, and their order. -/
def masterTraceInv (s : System) (l : List Action) : Prop :=
  masterInv s.master s.xOrder s.usSequenceCounter l ∧ List.Chain' masterFollows l ∧
    delayAfterGive l

/-! ## The orders the master builds -/

/-- The order an event builds, if any: the master's `build` statement yields the new value
of `xOrder`. -/
def builtBy (s : System) : Event → List WorkOrder_t
  | .master r1 r2 => if s.master = .build then [(step s (.master r1 r2)).1.xOrder] else []
  | _ => []

/-- The orders `vMasterTask` has built while a list of events runs, in order. -/
def built (s : System) : List Event → List WorkOrder_t
  | [] => []
  | e :: es => builtBy s e ++ built (step s e).1 es

/-- One pass of both tasks in scheduling order when both `rand()` calls return 0 (one Pen):
the master builds, prints, sends, gives and delays; the slave takes, receives, hands out the
one unit and completes; then the master's delay is over. -/
def pass : List Event :=
  [.master 0 0, .master 0 0, .master 0 0, .master 0 0, .master 0 0,
   .slave, .slave, .slave, .slave, .slave, .slave, .slaveWake, .slave, .slave, .slave,
   .masterWake]

/-- The schedule from boot in which the master primes the semaphore and `n` passes follow. -/
def passes (n : Nat) : List Event := .master 0 0 :: (List.replicate n pass).flatten

/-- The state between two passes: the master about to build with its counter at `c`, the
slave waiting for the semaphore, the queue empty. -/
def betweenPasses (c sem : Nat) (xOrder : WorkOrder_t) (xReceivedOrder : Option WorkOrder_t)
    (ucUnit : Nat) : System :=
  { g_xOrderReadySemaphore := sem
    g_xOrderQueue := { uxLength := 1, items := [] }
    usSequenceCounter := c
    xOrder := xOrder
    master := .build
    xReceivedOrder := xReceivedOrder
    ucUnit := ucUnit
    slave := .take }

/-! ## The run of the slave -/

/-- Runs `vSlaveTask` from its current statement until it is back at its `xSemaphoreTake`,
for at most `fuel` statements; a 50 ms delay the slave sleeps in runs out. -/
def runSlave : Nat → System → System × List Action
  | 0, s => (s, [])
  | n + 1, s =>
    if s.slave = .take then (s, [])
    else
      let r := if s.slave = .handOutSleeping then slaveWake s else vSlaveTask s
      let r2 := runSlave n r.1
      (r2.1, r.2 ++ r2.2)

/-- The calls of the hand-out of `n` units from unit `u` on, as the comment of `vSlaveTask`
describes it: for each unit in ascending order one "Handing out" line and a 50 ms delay. -/
def handOutCalls (o : WorkOrder_t) : Nat → Nat → List Action
  | _, 0 => []
  | u, n + 1 =>
    [.vConsolePrint (.slaveHandingOut o.eItem u o.ucQuantity), .vTaskDelay 50] ++
      handOutCalls o (u + 1) n

/-! ## Item names -/

/-- Enumerator `ITEM_PEN` of `SupplyItem_e`. -/
def ITEM_PEN : Nat := 0

/-- Enumerator `ITEM_PENCIL` of `SupplyItem_e`. -/
def ITEM_PENCIL : Nat := 1

/-- Enumerator `ITEM_ERASER` of `SupplyItem_e`. -/
def ITEM_ERASER : Nat := 2

/-- Enumerator `ITEM_NOTEBOOK` of `SupplyItem_e`. -/
def ITEM_NOTEBOOK : Nat := 3

/-- Enumerator `ITEM_MARKER` of `SupplyItem_e`. -/
def ITEM_MARKER : Nat := 4

/-- Enumerator `ITEM_STAPLER` of `SupplyItem_e`. -/
def ITEM_STAPLER : Nat := 5

/-- Enumerator `ITEM_FOLDER` of `SupplyItem_e`. -/
def ITEM_FOLDER : Nat := 6

/-- Enumerator `ITEM_STICKY_NOTE` of `SupplyItem_e`. -/
def ITEM_STICKY_NOTE : Nat := 7

/-- The table `g_apcItemNames[ITEM_COUNT]`: `ITEM_COUNT` pointers, `NULL` (`none`) unless a
designated initialiser names the index. -/
def g_apcItemNames : List (Option String) :=
  ((((((((List.replicate ITEM_COUNT none).set ITEM_PEN (some "Pen")).set
    ITEM_PENCIL (some "Pencil")).set
    ITEM_ERASER (some "Eraser")).set
    ITEM_NOTEBOOK (some "Notebook")).set
    ITEM_MARKER (some "Marker")).set
    ITEM_STAPLER (some "Stapler")).set
    ITEM_FOLDER (some "Folder")).set
    ITEM_STICKY_NOTE (some "Sticky Note")

/-- The index at which a line looks up `g_apcItemNames` for its `%s` argument, if it prints
an item name. -/
def Line.itemIndex : Line → Option Nat
  | .masterOrder _ _ eItem => some eItem
  | .slaveHandingOut eItem _ _ => some eItem
  | .slaveComplete _ _ eItem => some eItem
  | .masterError _ => none
  | .slaveWarning => none

/-- The indices at which the lines printed in a trace look up `g_apcItemNames`. -/
def nameLookups : List Action → List Nat
  | [] => []
  | .vConsolePrint line :: as =>
    (match line.itemIndex with
      | some i => [i]
      | none => []) ++ nameLookups as
  | _ :: as => nameLookups as

/-- Every item that is or will be looked up is an enumerator: the order the master has
built (from its print on), the orders in the queue and the order the slave holds. -/
def itemsInv (s : System) : Prop :=
  (s.master = .prime ∨ s.master = .build ∨ s.xOrder.eItem < ITEM_COUNT) ∧
  (∀ o ∈ s.g_xOrderQueue.items, o.eItem < ITEM_COUNT) ∧
  (∀ o, s.xReceivedOrder = some o → o.eItem < ITEM_COUNT)

end BinarySemaphore

namespace MutexDemo

/-! ## Data model -/

/-- Who makes a call: `main` before the scheduler runs, or one of the two tasks. -/
inductive Caller
  | main
  | vTask1
  | vTask2
  deriving DecidableEq, Repr

/-- The string `pcTask1String`. -/
def pcTask1String : String :=
  "Task1 ::::: Hello from low-priority task, this is a task1\x27s string to show the problem\r\n"

/-- The string `pcTask2String`. -/
def pcTask2String : String :=
  "Task2 ----- Hello from high-priority task, this string can interrupt Task1 anytime if USE_MUTEX not defined\r\n"

/-- The banner `main` prints through `vPrint` when `USE_MUTEX` is defined. -/
def bannerLine : String := "\r\n=== Mutex ENABLED - output should be CLEAN ===\r\n\r\n"

/-- The bytes of the message a task prints: the characters before the terminating NUL. -/
def message : Caller → List Char
  | .vTask1 => pcTask1String.toList
  | .vTask2 => pcTask2String.toList
  | .main => bannerLine.toList

/-- Calls made by `main` and the two tasks. `HAL_UART_Transmit data` sends the bytes `data`
(`pData` and `Size` of the call), `vTaskDelay ms` stands for `vTaskDelay(pdMS_TO_TICKS(ms))`. -/
inductive Call
  | xSemaphoreTake (ret : Bool)
  | HAL_UART_Transmit (data : List Char)
  | xSemaphoreGive (ret : Bool)
  | vTaskDelay (ms : Nat)
  | xSemaphoreCreateMutex
  | xTaskCreate (pcName : String) (uxPriority : Nat)
  | vTaskStartScheduler
  deriving DecidableEq, Repr

/-- A call together with its caller. -/
structure Action where
  caller : Caller
  call : Call
  deriving DecidableEq, Repr

/-- Control locations of `vTask1` and `vTask2`, which share one shape (`USE_MUTEX` defined):
the statement executed next. -/
inductive Loc
  /-- Statement `xSemaphoreTake(g_xMutex, portMAX_DELAY)`; the task is blocked here while the
  mutex is held. -/
  | take
  /-- Statement `pcChar = pcTaskNString`. -/
  | init
  /-- Test `*pcChar != 0` of the `while` loop. -/
  | test
  /-- Statement `HAL_UART_Transmit(&huart2, (uint8_t *)pcChar, 1, HAL_MAX_DELAY)`. -/
  | transmit
  /-- Statement `pcChar++`. -/
  | incr
  /-- Statement `xSemaphoreGive(g_xMutex)`. -/
  | give
  /-- Statement `vTaskDelay(..)`, about to be called. -/
  | delay
  /-- Blocked inside `vTaskDelay` until the delay is over. -/
  | sleeping
  deriving DecidableEq, Repr

/-- The local state of a task: its location and `pcChar`, as an offset into its string. -/
structure TaskState where
  loc : Loc
  pcChar : Nat
  deriving DecidableEq, Repr

/-- The state of the demo once the scheduler runs: the holder of `g_xMutex` (`none` when the
mutex is free) and the two tasks. -/
structure System where
  g_xMutex : Option Caller
  vTask1 : TaskState
  vTask2 : TaskState
  deriving DecidableEq, Repr

/-! ## Kernel objects -/

/-- Modelled from the spec: `acquire` on the mutual-exclusion lock goes through when the
lock is free and makes the caller its owner; otherwise the caller stays blocked. Returns the
new owner and whether the caller got the lock. -/
def xSemaphoreTake (holder : Option Caller) (caller : Caller) : Option Caller × Bool :=
  match holder with
  | none => (some caller, true)
  | some _ => (holder, false)

/-- Modelled from the spec: `release` frees the lock when the caller is its owner and fails,
changing nothing, when it is not. Returns the new owner and whether the lock was freed. -/
def xSemaphoreGive (holder : Option Caller) (caller : Caller) : Option Caller × Bool :=
  if holder = some caller then (none, true) else (holder, false)

/-! ## The two tasks -/

/-- One statement of the loop body `vTask1` and `vTask2` share: `me` is the task, `ms` the
argument of its `vTaskDelay`. A task blocked in `xSemaphoreTake` or `vTaskDelay` makes no
progress by itself. -/
def taskBody (me : Caller) (ms : Nat) (holder : Option Caller) (t : TaskState) :
    (Option Caller × TaskState) × List Action :=
  match t.loc with
  | .take =>
    let r := xSemaphoreTake holder me
    if r.2 = true then ((r.1, { t with loc := .init }), [⟨me, .xSemaphoreTake true⟩])
    else ((holder, t), [])
  | .init => ((holder, { loc := .test, pcChar := 0 }), [])
  | .test =>
    if t.pcChar < (message me).length then ((holder, { t with loc := .transmit }), [])
    else ((holder, { t with loc := .give }), [])
  | .transmit =>
    ((holder, { t with loc := .incr }),
      [⟨me, .HAL_UART_Transmit [(message me).getD t.pcChar (Char.ofNat 0)]⟩])
  | .incr => ((holder, { loc := .test, pcChar := t.pcChar + 1 }), [])
  | .give =>
    let r := xSemaphoreGive holder me
    ((r.1, { t with loc := .delay }), [⟨me, .xSemaphoreGive r.2⟩])
  | .delay => ((holder, { t with loc := .sleeping }), [⟨me, .vTaskDelay ms⟩])
  | .sleeping => ((holder, t), [])

/-- One statement of `vTask1`, which prints `pcTask1String` and delays 100 ms. -/
def vTask1 (s : System) : System × List Action :=
  let r := taskBody .vTask1 100 s.g_xMutex s.vTask1
  ({ s with g_xMutex := r.1.1, vTask1 := r.1.2 }, r.2)

/-- One statement of `vTask2`, which prints `pcTask2String` and delays `rand() % 500` ms;
`r` is the value `rand()` returns. -/
def vTask2 (s : System) (r : Nat) : System × List Action :=
  let x := taskBody .vTask2 (r % 500) s.g_xMutex s.vTask2
  ({ s with g_xMutex := x.1.1, vTask2 := x.1.2 }, x.2)

/-- A delay is over: `vTaskDelay` returns and the loop starts again. -/
def wake (t : TaskState) : TaskState :=
  if t.loc = .sleeping then { t with loc := .take } else t

/-- The user code of `main` with `USE_MUTEX` defined: the banner goes out through `vPrint`
(one `HAL_UART_Transmit` of the formatted buffer), then the mutex and the two tasks are
created and the scheduler is started. -/
def main : List Action :=
  [⟨.main, .HAL_UART_Transmit bannerLine.toList⟩,
   ⟨.main, .xSemaphoreCreateMutex⟩,
   ⟨.main, .xTaskCreate "Task1-Low" 1⟩,
   ⟨.main, .xTaskCreate "Task2-High" 2⟩,
   ⟨.main, .vTaskStartScheduler⟩]

/-- The state in which the scheduler starts: the mutex free, both tasks not yet run. -/
def main_state : System :=
  { g_xMutex := none
    vTask1 := { loc := .take, pcChar := 0 }
    vTask2 := { loc := .take, pcChar := 0 } }

/-! ## Interleaving -/

/-- What can happen next: a task executes its next statement, or a delay is over. -/
inductive Event
  | task1
  | task2 (r : Nat)
  | wake1
  | wake2
  deriving DecidableEq, Repr

/-- Effect of one event. -/
def step (s : System) : Event → System × List Action
  | .task1 => vTask1 s
  | .task2 r => vTask2 s r
  | .wake1 => ({ s with vTask1 := wake s.vTask1 }, [])
  | .wake2 => ({ s with vTask2 := wake s.vTask2 }, [])

/-- States reachable from `main_state` by interleaving the statements of the two tasks and
the timer expiries in any order (every preemption pattern), with the calls made so far. -/
inductive Interleaved : System → List Action → Prop
  | init : Interleaved main_state []
  | next (s : System) (tr : List Action) (e : Event) :
      Interleaved s tr → Interleaved (step s e).1 (tr ++ (step s e).2)

/-- Runs a list of events one after the other, collecting the calls. -/
def exec (s : System) : List Event → System × List Action
  | [] => (s, [])
  | e :: es =>
    let r := step s e
    let r2 := exec r.1 es
    (r2.1, r.2 ++ r2.2)

/-- The bytes that went out on the UART in a trace, in order. -/
def uartBytes : List Action → List Char
  | [] => []
  | ⟨_, .HAL_UART_Transmit data⟩ :: as => data ++ uartBytes as
  | _ :: as => uartBytes as

/-- The calls of one caller in a trace, in order. -/
def callsOf (c : Caller) (tr : List Action) : List Call :=
  (tr.filter (fun a => decide (a.caller = c))).map Action.call

/-- Locations at which a task holds the mutex: after its take, up to its give. -/
def Loc.holds : Loc → Bool
  | .init | .test | .transmit | .incr | .give => true
  | _ => false

/-- The bytes of its message a task at the given location has transmitted so far. -/
def TaskState.sentBytes (t : TaskState) (msg : List Char) : List Char :=
  match t.loc with
  | .test | .transmit | .give => msg.take t.pcChar
  | .incr => msg.take (t.pcChar + 1)
  | _ => []

/-- The calls of one complete pass through the loop of a task: one take, one transmit per
byte of the message, one give, one delay of `ms`. -/
def iteration (msg : List Char) (ms : Nat) : List Call :=
  [.xSemaphoreTake true] ++ msg.map (fun c => Call.HAL_UART_Transmit [c]) ++
    [.xSemaphoreGive true, .vTaskDelay ms]

/-- The calls a task at the given location has made in its current pass through the loop. -/
def TaskState.progress (t : TaskState) (msg : List Char) : List Call :=
  match t.loc with
  | .take | .sleeping => []
  | .init => [.xSemaphoreTake true]
  | .test | .transmit | .give =>
    .xSemaphoreTake true :: (msg.take t.pcChar).map (fun c => Call.HAL_UART_Transmit [c])
  | .incr =>
    .xSemaphoreTake true :: (msg.take (t.pcChar + 1)).map (fun c => Call.HAL_UART_Transmit [c])
  | .delay =>
    .xSemaphoreTake true :: msg.map (fun c => Call.HAL_UART_Transmit [c]) ++
      [.xSemaphoreGive true]

/-- The bytes of the message in progress: those the holder of the mutex has transmitted. -/
def messageInProgress (s : System) : List Char :=
  match s.g_xMutex with
  | some .vTask1 => s.vTask1.sentBytes (message .vTask1)
  | some .vTask2 => s.vTask2.sentBytes (message .vTask2)
  | _ => []

/-- Where a task stands relative to its message: it transmits and increments only inside
the message and gives only past its end. -/
def TaskState.inBounds (t : TaskState) (msg : List Char) : Prop :=
  (t.loc = .transmit ∨ t.loc = .incr → t.pcChar < msg.length) ∧
  (t.loc = .give → msg.length ≤ t.pcChar)

/-- The lock invariant: the mutex is held by a task exactly while that task is between its
take and its give, and each task is in bounds. -/
def lockInv (s : System) : Prop :=
  s.g_xMutex ≠ some .main ∧
  (s.g_xMutex = some .vTask1 ↔ s.vTask1.loc.holds = true) ∧
  (s.g_xMutex = some .vTask2 ↔ s.vTask2.loc.holds = true) ∧
  s.vTask1.inBounds (message .vTask1) ∧ s.vTask2.inBounds (message .vTask2)

/-- Whether every `HAL_UART_Transmit` in a trace is made by the holder of the mutex;
`holder` is the holder where the trace begins, and takes and gives that went through move
the mutex. -/
def transmitsUnderLock : Option Caller → List Action → Bool
  | _, [] => true
  | holder, ⟨c, .xSemaphoreTake true⟩ :: as =>
    transmitsUnderLock (if holder = none then some c else holder) as
  | holder, ⟨c, .xSemaphoreGive true⟩ :: as =>
    transmitsUnderLock (if holder = some c then none else holder) as
  | holder, ⟨c, .HAL_UART_Transmit _⟩ :: as =>
    decide (holder = some c) && transmitsUnderLock holder as
  | holder, _ :: as => transmitsUnderLock holder as

/-! ## The delay of the high-priority task -/

/-- Modelled from the spec: the kernel macro `pdMS_TO_TICKS` and the tick rate of this demo
are not among the demo sources; the macro converts milliseconds to ticks at
`configTICK_RATE_HZ` ticks per second, in the 32-bit `TickType_t`. -/
def pdMS_TO_TICKS (configTICK_RATE_HZ xTimeInMs : Nat) : Nat :=
  ((xTimeInMs * configTICK_RATE_HZ) % 4294967296 / 1000) % 4294967296

/-- The schedule in which `vTask2` runs one whole pass through its loop on its own, `rand()`
returning `r`: take, the assignment to `pcChar`, for each byte of its message the test, the
transmit and the increment, then the last test, the give and the call of `vTaskDelay`. -/
def task2Pass (r : Nat) : List Event :=
  List.replicate (3 * pcTask2String.length + 5) (.task2 r)

end MutexDemo

/-! # Theorems -/

namespace TaskNotification

/-! ## Tick arithmetic lemmas -/

theorem pdMS_TO_TICKS_200 : pdMS_TO_TICKS 200 = 200 := by
  simp [pdMS_TO_TICKS, configTICK_RATE_HZ, tickModulus]

theorem tickSub_of_le {a b : Nat} (hab : a ≤ b) (hb : b < tickModulus) :
    tickSub b a = b - a := by
  unfold tickSub tickModulus at *
  omega

theorem handler_bounce {s : System} {t : Nat} (w : Bool)
    (h : tickSub t s.last_press_time < 200) :
    button_interrupt_handler s t w = (s, []) := by
  simp [button_interrupt_handler, pdMS_TO_TICKS_200, h]

theorem handler_accept_none {s : System} {t : Nat} (w : Bool)
    (h : ¬ tickSub t s.last_press_time < 200) (hn : s.task_to_delete_handle = none) :
    button_interrupt_handler s t w =
      ({ s with last_press_time := t }, [.store_last_press_time t]) := by
  simp [button_interrupt_handler, pdMS_TO_TICKS_200, h, hn]

theorem handler_accept_some {s : System} {t : Nat} (w : Bool) {x : TaskHandle_t}
    (h : ¬ tickSub t s.last_press_time < 200) (hx : s.task_to_delete_handle = some x) :
    button_interrupt_handler s t w =
      (notifyPending { s with last_press_time := t } x,
        [.store_last_press_time t, .xTaskNotifyFromISR x 0 .eNoAction,
         .portYIELD_FROM_ISR w]) := by
  simp [button_interrupt_handler, pdMS_TO_TICKS_200, h, hx]

theorem notifyPending_last_press_time (s : System) (x : TaskHandle_t) :
    (notifyPending s x).last_press_time = s.last_press_time := by
  cases x <;> rfl

theorem notifyPending_handle (s : System) (x : TaskHandle_t) :
    (notifyPending s x).task_to_delete_handle = s.task_to_delete_handle := by
  cases x <;> rfl

/-- C3: the handler discards an event (returns at once: state untouched, no call made, so no
notification and no yield request) exactly when the unsigned 32-bit difference
`current_time - last_press_time` is below `pdMS_TO_TICKS(200)`, which is 200 ticks at the
1000 Hz tick rate; a difference of exactly 200 is therefore not discarded. -/
theorem button_discards_iff_within_window (s : System) (current_time : Nat) (woken : Bool) :
    pdMS_TO_TICKS 200 = 200 ∧
    (button_interrupt_handler s current_time woken = (s, []) ↔
      tickSub current_time s.last_press_time < 200) := by
  refine ⟨pdMS_TO_TICKS_200, ?_, fun h => handler_bounce woken h⟩
  intro h
  by_contra hge
  cases hx : s.task_to_delete_handle with
  | none => rw [handler_accept_none woken hge hx] at h; simp at h
  | some x => rw [handler_accept_some woken hge hx] at h; simp at h

/-- C4: an event that is not discarded stores the current tick in `last_press_time` and
leaves `task_to_delete_handle` as it was; with a non-NULL pointer the calls made are exactly
one `xTaskNotifyFromISR(task_to_delete_handle, 0, eNoAction, ..)` followed by
`portYIELD_FROM_ISR(pxHigherPriorityTaskWoken)`, and with a NULL pointer no call is made. -/
theorem button_accepted_effect (s : System) (current_time : Nat) (woken : Bool)
    (hacc : ¬ tickSub current_time s.last_press_time < pdMS_TO_TICKS 200) :
    (button_interrupt_handler s current_time woken).1.last_press_time = current_time ∧
    (button_interrupt_handler s current_time woken).1.task_to_delete_handle
      = s.task_to_delete_handle ∧
    (∀ h, s.task_to_delete_handle = some h →
      (button_interrupt_handler s current_time woken).2 =
        [.store_last_press_time current_time, .xTaskNotifyFromISR h 0 .eNoAction,
         .portYIELD_FROM_ISR woken]) ∧
    (s.task_to_delete_handle = none →
      (button_interrupt_handler s current_time woken).2 =
        [.store_last_press_time current_time]) := by
  rw [pdMS_TO_TICKS_200] at hacc
  cases hx : s.task_to_delete_handle with
  | none => rw [handler_accept_none woken hacc hx]; simp [hx]
  | some x =>
    rw [handler_accept_some woken hacc hx]
    simp [notifyPending_last_press_time, notifyPending_handle, hx]

/-- Witness for C4: the boot state, a press at tick 200. -/
theorem button_accepted_effect_witness :
    (button_interrupt_handler main_state 200 true).1.last_press_time = 200 ∧
    (button_interrupt_handler main_state 200 true).2 =
      [.store_last_press_time 200,
       .xTaskNotifyFromISR .task2_GREEN_LED_handle 0 .eNoAction,
       .portYIELD_FROM_ISR true] :=
  have h := button_accepted_effect main_state 200 true (by decide)
  ⟨h.1, h.2.2.1 _ rfl⟩

/-! ## Two presses -/

theorem notified_handler_bounce {s : System} {t : Nat} (w : Bool)
    (h : tickSub t s.last_press_time < 200) :
    notified (button_interrupt_handler s t w).2 = [] := by
  rw [handler_bounce w h]; rfl

theorem notified_handler_accept {s : System} {t : Nat} (w : Bool) {x : TaskHandle_t}
    (h : ¬ tickSub t s.last_press_time < 200) (hx : s.task_to_delete_handle = some x) :
    notified (button_interrupt_handler s t w).2 = [x] := by
  rw [handler_accept_some w h hx]; rfl

theorem notified_append (xs ys : List Action) :
    notified (xs ++ ys) = notified xs ++ notified ys := by
  induction xs with
  | nil => rfl
  | cons a xs ih => cases a <;> simp [notified, ih]

/-- C5 as stated fails: from the boot state (`last_press_time = 0`, chain pointer at Green)
presses at ticks 10 and 20, less than the window apart, deliver no notification at all, and
presses at ticks 10 and 300, more than the window apart, deliver one. -/
theorem two_presses_counterexample :
    main_state.task_to_delete_handle ≠ none ∧
    (10 ≤ 20 ∧ 20 - 10 < 200 ∧
      (notified (exec main_state (presses [10, 20])).2).length ≠ 1) ∧
    (10 ≤ 300 ∧ 200 < 300 - 10 ∧
      (exec main_state (presses [10, 300])).1.task_to_delete_handle ≠ none ∧
      (notified (exec main_state (presses [10, 300])).2).length ≠ 2) := by
  decide

/-- C5, amended: when the first of two button events at ticks `t1 <= t2` is itself accepted
and the chain pointer is non-NULL at both events, the two events deliver exactly one
notification if `t2 - t1` is below the 200-tick window and exactly two if it is 200 or more
(in particular if it is more than the window). `s2` is the state at the second event: the
tasks may have run in between, but only the handler writes `last_press_time`. -/
theorem two_presses_notifications (s s2 : System) (t1 t2 : Nat) (w1 w2 : Bool)
    (h12 : t1 ≤ t2) (hwrap : t2 < tickModulus)
    (hp1 : s.task_to_delete_handle ≠ none) (hp2 : s2.task_to_delete_handle ≠ none)
    (hacc : ¬ tickSub t1 s.last_press_time < pdMS_TO_TICKS 200)
    (hs2 : s2.last_press_time = (button_interrupt_handler s t1 w1).1.last_press_time) :
    (t2 - t1 < 200 →
      (notified ((button_interrupt_handler s t1 w1).2 ++
        (button_interrupt_handler s2 t2 w2).2)).length = 1) ∧
    (200 ≤ t2 - t1 →
      (notified ((button_interrupt_handler s t1 w1).2 ++
        (button_interrupt_handler s2 t2 w2).2)).length = 2) := by
  rw [pdMS_TO_TICKS_200] at hacc
  obtain ⟨x1, hx1⟩ := Option.ne_none_iff_exists'.mp hp1
  obtain ⟨x2, hx2⟩ := Option.ne_none_iff_exists'.mp hp2
  have hlast : s2.last_press_time = t1 := by
    rw [hs2, handler_accept_some w1 hacc hx1, notifyPending_last_press_time]
  have hsub : tickSub t2 s2.last_press_time = t2 - t1 := by
    rw [hlast]; exact tickSub_of_le h12 hwrap
  rw [notified_append, notified_handler_accept w1 hacc hx1]
  constructor
  · intro hlt
    rw [notified_handler_bounce w2 (by rw [hsub]; exact hlt)]
    rfl
  · intro hge
    rw [notified_handler_accept w2 (by rw [hsub]; omega) hx2]
    rfl

/-- Witness for C5: presses at ticks 200 and 250 from the boot state. -/
theorem two_presses_notifications_witness :
    (notified ((button_interrupt_handler main_state 200 false).2 ++
      (button_interrupt_handler (button_interrupt_handler main_state 200 false).1
        250 false).2)).length = 1 :=
  (two_presses_notifications main_state (button_interrupt_handler main_state 200 false).1
    200 250 false false (by decide) (by decide) (by decide) (by decide) (by decide) rfl).1
    (by decide)

/-! ## Sequences of presses -/

theorem exec_append (s : System) (es fs : List Event) :
    exec s (es ++ fs) =
      ((exec (exec s es).1 fs).1, (exec s es).2 ++ (exec (exec s es).1 fs).2) := by
  induction es generalizing s with
  | nil => simp [exec]
  | cons e es ih => simp [exec, ih, List.append_assoc]

theorem exec_presses_cons (s : System) (t : Nat) (ts : List Nat) :
    exec s (presses (t :: ts)) =
      ((exec (button_interrupt_handler s t false).1 (presses ts)).1,
        (button_interrupt_handler s t false).2 ++
          (exec (button_interrupt_handler s t false).1 (presses ts)).2) := by
  simp [presses, exec, step]

theorem acceptedAt_append (xs ys : List Action) :
    acceptedAt (xs ++ ys) = acceptedAt xs ++ acceptedAt ys := by
  induction xs with
  | nil => rfl
  | cons a xs ih => cases a <;> simp [acceptedAt, ih]

theorem acceptedAt_handler_accept {s : System} {t : Nat} (w : Bool)
    (h : ¬ tickSub t s.last_press_time < 200) :
    acceptedAt (button_interrupt_handler s t w).2 = [t] ∧
    (button_interrupt_handler s t w).1.last_press_time = t := by
  cases hx : s.task_to_delete_handle with
  | none => rw [handler_accept_none w h hx]; exact ⟨rfl, rfl⟩
  | some x =>
    rw [handler_accept_some w h hx]
    exact ⟨rfl, notifyPending_last_press_time _ _⟩

/-- Presses that all fall inside the window opened at `last_press_time` change nothing. -/
theorem exec_presses_burst (s : System) (bs : List Nat)
    (hb : ∀ b ∈ bs, s.last_press_time ≤ b ∧ b < s.last_press_time + 200 ∧ b < tickModulus) :
    exec s (presses bs) = (s, []) := by
  induction bs with
  | nil => rfl
  | cons b bs ih =>
    obtain ⟨h1, h2, h3⟩ := hb b (List.mem_cons_self _ _)
    have hsub : tickSub b s.last_press_time < 200 := by
      rw [tickSub_of_le h1 h3]; omega
    rw [exec_presses_cons, handler_bounce false hsub]
    rw [ih (fun x hx => hb x (List.mem_cons_of_mem _ hx))]
    rfl

/-- Once the window starts at a tick not after the presses, accepted presses are spaced. -/
theorem accepted_chain_from (s : System) (ts : List Nat)
    (hsorted : ts.Pairwise (· ≤ ·))
    (hb : ∀ t ∈ ts, s.last_press_time ≤ t ∧ t < tickModulus) :
    List.Chain (fun a b => a + 200 ≤ b) s.last_press_time
      (acceptedAt (exec s (presses ts)).2) := by
  induction ts generalizing s with
  | nil => exact List.Chain.nil
  | cons t ts ih =>
    obtain ⟨h1, h2⟩ := hb t (List.mem_cons_self _ _)
    rw [List.pairwise_cons] at hsorted
    rw [exec_presses_cons, acceptedAt_append]
    by_cases hsub : tickSub t s.last_press_time < 200
    · rw [handler_bounce false hsub]
      exact ih s hsorted.2 (fun x hx => hb x (List.mem_cons_of_mem _ hx))
    · obtain ⟨ha, hl⟩ := acceptedAt_handler_accept false hsub
      rw [ha]
      have hge : s.last_press_time + 200 ≤ t := by
        rw [tickSub_of_le h1 h2] at hsub; omega
      refine List.Chain.cons hge ?_
      have := ih (button_interrupt_handler s t false).1 hsorted.2
        (fun x hx => by
          rw [hl]
          exact ⟨hsorted.1 x hx, (hb x (List.mem_cons_of_mem _ hx)).2⟩)
      rw [hl] at this
      exact this

theorem accepted_chain (s : System) (ts : List Nat)
    (hsorted : ts.Pairwise (· ≤ ·)) (hb : ∀ t ∈ ts, t < tickModulus) :
    List.Chain' (fun a b => a + 200 ≤ b) (acceptedAt (exec s (presses ts)).2) := by
  induction ts generalizing s with
  | nil => exact List.chain'_nil
  | cons t ts ih =>
    rw [List.pairwise_cons] at hsorted
    rw [exec_presses_cons, acceptedAt_append]
    by_cases hsub : tickSub t s.last_press_time < 200
    · rw [handler_bounce false hsub]
      exact ih s hsorted.2 (fun x hx => hb x (List.mem_cons_of_mem _ hx))
    · obtain ⟨ha, hl⟩ := acceptedAt_handler_accept false hsub
      rw [ha]
      have := accepted_chain_from (button_interrupt_handler s t false).1 ts hsorted.2
        (fun x hx => by
          rw [hl]
          exact ⟨hsorted.1 x hx, hb x (List.mem_cons_of_mem _ hx)⟩)
      rw [hl] at this
      exact this

/-- C6: for button events at non-decreasing tick counts below 2^32 (no counter wrap), any
two consecutively accepted events are at least 200 ticks apart; a burst of events that all
fall within 200 ticks after an accepted event adds no accepted trigger, so event and burst
count as one; and the discarded events do not extend the window, the next event 200 ticks
or more after the accepted one being accepted however late the burst ended. -/
theorem debounce_window (s : System) :
    (∀ ts : List Nat, ts.Pairwise (· ≤ ·) → (∀ t ∈ ts, t < tickModulus) →
      List.Chain' (fun a b => a + 200 ≤ b) (acceptedAt (exec s (presses ts)).2)) ∧
    (∀ (a : Nat) (bs : List Nat),
      ¬ tickSub a s.last_press_time < pdMS_TO_TICKS 200 →
      (∀ b ∈ bs, a ≤ b ∧ b < a + 200 ∧ b < tickModulus) →
      acceptedAt (exec s (presses (a :: bs))).2 = [a] ∧
      (exec s (presses (a :: bs))).1.last_press_time = a ∧
      ∀ t, a + 200 ≤ t → t < tickModulus →
        acceptedAt (exec s (presses (a :: bs ++ [t]))).2 = [a, t]) := by
  refine ⟨fun ts h1 h2 => accepted_chain s ts h1 h2, ?_⟩
  intro a bs hacc hbs
  rw [pdMS_TO_TICKS_200] at hacc
  obtain ⟨ha, hl⟩ := acceptedAt_handler_accept false hacc
  have hburst : exec (button_interrupt_handler s a false).1 (presses bs) =
      ((button_interrupt_handler s a false).1, []) :=
    exec_presses_burst _ bs (fun b hb => by rw [hl]; exact hbs b hb)
  have h1 : exec s (presses (a :: bs)) =
      ((button_interrupt_handler s a false).1, (button_interrupt_handler s a false).2) := by
    rw [exec_presses_cons, hburst]; simp
  refine ⟨by rw [h1]; exact ha, by rw [h1]; exact hl, ?_⟩
  intro t hge hlt
  have hsplit : presses (a :: bs ++ [t]) = presses (a :: bs) ++ presses [t] := by
    simp [presses]
  have hsub : ¬ tickSub t (button_interrupt_handler s a false).1.last_press_time < 200 := by
    rw [hl, tickSub_of_le (by omega) hlt]; omega
  rw [hsplit, exec_append, h1, acceptedAt_append, ha, exec_presses_cons]
  simp only [presses, List.map_nil, exec, List.append_nil]
  rw [(acceptedAt_handler_accept false hsub).1]
  rfl

/-- Witness for C6: from the boot state, presses at ticks 200, 250, 399, 400, 450, 700. -/
theorem debounce_window_witness :
    List.Chain' (fun a b => a + 200 ≤ b)
      (acceptedAt (exec main_state (presses [200, 250, 399, 400, 450, 700])).2) ∧
    acceptedAt (exec main_state (presses (200 :: [250, 399] ++ [400]))).2 = [200, 400] :=
  ⟨(debounce_window main_state).1 [200, 250, 399, 400, 450, 700] (by decide) (by decide),
   ((debounce_window main_state).2 200 [250, 399] (by decide) (by decide)).2.2 400
     (by decide) (by decide)⟩

/-! ## The chain pointer never dangles -/

theorem chainInv_main : chainInv main_state = true := by decide

theorem chainInv_handler (s : System) (t : Nat) (w : Bool) (h : chainInv s = true) :
    chainInv (button_interrupt_handler s t w).1 = true := by
  by_cases hsub : tickSub t s.last_press_time < 200
  · rw [handler_bounce w hsub]; exact h
  · cases hx : s.task_to_delete_handle with
    | none =>
      rw [handler_accept_none w hsub hx]
      simpa [chainInv, hx] using h
    | some x =>
      rw [handler_accept_some w hsub hx]
      cases x <;> simp_all [chainInv, notifyPending]

theorem chainInv_red (s : System) (h : chainInv s = true) :
    chainInv (task1_RED_LED s).1 = true := by
  obtain ⟨p, l, r, g, rp, gp, bp, op, p12, p14⟩ := s
  cases r <;> cases g <;> cases rp <;> cases p with
    | none => simp_all [chainInv, task1_RED_LED, xTaskNotifyWait, Loc.beforeAssign, Loc.blinking]
    | some x =>
      cases x <;>
        simp_all [chainInv, task1_RED_LED, xTaskNotifyWait, Loc.beforeAssign, Loc.blinking]

theorem chainInv_green (s : System) (h : chainInv s = true) :
    chainInv (task2_GREEN_LED s).1 = true := by
  obtain ⟨p, l, r, g, rp, gp, bp, op, p12, p14⟩ := s
  cases r <;> cases g <;> cases gp <;> cases p with
    | none => simp_all [chainInv, task2_GREEN_LED, xTaskNotifyWait, Loc.beforeAssign, Loc.blinking]
    | some x =>
      cases x <;>
        simp_all [chainInv, task2_GREEN_LED, xTaskNotifyWait, Loc.beforeAssign, Loc.blinking]

theorem chainInv_step (s : System) (e : Event) (h : chainInv s = true) :
    chainInv (step s e).1 = true := by
  cases e with
  | button t w => exact chainInv_handler s t w h
  | red => exact chainInv_red s h
  | green => exact chainInv_green s h

theorem chainInv_interleaved {s : System} (hr : Interleaved s) : chainInv s = true := by
  induction hr with
  | init => exact chainInv_main
  | next s e _ ih => exact chainInv_step s e ih

theorem chain_interleaved_of_reachable {s : System} (hr : Reachable s) : Interleaved s := by
  induction hr with
  | init => exact Interleaved.init
  | next s e _ _ ih => exact Interleaved.next s e ih

theorem chain_interleaved_exec {s : System} (hr : Interleaved s) (es : List Event) :
    Interleaved (exec s es).1 := by
  induction es generalizing s with
  | nil => exact hr
  | cons e es ih => exact ih (Interleaved.next s e hr)

theorem chainInv_not_deleted {s : System} (h : chainInv s = true) {x : TaskHandle_t}
    (hx : s.task_to_delete_handle = some x) : isDeleted s x = false := by
  obtain ⟨p, l, r, g, rp, gp, bp, op, p12, p14⟩ := s
  simp only at hx
  subst hx
  cases x <;> cases r <;> cases g <;>
    simp_all [chainInv, isDeleted, Loc.beforeAssign, Loc.blinking]

theorem mem_handler_notify {s : System} {t : Nat} {w : Bool} {x : TaskHandle_t} {v : Nat}
    {a : eNotifyAction}
    (h : Action.xTaskNotifyFromISR x v a ∈ (button_interrupt_handler s t w).2) :
    s.task_to_delete_handle = some x := by
  by_cases hsub : tickSub t s.last_press_time < 200
  · rw [handler_bounce w hsub] at h; simp at h
  · cases hx : s.task_to_delete_handle with
    | none => rw [handler_accept_none w hsub hx] at h; simp at h
    | some y =>
      rw [handler_accept_some w hsub hx] at h
      simp at h
      rw [h.1]

/-- C2: in every state reachable from the state `main` sets up by interleaving the button
handler with the statements of the Green and Red tasks, in any order, the pointer
`task_to_delete_handle` is NULL or the handle of a task that has not deleted itself; hence
whatever the tick count, a run of the handler in such a state never passes the handle of a
deleted task to `xTaskNotifyFromISR`. -/
theorem chain_pointer_never_dangles (s : System) (hr : Interleaved s) :
    (s.task_to_delete_handle = none ∨
      ∃ h, s.task_to_delete_handle = some h ∧ isDeleted s h = false) ∧
    ∀ (t : Nat) (w : Bool) (h : TaskHandle_t) (v : Nat) (a : eNotifyAction),
      Action.xTaskNotifyFromISR h v a ∈ (button_interrupt_handler s t w).2 →
        isDeleted s h = false := by
  have hinv := chainInv_interleaved hr
  constructor
  · cases hx : s.task_to_delete_handle with
    | none => exact Or.inl rfl
    | some x => exact Or.inr ⟨x, rfl, chainInv_not_deleted hinv hx⟩
  · intro t w h v a hmem
    exact chainInv_not_deleted hinv (mem_handler_notify hmem)

/-- Witness for C2: a press at tick 200 wakes Green, Green runs until it has deleted itself,
and a press at tick 400 then notifies Red, which is alive. -/
theorem chain_pointer_never_dangles_witness :
    (exec main_state [.button 200 true, .green, .green, .green, .green, .green, .green,
      .green]).1.task_to_delete_handle = some .task1_RED_LED_handle ∧
    isDeleted (exec main_state [.button 200 true, .green, .green, .green, .green, .green,
      .green, .green]).1 .task2_GREEN_LED_handle = true ∧
    isDeleted (exec main_state [.button 200 true, .green, .green, .green, .green, .green,
      .green, .green]).1 .task1_RED_LED_handle = false :=
  ⟨by decide, by decide,
    (chain_pointer_never_dangles _
      (chain_interleaved_exec Interleaved.init [.button 200 true, .green, .green, .green,
        .green, .green, .green, .green])).2 400 true .task1_RED_LED_handle 0 .eNoAction
      (by decide)⟩

/-! ## The deletion chain -/

theorem runGreen_deleted (n : Nat) (s : System) (h : s.green = .deleted) :
    runGreen n s = (s, []) := by
  cases n <;> simp [runGreen, h]

theorem runRed_deleted (n : Nat) (s : System) (h : s.red = .deleted) :
    runRed n s = (s, []) := by
  cases n <;> simp [runRed, h]

theorem runGreen_add (n k : Nat) (s : System) (h : (runGreen n s).1.green = .deleted) :
    runGreen (n + k) s = runGreen n s := by
  induction n generalizing s with
  | zero =>
    simp only [runGreen] at h
    rw [Nat.zero_add, runGreen_deleted k s h]; rfl
  | succ n ih =>
    rw [Nat.add_right_comm]
    by_cases hd : s.green = .deleted
    · simp [runGreen, hd]
    · simp only [runGreen, hd, if_false] at h ⊢
      rw [ih _ h]

theorem runRed_add (n k : Nat) (s : System) (h : (runRed n s).1.red = .deleted) :
    runRed (n + k) s = runRed n s := by
  induction n generalizing s with
  | zero =>
    simp only [runRed] at h
    rw [Nat.zero_add, runRed_deleted k s h]; rfl
  | succ n ih =>
    rw [Nat.add_right_comm]
    by_cases hd : s.red = .deleted
    · simp [runRed, hd]
    · simp only [runRed, hd, if_false] at h ⊢
      rw [ih _ h]

/-- A notified Green task sets the pointer to Red and deletes itself within 7 statements. -/
theorem runGreen_notified (s : System) (hg : s.green.blinking = true)
    (hp : s.greenPending = true) :
    (runGreen 7 s).1 =
      { s with task_to_delete_handle := some .task1_RED_LED_handle, green := .deleted,
               greenPending := false, pd12 := true } ∧
    Action.store_task_to_delete_handle (some .task1_RED_LED_handle) ∈ (runGreen 7 s).2 ∧
    Action.vTaskDelete_NULL .task2_GREEN_LED_handle ∈ (runGreen 7 s).2 ∧
    notified (runGreen 7 s).2 = [] := by
  obtain ⟨p, l, r, g, rp, gp, bp, op, p12, p14⟩ := s
  simp only at hp
  subst hp
  cases g <;> simp [Loc.blinking] at hg <;>
    simp [runGreen, task2_GREEN_LED, xTaskNotifyWait, notified]

/-- A notified Red task sets the pointer to NULL and deletes itself within 7 statements. -/
theorem runRed_notified (s : System) (hr : s.red.blinking = true)
    (hp : s.redPending = true) :
    (runRed 7 s).1 =
      { s with task_to_delete_handle := none, red := .deleted,
               redPending := false, pd14 := true } ∧
    Action.store_task_to_delete_handle none ∈ (runRed 7 s).2 ∧
    Action.vTaskDelete_NULL .task1_RED_LED_handle ∈ (runRed 7 s).2 ∧
    notified (runRed 7 s).2 = [] := by
  obtain ⟨p, l, r, g, rp, gp, bp, op, p12, p14⟩ := s
  simp only at hp
  subst hp
  cases r <;> simp [Loc.blinking] at hr <;>
    simp [runRed, task1_RED_LED, xTaskNotifyWait, notified]

/-- Once the pointer is NULL and both tasks are gone, nothing is notified any more. -/
theorem exec_chain_done (s : System) (es : List Event)
    (hp : s.task_to_delete_handle = none) (hr : s.red = .deleted) (hg : s.green = .deleted) :
    notified (exec s es).2 = [] := by
  induction es generalizing s with
  | nil => rfl
  | cons e es ih =>
    simp only [exec, notified_append]
    cases e with
    | button t w =>
      simp only [step]
      by_cases hsub : tickSub t s.last_press_time < 200
      · rw [handler_bounce w hsub]
        simpa [notified] using ih s hp hr hg
      · rw [handler_accept_none w hsub hp]
        simpa [notified] using ih { s with last_press_time := t } hp hr hg
    | red =>
      have h1 : task1_RED_LED s = (s, []) := by simp [task1_RED_LED, hr]
      simp only [step, h1]
      simpa [notified] using ih s hp hr hg
    | green =>
      have h1 : task2_GREEN_LED s = (s, []) := by simp [task2_GREEN_LED, hg]
      simp only [step, h1]
      simpa [notified] using ih s hp hr hg

/-- C1: from a state as `main` sets it up (chain pointer at Green, Green and Red alive in
their blink loops, Red not notified), the first accepted trigger notifies Green, and Green,
run until it stops, stores Red's handle in the chain pointer and deletes itself; the second
accepted trigger then notifies Red, and Red, run until it stops, stores NULL in the chain
pointer and deletes itself; after that no sequence of triggers and task steps sends any
notification. Seven statements of fuel suffice for each task. -/
theorem deletion_chain (s : System) (t1 t2 : Nat) (w1 w2 : Bool) (fuel : Nat)
    (hptr : s.task_to_delete_handle = some .task2_GREEN_LED_handle)
    (hgreen : s.green.blinking = true) (hred : s.red.blinking = true)
    (hacc1 : ¬ tickSub t1 s.last_press_time < pdMS_TO_TICKS 200)
    (hacc2 : ¬ tickSub t2 t1 < pdMS_TO_TICKS 200)
    (hfuel : 7 ≤ fuel) :
    notified (button_interrupt_handler s t1 w1).2 = [.task2_GREEN_LED_handle] ∧
    (Action.store_task_to_delete_handle (some .task1_RED_LED_handle) ∈
        (greenResponse fuel s t1 w1).2 ∧
      Action.vTaskDelete_NULL .task2_GREEN_LED_handle ∈ (greenResponse fuel s t1 w1).2 ∧
      (greenResponse fuel s t1 w1).1.task_to_delete_handle = some .task1_RED_LED_handle ∧
      (greenResponse fuel s t1 w1).1.green = .deleted ∧
      (greenResponse fuel s t1 w1).1.red = s.red) ∧
    notified (button_interrupt_handler (greenResponse fuel s t1 w1).1 t2 w2).2
      = [.task1_RED_LED_handle] ∧
    (Action.store_task_to_delete_handle none ∈
        (redResponse fuel (greenResponse fuel s t1 w1).1 t2 w2).2 ∧
      Action.vTaskDelete_NULL .task1_RED_LED_handle ∈
        (redResponse fuel (greenResponse fuel s t1 w1).1 t2 w2).2 ∧
      (redResponse fuel (greenResponse fuel s t1 w1).1 t2 w2).1.task_to_delete_handle = none ∧
      (redResponse fuel (greenResponse fuel s t1 w1).1 t2 w2).1.red = .deleted ∧
      (redResponse fuel (greenResponse fuel s t1 w1).1 t2 w2).1.green = .deleted) ∧
    ∀ later : List Event,
      notified (exec (redResponse fuel (greenResponse fuel s t1 w1).1 t2 w2).1 later).2
        = [] := by
  simp only [greenResponse, redResponse]
  rw [pdMS_TO_TICKS_200] at hacc1 hacc2
  obtain ⟨k, rfl⟩ := Nat.exists_eq_add_of_le hfuel
  -- first trigger
  have e1 := handler_accept_some w1 hacc1 hptr
  have hG := runGreen_notified (button_interrupt_handler s t1 w1).1
    (by rw [e1]; exact hgreen) (by rw [e1]; rfl)
  have hGk : runGreen (7 + k) (button_interrupt_handler s t1 w1).1 =
      runGreen 7 (button_interrupt_handler s t1 w1).1 :=
    runGreen_add 7 k _ (by rw [hG.1])
  rw [hGk]
  obtain ⟨hG1, hG2, hG3, _⟩ := hG
  -- second trigger
  have hptr2 : (runGreen 7 (button_interrupt_handler s t1 w1).1).1.task_to_delete_handle =
      some .task1_RED_LED_handle := by rw [hG1]
  have hlast2 : (runGreen 7 (button_interrupt_handler s t1 w1).1).1.last_press_time = t1 := by
    rw [hG1, e1]; rfl
  have hred2 : (runGreen 7 (button_interrupt_handler s t1 w1).1).1.red = s.red := by
    rw [hG1, e1]; rfl
  have hgreen2 : (runGreen 7 (button_interrupt_handler s t1 w1).1).1.green = .deleted := by
    rw [hG1]
  have e2 := handler_accept_some (s := (runGreen 7 (button_interrupt_handler s t1 w1).1).1)
    w2 (by rw [hlast2]; exact hacc2) hptr2
  have hR := runRed_notified
    (button_interrupt_handler (runGreen 7 (button_interrupt_handler s t1 w1).1).1 t2 w2).1
    (by rw [e2]; simp only [notifyPending]; rw [hred2]; exact hred)
    (by rw [e2]; rfl)
  have hRk : runRed (7 + k)
      (button_interrupt_handler (runGreen 7 (button_interrupt_handler s t1 w1).1).1 t2 w2).1 =
      runRed 7
      (button_interrupt_handler (runGreen 7 (button_interrupt_handler s t1 w1).1).1 t2 w2).1 :=
    runRed_add 7 k _ (by rw [hR.1])
  rw [hRk]
  obtain ⟨hR1, hR2, hR3, _⟩ := hR
  have hgreen3 : (runRed 7 (button_interrupt_handler
      (runGreen 7 (button_interrupt_handler s t1 w1).1).1 t2 w2).1).1.green = .deleted := by
    rw [hR1, e2]; simp only [notifyPending]; exact hgreen2
  refine ⟨notified_handler_accept w1 hacc1 hptr, ⟨hG2, hG3, hptr2, hgreen2, hred2⟩,
    notified_handler_accept w2 (by rw [hlast2]; exact hacc2) hptr2,
    ⟨hR2, hR3, by rw [hR1], by rw [hR1], hgreen3⟩, ?_⟩
  intro later
  exact exec_chain_done _ later (by rw [hR1]) (by rw [hR1]) hgreen3

/-- Witness for C1: the boot state with presses at ticks 200 and 400. -/
theorem deletion_chain_witness :
    (redResponse 7 (greenResponse 7 main_state 200 true).1 400 true).1.task_to_delete_handle
      = none ∧
    notified (exec (redResponse 7 (greenResponse 7 main_state 200 true).1 400 true).1
      [.button 600 true, .red, .green, .button 900 false]).2 = [] :=
  have h := deletion_chain main_state 200 400 true true 7 rfl rfl rfl
    (by decide) (by decide) (le_refl 7)
  ⟨h.2.2.2.1.2.2.1, h.2.2.2.2 _⟩

end TaskNotification

namespace BinarySemaphore

/-! ## The handoff invariant -/

theorem handoffInv_main : handoffInv main_state :=
  ⟨rfl, by decide, by decide, fun _ => ⟨rfl, rfl, rfl⟩, fun h => absurd h (by decide),
    fun h => absurd h (by decide), fun h => absurd h (by decide), by decide⟩

theorem handoffInv_master (s : System) (r1 r2 : Nat) (h : handoffInv s)
    (hen : masterBlocked s = false) : handoffInv (vMasterTask s r1 r2).1 := by
  obtain ⟨sem, ⟨len, items⟩, ctr, xo, m, xr, u, sl⟩ := s
  obtain ⟨h1, h2, h3, h4, h5, h6, h7, h8⟩ := h
  simp only at h1 h2 h3 h4 h5 h6 h7 h8
  subst h1
  have hsem : sem = 0 ∨ sem = 1 := by omega
  rcases items with _ | ⟨o, _ | ⟨o2, rest⟩⟩
  · cases m <;> rcases hsem with rfl | rfl <;>
      simp_all [handoffInv, vMasterTask, masterBlocked, Queue_t.full, xQueueSend,
        xSemaphoreGive]
  · cases m <;> rcases hsem with rfl | rfl <;>
      simp_all [handoffInv, vMasterTask, masterBlocked, Queue_t.full, xQueueSend,
        xSemaphoreGive]
  · simp at h2

theorem handoffInv_masterSendTimeout (s : System) (h : handoffInv s) :
    handoffInv (masterSendTimeout s).1 := by
  unfold masterSendTimeout
  split
  · rename_i hc
    obtain ⟨h1, h2, h3, h4, h5, h6, h7, h8⟩ := h
    have hne : s.g_xOrderQueue.items ≠ [] := by
      intro he
      have := hc.2
      simp [Queue_t.full, he, h1] at this
    refine ⟨h1, h2, h3, ?_, ?_, h6, ?_, h8⟩
    · intro hm; cases hm
    · intro _ he; exact absurd he hne
    · intro hm; rcases hm with hm | hm <;> cases hm
  · exact h

theorem handoffInv_masterWake (s : System) (h : handoffInv s) :
    handoffInv (masterWake s).1 := by
  unfold masterWake
  split
  · rename_i hc
    obtain ⟨h1, h2, h3, h4, h5, h6, h7, h8⟩ := h
    refine ⟨h1, h2, h3, ?_, ?_, h6, ?_, h8⟩
    · intro hm; cases hm
    · intro hs he
      obtain ⟨hm, hsl⟩ := h5 hs he
      rw [hc] at hm
      simp at hm
    · intro hm; rcases hm with hm | hm <;> cases hm
  · exact h

theorem handoffInv_slaveWake (s : System) (h : handoffInv s) :
    handoffInv (slaveWake s).1 := by
  unfold slaveWake
  split
  · rename_i hc
    obtain ⟨h1, h2, h3, h4, h5, h6, h7, h8⟩ := h
    refine ⟨h1, h2, h3, ?_, ?_, ?_, ?_, ?_⟩
    · intro hm
      have := (h4 hm).2.2
      rw [hc] at this; cases this
    · intro hs he
      have := (h5 hs he).2
      rw [hc] at this; cases this
    · intro hm; cases hm
    · intro hm; exact ⟨(h7 hm).1, by simp⟩
    · simp
  · exact h

theorem handoffInv_slave (s : System) (h : handoffInv s)
    (hen : masterBlocked s = true) : handoffInv (vSlaveTask s).1 := by
  obtain ⟨sem, ⟨len, items⟩, ctr, xo, m, xr, u, sl⟩ := s
  obtain ⟨h1, h2, h3, h4, h5, h6, h7, h8⟩ := h
  simp only at h1 h2 h3 h4 h5 h6 h7 h8
  subst h1
  have hsem : sem = 0 ∨ sem = 1 := by omega
  have hm : m = .sleeping ∨ (m = .send ∧ items ≠ []) := by
    rcases items with _ | ⟨o, rest⟩ <;> simp_all [masterBlocked, Queue_t.full]
  rcases hm with rfl | ⟨rfl, hne⟩
  · rcases items with _ | ⟨o, _ | ⟨o2, rest⟩⟩
    · cases sl <;> rcases hsem with rfl | rfl <;> cases xr <;>
        simp_all [handoffInv, vSlaveTask, xQueueReceive, xSemaphoreTake]
      split <;> simp_all
    · cases sl <;> rcases hsem with rfl | rfl <;> cases xr <;>
        simp_all [handoffInv, vSlaveTask, xQueueReceive, xSemaphoreTake] <;>
        split <;> simp_all
    · simp at h2
  · rcases items with _ | ⟨o, _ | ⟨o2, rest⟩⟩
    · exact absurd rfl hne
    · cases sl <;> rcases hsem with rfl | rfl <;> cases xr <;>
        simp_all [handoffInv, vSlaveTask, xQueueReceive, xSemaphoreTake] <;>
        split <;> simp_all
    · simp at h2

theorem handoffInv_step (s : System) (e : Event) (h : handoffInv s)
    (hen : enabled s e = true) : handoffInv (step s e).1 := by
  cases e with
  | master r1 r2 => exact handoffInv_master s r1 r2 h (by simpa [enabled] using hen)
  | masterSendTimeout => exact handoffInv_masterSendTimeout s h
  | masterWake => exact handoffInv_masterWake s h
  | slave =>
    exact handoffInv_slave s h (by
      simp only [enabled, Bool.and_eq_true] at hen
      exact hen.1)
  | slaveWake => exact handoffInv_slaveWake s h

/-! ## Traces -/

theorem sent_append (xs ys : List Action) : sent (xs ++ ys) = sent xs ++ sent ys := by
  induction xs with
  | nil => rfl
  | cons a xs ih =>
    cases a with
    | xQueueSend o r => cases r <;> simp [sent, ih]
    | _ => simp [sent, ih]

theorem received_append (xs ys : List Action) :
    received (xs ++ ys) = received xs ++ received ys := by
  induction xs with
  | nil => rfl
  | cons a xs ih =>
    cases a with
    | xQueueReceive o => cases o <;> simp [received, ih]
    | _ => simp [received, ih]

theorem signalling_append (xs ys : List Action) :
    signalling (xs ++ ys) = signalling xs ++ signalling ys := by
  induction xs with
  | nil => rfl
  | cons a xs ih => cases a <;> simp [signalling, ih]

theorem mem_sent {o : WorkOrder_t} {tr : List Action} (h : o ∈ sent tr) :
    Action.xQueueSend o true ∈ tr := by
  induction tr with
  | nil => simp [sent] at h
  | cons a tr ih =>
    cases a with
    | xQueueSend o2 r =>
      cases r
      · simp only [sent] at h
        exact List.mem_cons_of_mem _ (ih h)
      · simp only [sent, List.mem_cons] at h
        rcases h with rfl | h
        · exact List.mem_cons_self _ _
        · exact List.mem_cons_of_mem _ (ih h)
    | _ =>
      simp only [sent] at h
      exact List.mem_cons_of_mem _ (ih h)

/-- Every event makes at most one call. -/
theorem step_actions_length (s : System) (e : Event) : (step s e).2.length ≤ 1 := by
  cases e with
  | master r1 r2 =>
    simp only [step, vMasterTask]
    split <;> try simp
    split <;> simp
  | masterSendTimeout => simp only [step, masterSendTimeout]; split <;> simp
  | masterWake => simp only [step, masterWake]; split <;> simp
  | slave =>
    simp only [step, vSlaveTask]
    split <;> try simp
    all_goals (split <;> try simp)
    all_goals (split <;> simp)
  | slaveWake => simp only [step, slaveWake]; split <;> simp

/-- What one event does to the queue is what its calls say. -/
theorem fifo_step (s : System) (e : Event) :
    s.g_xOrderQueue.items ++ sent (step s e).2 =
      received (step s e).2 ++ (step s e).1.g_xOrderQueue.items := by
  cases e with
  | master r1 r2 =>
    simp only [step, vMasterTask]
    split <;> try simp [sent, received]
    simp only [xQueueSend]
    split <;> simp [sent, received]
  | masterSendTimeout => simp only [step, masterSendTimeout]; split <;> simp [sent, received]
  | masterWake => simp only [step, masterWake]; split <;> simp [sent, received]
  | slave =>
    simp only [step, vSlaveTask]
    split <;> try simp [sent, received]
    · split <;> simp [sent, received]
    · cases hq : s.g_xOrderQueue.items <;> simp [xQueueReceive, hq, sent, received]
    · split <;> try simp [sent, received]
      split <;> simp [sent, received]
    · split <;> simp [sent, received]
    · split <;> simp [sent, received]
  | slaveWake => simp only [step, slaveWake]; split <;> simp [sent, received]

theorem handoff_interleaved_of_reachable {s : System} {tr : List Action} (hr : Reachable s tr) :
    Interleaved s tr := by
  induction hr with
  | init => exact Interleaved.init
  | next s tr e _ _ ih => exact Interleaved.next s tr e ih

theorem fifo_interleaved {s : System} {tr : List Action} (hr : Interleaved s tr) :
    sent tr = received tr ++ s.g_xOrderQueue.items := by
  induction hr with
  | init => rfl
  | next s tr e _ ih =>
    rw [sent_append, received_append, ih, List.append_assoc, fifo_step, List.append_assoc]

/-- No event changes the capacity of the queue or stores more orders than it has slots. -/
theorem capacity_step (s : System) (e : Event)
    (h : s.g_xOrderQueue.uxLength = 1 ∧ s.g_xOrderQueue.items.length ≤ 1) :
    (step s e).1.g_xOrderQueue.uxLength = 1 ∧ (step s e).1.g_xOrderQueue.items.length ≤ 1 := by
  obtain ⟨h1, h2⟩ := h
  cases e with
  | master r1 r2 =>
    simp only [step, vMasterTask]
    split <;> try exact ⟨h1, h2⟩
    simp only [xQueueSend]
    by_cases hf : s.g_xOrderQueue.full = true
    · simp [hf, h1, h2]
    · have hlen : s.g_xOrderQueue.items.length = 0 := by
        have hlt : ¬ s.g_xOrderQueue.uxLength ≤ s.g_xOrderQueue.items.length := by
          simpa [Queue_t.full] using hf
        omega
      simp [hf, h1, hlen]
  | masterSendTimeout => simp only [step, masterSendTimeout]; split <;> exact ⟨h1, h2⟩
  | masterWake => simp only [step, masterWake]; split <;> exact ⟨h1, h2⟩
  | slave =>
    simp only [step, vSlaveTask]
    split <;> try exact ⟨h1, h2⟩
    · split <;> exact ⟨h1, h2⟩
    · rcases hq : s.g_xOrderQueue.items with _ | ⟨o, rest⟩
      · simp [xQueueReceive, hq, h1]
      · rw [hq] at h2
        simp at h2
        simp [xQueueReceive, hq, h1, h2]
    · split <;> try exact ⟨h1, h2⟩
      split <;> exact ⟨h1, h2⟩
    · split <;> exact ⟨h1, h2⟩
    · split <;> exact ⟨h1, h2⟩
  | slaveWake => simp only [step, slaveWake]; split <;> exact ⟨h1, h2⟩

theorem capacity_interleaved {s : System} {tr : List Action} (hr : Interleaved s tr) :
    s.g_xOrderQueue.uxLength = 1 ∧ s.g_xOrderQueue.items.length ≤ 1 := by
  induction hr with
  | init => exact ⟨rfl, by decide⟩
  | next s tr e _ ih => exact capacity_step s e ih

theorem handoffInv_reachable {s : System} {tr : List Action} (hr : Reachable s tr) :
    handoffInv s := by
  induction hr with
  | init => exact handoffInv_main
  | next s tr e _ hen ih => exact handoffInv_step s e ih hen

/-- Every earlier moment of an execution is an execution. -/
theorem interleaved_of_initial_segment {s : System} {tr : List Action}
    (hr : Interleaved s tr) (p : List Action) (hp : p <+: tr) : ∃ s2, Interleaved s2 p := by
  induction hr with
  | init =>
    rw [List.prefix_nil] at hp
    exact ⟨main_state, hp ▸ Interleaved.init⟩
  | next s tr e hprev ih =>
    have hlen := step_actions_length s e
    rcases hacts : (step s e).2 with _ | ⟨a, rest⟩
    · rw [hacts, List.append_nil] at hp
      exact ih hp
    · have hrest : rest = [] := by
        rw [hacts] at hlen
        simpa using hlen
      subst hrest
      rw [hacts, List.prefix_concat_iff] at hp
      rcases hp with rfl | hp
      · exact ⟨(step s e).1, hacts ▸ Interleaved.next s tr e hprev⟩
      · exact ih hp

theorem handoff_interleaved_exec {s : System} {tr : List Action} (hr : Interleaved s tr)
    (es : List Event) : Interleaved (exec s es).1 (tr ++ (exec s es).2) := by
  induction es generalizing s tr with
  | nil => simpa [exec] using hr
  | cons e es ih =>
    have := ih (Interleaved.next s tr e hr)
    simpa [exec, List.append_assoc] using this

theorem handoff_reachable_exec {s : System} {tr : List Action} (hr : Reachable s tr)
    (es : List Event) (hen : allEnabled s es = true) :
    Reachable (exec s es).1 (tr ++ (exec s es).2) := by
  induction es generalizing s tr with
  | nil => simpa [exec] using hr
  | cons e es ih =>
    simp only [allEnabled, Bool.and_eq_true] at hen
    have := ih (Reachable.next s tr e hr hen.1) hen.2
    simpa [exec, List.append_assoc] using this

/-! ## The slave never finds the queue empty -/

theorem slave_receive_of_inv {s : System} (h : handoffInv s) (hsl : s.slave = .receive) :
    ∃ o, s.g_xOrderQueue.items = [o] ∧ vSlaveTask s =
      ({ s with g_xOrderQueue := { s.g_xOrderQueue with items := [] },
                xReceivedOrder := some o, slave := .loopInit },
        [.xQueueReceive (some o)]) := by
  obtain ⟨_, h2, _, _, _, h6, _, _⟩ := h
  obtain ⟨hne, _⟩ := h6 hsl
  rcases hq : s.g_xOrderQueue.items with _ | ⟨o, _ | ⟨o2, rest⟩⟩
  · exact absurd hq hne
  · exact ⟨o, rfl, by simp [vSlaveTask, hsl, xQueueReceive, hq]⟩
  · rw [hq] at h2; simp at h2

theorem no_warning_step {s : System} (h : handoffInv s) (e : Event) :
    Action.vConsolePrint .slaveWarning ∉ (step s e).2 ∧
    Action.xQueueReceive none ∉ (step s e).2 := by
  cases e with
  | master r1 r2 =>
    simp only [step, vMasterTask]
    split <;> try simp
    split <;> simp
  | masterSendTimeout => simp only [step, masterSendTimeout]; split <;> simp
  | masterWake => simp only [step, masterWake]; split <;> simp
  | slave =>
    by_cases hsl : s.slave = .receive
    · obtain ⟨o, _, ho⟩ := slave_receive_of_inv h hsl
      simp [step, ho]
    · have hw : s.slave ≠ .warning := h.2.2.2.2.2.2.2
      simp only [step, vSlaveTask]
      split <;> try simp
      all_goals first
        | contradiction
        | (split <;> try simp)
      all_goals (split <;> simp)
  | slaveWake => simp only [step, slaveWake]; split <;> simp

theorem no_warning_reachable {s : System} {tr : List Action} (hr : Reachable s tr) :
    Action.vConsolePrint .slaveWarning ∉ tr ∧ Action.xQueueReceive none ∉ tr := by
  induction hr with
  | init => simp
  | next s tr e hprev _ ih =>
    have h := no_warning_step (handoffInv_reachable hprev) e
    simp only [List.mem_append, not_or]
    exact ⟨⟨ih.1, h.1⟩, ⟨ih.2, h.2⟩⟩

/-- C7: in every execution under the fixed-priority rule (the slave runs only while the
master is blocked), whenever the slave has returned from `xSemaphoreTake` and stands before
`xQueueReceive`, the queue holds an order the master enqueued with `pdPASS`; the receive then
returns that order with `pdPASS` and enters the hand-out loop. The slave never reaches its
WARNING branch: no receive fails and the WARNING line is never printed. -/
theorem slave_take_finds_order (s : System) (tr : List Action) (hr : Reachable s tr) :
    (s.slave = .receive →
      ∃ o, s.g_xOrderQueue.items = [o] ∧ Action.xQueueSend o true ∈ tr ∧
        (vSlaveTask s).2 = [.xQueueReceive (some o)] ∧
        (vSlaveTask s).1.slave = .loopInit) ∧
    s.slave ≠ .warning ∧
    Action.xQueueReceive none ∉ tr ∧
    Action.vConsolePrint .slaveWarning ∉ tr := by
  have hinv := handoffInv_reachable hr
  refine ⟨?_, hinv.2.2.2.2.2.2.2, (no_warning_reachable hr).2, (no_warning_reachable hr).1⟩
  intro hsl
  obtain ⟨o, hq, ho⟩ := slave_receive_of_inv hinv hsl
  refine ⟨o, hq, ?_, by rw [ho], by rw [ho]⟩
  apply mem_sent
  rw [fifo_interleaved (handoff_interleaved_of_reachable hr), hq]
  simp

/-- Witness for C7: the master primes, builds, prints, sends, gives and goes to sleep; the
slave then takes the semaphore and stands before its receive with an order in the queue. -/
theorem slave_take_finds_order_witness :
    (exec main_state [.master 0 0, .master 3 4, .master 0 0, .master 0 0, .master 0 0,
      .master 0 0, .slave]).1.slave = .receive ∧
    ∃ o, (exec main_state [.master 0 0, .master 3 4, .master 0 0, .master 0 0, .master 0 0,
        .master 0 0, .slave]).1.g_xOrderQueue.items = [o] ∧
      Action.xQueueSend o true ∈ [] ++ (exec main_state [.master 0 0, .master 3 4,
        .master 0 0, .master 0 0, .master 0 0, .master 0 0, .slave]).2 ∧
      (vSlaveTask (exec main_state [.master 0 0, .master 3 4, .master 0 0, .master 0 0,
        .master 0 0, .master 0 0, .slave]).1).2 = [.xQueueReceive (some o)] ∧
      (vSlaveTask (exec main_state [.master 0 0, .master 3 4, .master 0 0, .master 0 0,
        .master 0 0, .master 0 0, .slave]).1).1.slave = .loopInit :=
  ⟨by decide,
    (slave_take_finds_order _ _
      (handoff_reachable_exec Reachable.init [.master 0 0, .master 3 4, .master 0 0, .master 0 0,
        .master 0 0, .master 0 0, .slave] (by decide))).1 (by decide)⟩

/-! ## FIFO delivery and capacity -/

/-- C9: at every moment of every run of the two tasks, whatever the interleaving of their
statements (every initial segment `p` of a trace), the
orders the slave has dequeued so far form an initial segment of the orders the master has
successfully enqueued so far, in the same order: the n-th order received is the n-th order
sent, so each is delivered once and none is received before it was sent. At the end of the
trace the orders sent and not yet received are exactly the ones stored in the queue. -/
theorem received_initial_segment_of_sent (s : System) (tr : List Action)
    (hr : Interleaved s tr) :
    (∀ p, p <+: tr → received p <+: sent p) ∧
    sent tr = received tr ++ s.g_xOrderQueue.items := by
  refine ⟨?_, fifo_interleaved hr⟩
  intro p hp
  obtain ⟨s2, hr2⟩ := interleaved_of_initial_segment hr p hp
  exact ⟨s2.g_xOrderQueue.items, (fifo_interleaved hr2).symm⟩

/-- Witness for C9: one full handoff followed by the master's next send. -/
theorem received_initial_segment_of_sent_witness :
    sent ([] ++ (exec main_state [.master 0 0, .master 3 4, .master 0 0, .master 0 0,
      .master 0 0, .master 0 0, .slave, .slave, .masterWake, .master 9 9, .master 0 0,
      .master 0 0]).2) =
    received ([] ++ (exec main_state [.master 0 0, .master 3 4, .master 0 0, .master 0 0,
      .master 0 0, .master 0 0, .slave, .slave, .masterWake, .master 9 9, .master 0 0,
      .master 0 0]).2) ++
    (exec main_state [.master 0 0, .master 3 4, .master 0 0, .master 0 0,
      .master 0 0, .master 0 0, .slave, .slave, .masterWake, .master 9 9, .master 0 0,
      .master 0 0]).1.g_xOrderQueue.items :=
  (received_initial_segment_of_sent _ _
    (handoff_interleaved_exec Interleaved.init [.master 0 0, .master 3 4, .master 0 0,
      .master 0 0, .master 0 0, .master 0 0, .slave, .slave, .masterWake, .master 9 9,
      .master 0 0, .master 0 0])).2

/-- C10: the queue is created with `ORDER_QUEUE_DEPTH` = 1 slot, so in every reachable state
the number of orders enqueued exceeds the number dequeued by 0 or by 1; and while the slot
is occupied an `xQueueSend` stores nothing and does not return `pdPASS`, so no statement of
the master, nor its giving up, changes the stored order. -/
theorem queue_depth_one (s : System) (tr : List Action) (hr : Interleaved s tr) :
    s.g_xOrderQueue.uxLength = ORDER_QUEUE_DEPTH ∧ ORDER_QUEUE_DEPTH = 1 ∧
    ((sent tr).length = (received tr).length ∨
      (sent tr).length = (received tr).length + 1) ∧
    (s.g_xOrderQueue.items ≠ [] →
      (∀ order, xQueueSend s.g_xOrderQueue order = (s.g_xOrderQueue, false)) ∧
      (∀ r1 r2, (vMasterTask s r1 r2).1.g_xOrderQueue = s.g_xOrderQueue) ∧
      (masterSendTimeout s).1.g_xOrderQueue = s.g_xOrderQueue) := by
  obtain ⟨h1, h2⟩ := capacity_interleaved hr
  have hf := fifo_interleaved hr
  refine ⟨h1, rfl, ?_, ?_⟩
  · have hlen := congrArg List.length hf
    rw [List.length_append] at hlen
    omega
  · intro hne
    have hfull : s.g_xOrderQueue.full = true := by
      rcases hq : s.g_xOrderQueue.items with _ | ⟨o, rest⟩
      · exact absurd hq hne
      · simp [Queue_t.full, h1, hq]
    refine ⟨fun order => by simp [xQueueSend, hfull], fun r1 r2 => ?_, ?_⟩
    · simp only [vMasterTask]
      split <;> simp [xQueueSend, hfull]
    · simp only [masterSendTimeout]
      split <;> rfl

/-- Witness for C10: the master has sent order 1 and, woken again while the slave has not yet
received, stands before its next send with the slot occupied. -/
theorem queue_depth_one_witness :
    (exec main_state [.master 0 0, .master 3 4, .master 0 0, .master 0 0, .master 0 0,
      .master 0 0, .masterWake, .master 9 9, .master 0 0]).1.g_xOrderQueue.items ≠ [] ∧
    ∀ r1 r2, (vMasterTask (exec main_state [.master 0 0, .master 3 4, .master 0 0,
      .master 0 0, .master 0 0, .master 0 0, .masterWake, .master 9 9, .master 0 0]).1
        r1 r2).1.g_xOrderQueue =
      (exec main_state [.master 0 0, .master 3 4, .master 0 0, .master 0 0, .master 0 0,
        .master 0 0, .masterWake, .master 9 9, .master 0 0]).1.g_xOrderQueue :=
  ⟨by decide,
    ((queue_depth_one _ _
      (handoff_interleaved_exec Interleaved.init [.master 0 0, .master 3 4, .master 0 0,
        .master 0 0, .master 0 0, .master 0 0, .masterWake, .master 9 9,
        .master 0 0])).2.2.2 (by decide)).2.1⟩

/-! ## Gives and sends of the master -/

theorem getElem?_concat_succ {α : Type} (l : List α) (a x : α) (i : Nat)
    (h : (l ++ [a])[i + 1]? = some x) :
    (l[i + 1]? = some x ∧ (l ++ [a])[i]? = l[i]?) ∨
    (a = x ∧ (l ++ [a])[i]? = l.getLast?) := by
  by_cases hlt : i + 1 < l.length
  · left
    rw [List.getElem?_append_left hlt] at h
    exact ⟨h, List.getElem?_append_left (by omega)⟩
  · right
    by_cases heq : i + 1 = l.length
    · have h1 : (l ++ [a])[i + 1]? = some a := by
        rw [heq]; simp
      rw [h1] at h
      refine ⟨Option.some.inj h, ?_⟩
      rw [List.getElem?_append_left (by omega), List.getLast?_eq_getElem?]
      congr 1
      omega
    · have h1 : (l ++ [a])[i + 1]? = none := by
        apply List.getElem?_eq_none
        simp
        omega
      rw [h1] at h
      cases h

/-- What one event adds to the master's sends and gives: nothing, a send, or a give; a give
is added only by a master at `prime` or at `give`, and a successful send takes the master to
`give`. -/
theorem signalling_step (s : System) (e : Event) :
    (signalling (step s e).2 = [] ∧
      ((step s e).1.master = .give → s.master = .give) ∧
      ((step s e).1.master = .prime → s.master = .prime)) ∨
    (∃ o, signalling (step s e).2 = [.xQueueSend o true] ∧ (step s e).1.master = .give) ∨
    (∃ o, signalling (step s e).2 = [.xQueueSend o false] ∧
      (step s e).1.master = .reportError) ∨
    (∃ r, signalling (step s e).2 = [.xSemaphoreGive r] ∧
      (s.master = .prime ∨ s.master = .give) ∧
      (step s e).1.master ≠ .give ∧ (step s e).1.master ≠ .prime) := by
  cases e with
  | master r1 r2 =>
    simp only [step, vMasterTask]
    split <;> try simp_all [signalling]
    split <;> simp_all [signalling]
  | masterSendTimeout =>
    simp only [step, masterSendTimeout]; split <;> simp_all [signalling]
  | masterWake =>
    simp only [step, masterWake]; split <;> simp_all [signalling]
  | slave =>
    left
    simp only [step, vSlaveTask]
    split <;> try simp [signalling]
    all_goals (split <;> try simp [signalling])
    all_goals (split <;> simp [signalling])
  | slaveWake =>
    simp only [step, slaveWake]; split <;> simp_all [signalling]

theorem signalling_interleaved {s : System} {tr : List Action} (hr : Interleaved s tr) :
    (s.master = .prime → signalling tr = []) ∧
    (s.master = .give → ∃ o, (signalling tr).getLast? = some (.xQueueSend o true)) ∧
    (∀ i r, (signalling tr)[i + 1]? = some (.xSemaphoreGive r) →
      ∃ o, (signalling tr)[i]? = some (.xQueueSend o true)) := by
  induction hr with
  | init =>
    exact ⟨fun _ => rfl, fun h => absurd h (by decide),
      fun i r h => by simp [signalling] at h⟩
  | next s tr e _ ih =>
    obtain ⟨ih1, ih2, ih3⟩ := ih
    rw [signalling_append]
    rcases signalling_step s e with ⟨h0, hg, hp⟩ | ⟨o, h0, hm⟩ | ⟨o, h0, hm⟩ | ⟨r, h0, hm, hn1, hn2⟩
    · rw [h0, List.append_nil]
      exact ⟨fun h => ih1 (hp h), fun h => ih2 (hg h), ih3⟩
    · rw [h0]
      refine ⟨fun h => (by rw [hm] at h; cases h), fun _ => ⟨o, by simp⟩, ?_⟩
      intro i r h
      rcases getElem?_concat_succ _ _ _ _ h with ⟨h1, h2⟩ | ⟨h1, _⟩
      · rw [h2]; exact ih3 i r h1
      · cases h1
    · rw [h0]
      refine ⟨fun h => (by rw [hm] at h; cases h), fun h => (by rw [hm] at h; cases h), ?_⟩
      intro i r h
      rcases getElem?_concat_succ _ _ _ _ h with ⟨h1, h2⟩ | ⟨h1, _⟩
      · rw [h2]; exact ih3 i r h1
      · cases h1
    · rw [h0]
      refine ⟨fun h => absurd h hn2, fun h => absurd h hn1, ?_⟩
      intro i r2 h
      rcases getElem?_concat_succ _ _ _ _ h with ⟨h1, h2⟩ | ⟨_, h2⟩
      · rw [h2]; exact ih3 i r2 h1
      · rcases hm with hm | hm
        · rw [ih1 hm] at h
          simp at h
        · rw [h2]; exact ih2 hm

/-- C8 as stated fails: the first call of `vMasterTask` is the priming `xSemaphoreGive`
before the loop; it returns `pdTRUE`, and no `xQueueSend` at all precedes it. -/
theorem priming_give_counterexample :
    Reachable (step main_state (.master 0 0)).1 ([] ++ (step main_state (.master 0 0)).2) ∧
    [] ++ (step main_state (.master 0 0)).2 = [Action.xSemaphoreGive true] ∧
    ∀ o r, Action.xQueueSend o r ∉ [] ++ (step main_state (.master 0 0)).2 :=
  ⟨Reachable.next main_state [] (.master 0 0) Reachable.init (by decide), by decide,
    fun o r h => by simp [step, vMasterTask, main_state] at h⟩

/-- C8, amended: in the master's sequence of queue sends and semaphore gives, every give
other than the very first call (the priming give before the loop) comes directly after an
`xQueueSend` that returned `pdPASS`; no other give lies between that send and the give, so
each such give is matched by exactly one slot write that happened before it and had not yet
been signalled. -/
theorem loop_give_follows_send (s : System) (tr : List Action) (hr : Interleaved s tr) :
    ∀ i r, (signalling tr)[i + 1]? = some (.xSemaphoreGive r) →
      ∃ o, (signalling tr)[i]? = some (.xQueueSend o true) :=
  (signalling_interleaved hr).2.2

/-- Witness for C8: priming give, then order 1 is sent and signalled. -/
theorem loop_give_follows_send_witness :
    ∃ o, (signalling ([] ++ (exec main_state [.master 0 0, .master 3 4, .master 0 0,
      .master 0 0, .master 0 0]).2))[1]? = some (.xQueueSend o true) :=
  loop_give_follows_send _ _
    (handoff_interleaved_exec Interleaved.init [.master 0 0, .master 3 4, .master 0 0,
      .master 0 0, .master 0 0]) 1 false (by decide)

end BinarySemaphore

namespace TaskNotification

/-! ## The entry point -/

theorem storesGuarded_handler (s : System) (t : Nat) (w : Bool) (d : Nat)
    (rest : List Action) :
    storesGuarded d ((button_interrupt_handler s t w).2 ++ rest) = storesGuarded d rest ∧
    (button_interrupt_handler s t w).1.red = s.red ∧
    (button_interrupt_handler s t w).1.green = s.green := by
  by_cases hsub : tickSub t s.last_press_time < 200
  · rw [handler_bounce w hsub]; simp
  · cases hx : s.task_to_delete_handle with
    | none => rw [handler_accept_none w hsub hx]; simp [storesGuarded]
    | some x =>
      rw [handler_accept_some w hsub hx]
      cases x <;> simp [storesGuarded, notifyPending]

theorem inCritical_eval :
    Loc.inCritical .toggle = false ∧ Loc.inCritical .wait = false ∧
    Loc.inCritical .enterCritical = false ∧ Loc.inCritical .assign = true ∧
    Loc.inCritical .writePin = true ∧ Loc.inCritical .exitCritical = true ∧
    Loc.inCritical .delete = false ∧ Loc.inCritical .deleted = false :=
  ⟨rfl, rfl, rfl, rfl, rfl, rfl, rfl, rfl⟩

theorem storesGuarded_step (s : System) (e : Event) (rest : List Action) :
    storesGuarded (openCritical s) ((step s e).2 ++ rest) =
      storesGuarded (openCritical (step s e).1) rest := by
  cases e with
  | button t w =>
    obtain ⟨h1, h2, h3⟩ := storesGuarded_handler s t w (openCritical s) rest
    simp only [step]
    rw [h1]
    simp [openCritical, h2, h3]
  | red =>
    obtain ⟨p, l, r, g, rp, gp, bp, op, p12, p14⟩ := s
    obtain ⟨e1, e2, e3, e4, e5, e6, e7, e8⟩ := inCritical_eval
    simp only [openCritical]
    generalize hk : (if Loc.inCritical g = true then 1 else 0) = k
    cases r <;> cases rp <;>
      simp [step, task1_RED_LED, xTaskNotifyWait, storesGuarded, e1, e2, e3, e4, e5, e6,
        e7, e8, hk] <;>
      (congr 1; omega)
  | green =>
    obtain ⟨p, l, r, g, rp, gp, bp, op, p12, p14⟩ := s
    obtain ⟨e1, e2, e3, e4, e5, e6, e7, e8⟩ := inCritical_eval
    simp only [openCritical]
    generalize hk : (if Loc.inCritical r = true then 1 else 0) = k
    cases g <;> cases gp <;>
      simp [step, task2_GREEN_LED, xTaskNotifyWait, storesGuarded, e1, e2, e3, e4, e5, e6,
        e7, e8, hk]

theorem storesGuarded_exec (s : System) (es : List Event) :
    storesGuarded (openCritical s) (exec s es).2 = true := by
  induction es generalizing s with
  | nil => rfl
  | cons e es ih =>
    simp only [exec]
    rw [storesGuarded_step]
    exact ih _

theorem store_only_at_assign {s : System} {e : Event} {v : Option TaskHandle_t}
    (h : Action.store_task_to_delete_handle v ∈ (step s e).2) :
    (e = .green ∧ s.green = .assign ∧ v = some .task1_RED_LED_handle) ∨
    (e = .red ∧ s.red = .assign ∧ v = none) := by
  cases e with
  | button t w =>
    exfalso
    simp only [step] at h
    by_cases hsub : tickSub t s.last_press_time < 200
    · rw [handler_bounce w hsub] at h; simp at h
    · cases hx : s.task_to_delete_handle with
      | none => rw [handler_accept_none w hsub hx] at h; simp at h
      | some x => rw [handler_accept_some w hsub hx] at h; simp at h
  | red =>
    right
    obtain ⟨p, l, r, g, rp, gp, bp, op, p12, p14⟩ := s
    cases r <;> cases rp <;> simp_all [step, task1_RED_LED, xTaskNotifyWait]
  | green =>
    left
    obtain ⟨p, l, r, g, rp, gp, bp, op, p12, p14⟩ := s
    cases g <;> cases gp <;> simp_all [step, task2_GREEN_LED, xTaskNotifyWait]

/-- C17 as stated fails: `main` stores the Green handle in `task_to_delete_handle` outside
any critical section; its trace holds that store and no `portENTER_CRITICAL` at all. -/
theorem main_store_counterexample :
    Action.store_task_to_delete_handle (some .task2_GREEN_LED_handle) ∈ (main 1 1 1 1).trace ∧
    Action.portENTER_CRITICAL ∉ (main 1 1 1 1).trace ∧
    storesGuarded 0 (main 1 1 1 1).trace = false := by
  decide

/-- C17, amended: every assignment to `task_to_delete_handle` made by a task (Green or Red)
is executed between that task's `portENTER_CRITICAL` and `portEXIT_CRITICAL`: in the trace of
every schedule from the state `main` sets up each store lies inside an open critical
section, and at the moment of a store the storing task stands at its assignment, inside its
critical section, where the button interrupt is excluded. The first assignment, made by
`main` before the scheduler starts, is outside any critical section. -/
theorem task_stores_in_critical_section (es : List Event) :
    storesGuarded 0 (exec main_state es).2 = true ∧
    (∀ (s : System) (e : Event) (v : Option TaskHandle_t),
      Action.store_task_to_delete_handle v ∈ (step s e).2 →
        ((e = .green ∧ s.green = .assign ∧ s.green.inCritical = true) ∨
          (e = .red ∧ s.red = .assign ∧ s.red.inCritical = true)) ∧
        ∀ t w, enabled s (.button t w) = false) := by
  refine ⟨storesGuarded_exec main_state es, ?_⟩
  intro s e v h
  rcases store_only_at_assign h with ⟨he, hl, _⟩ | ⟨he, hl, _⟩
  · exact ⟨Or.inl ⟨he, hl, by rw [hl]; rfl⟩, fun t w => by simp [enabled, hl, Loc.inCritical]⟩
  · exact ⟨Or.inr ⟨he, hl, by rw [hl]; rfl⟩, fun t w => by simp [enabled, hl, Loc.inCritical]⟩

/-- Witness for C17: a press at tick 200, then Green runs up to and through its store. -/
theorem task_stores_in_critical_section_witness :
    storesGuarded 0 (exec main_state [.button 200 true, .green, .green, .green, .green]).2
      = true ∧
    enabled (exec main_state [.button 200 true, .green, .green, .green]).1 (.button 300 true)
      = false :=
  ⟨(task_stores_in_critical_section [.button 200 true, .green, .green, .green, .green]).1,
    ((task_stores_in_critical_section []).2
      (exec main_state [.button 200 true, .green, .green, .green]).1 .green
      (some .task1_RED_LED_handle) (by decide)).2 300 true⟩

/-! ## Transitions of the chain pointer -/

theorem handle_step {s : System} (h : chainInv s = true) (e : Event)
    (hne : (step s e).1.task_to_delete_handle ≠ s.task_to_delete_handle) :
    (e = .green ∧ s.task_to_delete_handle = some .task2_GREEN_LED_handle ∧
      (step s e).1.task_to_delete_handle = some .task1_RED_LED_handle) ∨
    (e = .red ∧ s.task_to_delete_handle = some .task1_RED_LED_handle ∧
      (step s e).1.task_to_delete_handle = none) := by
  cases e with
  | button t w =>
    exfalso
    apply hne
    simp only [step]
    by_cases hsub : tickSub t s.last_press_time < 200
    · rw [handler_bounce w hsub]
    · cases hx : s.task_to_delete_handle with
      | none => rw [handler_accept_none w hsub hx]; exact hx
      | some x => rw [handler_accept_some w hsub hx, notifyPending_handle]; exact hx
  | red =>
    right
    obtain ⟨p, l, r, g, rp, gp, bp, op, p12, p14⟩ := s
    cases r <;> cases rp <;> cases g <;> cases p with
      | none => simp_all [step, task1_RED_LED, xTaskNotifyWait, chainInv, Loc.beforeAssign,
          Loc.blinking]
      | some x =>
        cases x <;> simp_all [step, task1_RED_LED, xTaskNotifyWait, chainInv,
          Loc.beforeAssign, Loc.blinking]
  | green =>
    left
    obtain ⟨p, l, r, g, rp, gp, bp, op, p12, p14⟩ := s
    cases g <;> cases gp <;> cases r <;> cases p with
      | none => simp_all [step, task2_GREEN_LED, xTaskNotifyWait, chainInv, Loc.beforeAssign,
          Loc.blinking]
      | some x =>
        cases x <;> simp_all [step, task2_GREEN_LED, xTaskNotifyWait, chainInv,
          Loc.beforeAssign, Loc.blinking]

theorem handle_none_exec {s : System} (h : chainInv s = true)
    (hn : s.task_to_delete_handle = none) (es : List Event) :
    (exec s es).1.task_to_delete_handle = none := by
  induction es generalizing s with
  | nil => exact hn
  | cons e es ih =>
    simp only [exec]
    apply ih (chainInv_step s e h)
    by_contra hne
    rcases handle_step h e (by rw [hn]; exact hne) with ⟨_, h1, _⟩ | ⟨_, h1, _⟩ <;>
      rw [hn] at h1 <;> cases h1

/-- C18: in every state reached after the scheduler has started, by any interleaving of the
handler and the two tasks, `task_to_delete_handle` holds the Green handle, the Red handle or
NULL; an event that changes it is either a statement of the Green task taking it from Green
to Red or a statement of the Red task taking it from Red to NULL; and once it is NULL it is
NULL after every further sequence of events. -/
theorem chain_pointer_transitions (s : System) (hr : Interleaved s) :
    (s.task_to_delete_handle = some .task2_GREEN_LED_handle ∨
      s.task_to_delete_handle = some .task1_RED_LED_handle ∨
      s.task_to_delete_handle = none) ∧
    (∀ e, (step s e).1.task_to_delete_handle ≠ s.task_to_delete_handle →
      (e = .green ∧ s.task_to_delete_handle = some .task2_GREEN_LED_handle ∧
        (step s e).1.task_to_delete_handle = some .task1_RED_LED_handle) ∨
      (e = .red ∧ s.task_to_delete_handle = some .task1_RED_LED_handle ∧
        (step s e).1.task_to_delete_handle = none)) ∧
    (s.task_to_delete_handle = none →
      ∀ es, (exec s es).1.task_to_delete_handle = none) := by
  have hinv := chainInv_interleaved hr
  refine ⟨?_, fun e hne => handle_step hinv e hne, fun hn es => handle_none_exec hinv hn es⟩
  cases hx : s.task_to_delete_handle with
  | none => simp
  | some x =>
    cases x <;> simp_all [chainInv]

/-- Witness for C18: after both tasks have gone the pointer is NULL and stays NULL. -/
theorem chain_pointer_transitions_witness :
    (exec (exec main_state [.button 200 true, .green, .green, .green, .green, .green,
      .green, .green, .button 400 true, .red, .red, .red, .red, .red, .red, .red]).1
      [.button 600 true, .green, .red, .button 900 true]).1.task_to_delete_handle = none :=
  (chain_pointer_transitions _
    (chain_interleaved_exec Interleaved.init [.button 200 true, .green, .green, .green,
      .green, .green, .green, .green, .button 400 true, .red, .red, .red, .red, .red, .red,
      .red])).2.2 (by decide) [.button 600 true, .green, .red, .button 900 true]

/-! ## The termination path -/

/-- C19: when `xTaskNotifyWait` returns `pdTRUE` the task performs, in this order,
`portENTER_CRITICAL`, the store of its successor into `task_to_delete_handle` (Red's handle
for Green, NULL for Red), `HAL_GPIO_WritePin` of its own pin (PD12 for Green, PD14 for Red)
to `GPIO_PIN_SET`, `portEXIT_CRITICAL` and `vTaskDelete(NULL)`; the LED ends up on whatever
its state was, and the pointer is advanced before the task is deleted. -/
theorem notified_task_termination_path (s : System) :
    (s.green = .wait → s.greenPending = true →
      (runGreen 6 s).2 =
        [.xTaskNotifyWait true, .portENTER_CRITICAL,
         .store_task_to_delete_handle (some .task1_RED_LED_handle),
         .HAL_GPIO_WritePin 12 true, .portEXIT_CRITICAL,
         .vTaskDelete_NULL .task2_GREEN_LED_handle] ∧
      (runGreen 6 s).1.pd12 = true ∧
      (runGreen 6 s).1.task_to_delete_handle = some .task1_RED_LED_handle ∧
      (runGreen 6 s).1.green = .deleted) ∧
    (s.red = .wait → s.redPending = true →
      (runRed 6 s).2 =
        [.xTaskNotifyWait true, .portENTER_CRITICAL,
         .store_task_to_delete_handle none,
         .HAL_GPIO_WritePin 14 true, .portEXIT_CRITICAL,
         .vTaskDelete_NULL .task1_RED_LED_handle] ∧
      (runRed 6 s).1.pd14 = true ∧
      (runRed 6 s).1.task_to_delete_handle = none ∧
      (runRed 6 s).1.red = .deleted) := by
  obtain ⟨p, l, r, g, rp, gp, bp, op, p12, p14⟩ := s
  constructor
  · intro hg hp
    simp only at hg hp
    subst hg hp
    simp [runGreen, task2_GREEN_LED, xTaskNotifyWait]
  · intro hr hp
    simp only at hr hp
    subst hr hp
    simp [runRed, task1_RED_LED, xTaskNotifyWait]

/-- Witness for C19: Green, notified at tick 200 while its LED is on, waits. -/
theorem notified_task_termination_path_witness :
    (exec main_state [.green, .button 200 true]).1.pd12 = true ∧
    (runGreen 6 (exec main_state [.green, .button 200 true]).1).2 =
      [.xTaskNotifyWait true, .portENTER_CRITICAL,
       .store_task_to_delete_handle (some .task1_RED_LED_handle),
       .HAL_GPIO_WritePin 12 true, .portEXIT_CRITICAL,
       .vTaskDelete_NULL .task2_GREEN_LED_handle] :=
  ⟨by decide,
    ((notified_task_termination_path (exec main_state [.green, .button 200 true]).1).1
      (by decide) (by decide)).1⟩

end TaskNotification

namespace BinarySemaphore

/-! ## The order the master builds -/

/-- C20: for every non-negative value `r2` returned by the second `rand()` call, the quantity
of the order `vMasterTask` builds, `(uint8_t)((rand() % 15) + 1)`, lies between 1 and 15;
and every quantity from 1 to 15 is built for some value of `rand()` (one not above 14). -/
theorem order_quantity_range (s : System) (r1 r2 : Nat) (hb : s.master = .build) :
    (vMasterTask s r1 r2).1.xOrder.ucQuantity = ((r2 % 15) + 1) % 256 ∧
    1 ≤ (vMasterTask s r1 r2).1.xOrder.ucQuantity ∧
    (vMasterTask s r1 r2).1.xOrder.ucQuantity ≤ 15 ∧
    ∀ q, 1 ≤ q → q ≤ 15 →
      ∃ r, r ≤ 14 ∧ (vMasterTask s r1 r).1.xOrder.ucQuantity = q := by
  have hq : ∀ r, (vMasterTask s r1 r).1.xOrder.ucQuantity = ((r % 15) + 1) % 256 := by
    intro r
    simp [vMasterTask, hb, MAX_ORDER_QUANTITY]
  refine ⟨hq r2, ?_, ?_, ?_⟩
  · rw [hq]; omega
  · rw [hq]; omega
  · intro q h1 h2
    refine ⟨q - 1, by omega, ?_⟩
    rw [hq]; omega

/-- Witness for C20: the first order, built with `rand()` values 3 and 4. -/
theorem order_quantity_range_witness :
    (vMasterTask (exec main_state [.master 0 0]).1 3 4).1.xOrder.ucQuantity = 5 :=
  (order_quantity_range (exec main_state [.master 0 0]).1 3 4 (by decide)).1.trans
    (by decide)

/-! ## The entry point -/

/-- C16: when `xSemaphoreCreateBinary` or `xQueueCreate` returns NULL, `main` creates no
task, does not call `vTaskStartScheduler`, prints the "[ERROR] Failed to create semaphore or
queue." line and spins for ever; a task is created or the scheduler started only when both
handles are non-NULL. -/
theorem main_create_failure (semCreated queueCreated schedulerReturns : Bool) :
    (semCreated = false ∨ queueCreated = false →
      main semCreated queueCreated schedulerReturns =
        [.vConsolePrint bannerLine, .xSemaphoreCreateBinary semCreated,
         .xQueueCreate ORDER_QUEUE_DEPTH queueCreated,
         .vConsolePrint createFailedLine, .spin]) ∧
    ((∃ n p, MainAction.xTaskCreate n p ∈ main semCreated queueCreated schedulerReturns) ∨
      MainAction.vTaskStartScheduler ∈ main semCreated queueCreated schedulerReturns →
      semCreated = true ∧ queueCreated = true) ∧
    createFailedLine = "[ERROR] Failed to create semaphore or queue.\r\n" := by
  cases semCreated <;> cases queueCreated <;> cases schedulerReturns <;>
    simp [main, createFailedLine]

/-- Witness for C16: the queue cannot be created. -/
theorem main_create_failure_witness :
    main true false false =
      [.vConsolePrint bannerLine, .xSemaphoreCreateBinary true,
       .xQueueCreate ORDER_QUEUE_DEPTH false, .vConsolePrint createFailedLine, .spin] :=
  (main_create_failure true false false).1 (Or.inr rfl)

/-! ## The calls of the master -/

theorem chain'_getElem? {α : Type} {R : α → α → Prop} {l : List α} (h : List.Chain' R l)
    (i : Nat) (x y : α) (hx : l[i]? = some x) (hy : l[i + 1]? = some y) : R x y := by
  induction l generalizing i with
  | nil => simp at hx
  | cons a l ih =>
    cases l with
    | nil => simp at hy
    | cons b l =>
      rw [List.chain'_cons] at h
      cases i with
      | zero =>
        simp at hx hy
        subst hx hy
        exact h.1
      | succ i =>
        rw [List.getElem?_cons_succ] at hx hy
        exact ih h.2 i hx hy

theorem chain'_concat {α : Type} {R : α → α → Prop} {l : List α} {y : α}
    (h : List.Chain' R l) (hy : ∀ x, l.getLast? = some x → R x y) :
    List.Chain' R (l ++ [y]) := by
  rw [List.chain'_append]
  refine ⟨h, List.chain'_singleton y, ?_⟩
  intro x hx z hz
  simp at hz
  subst hz
  exact hy x hx

theorem getElem?_concat_cases {α : Type} (l : List α) (a x : α) (i : Nat)
    (h : (l ++ [a])[i]? = some x) : l[i]? = some x ∨ (i = l.length ∧ a = x) := by
  by_cases hlt : i < l.length
  · left
    rwa [List.getElem?_append_left hlt] at h
  · right
    by_cases heq : i = l.length
    · subst heq
      simp at h
      exact ⟨rfl, h⟩
    · have h1 : (l ++ [a])[i]? = none := by
        apply List.getElem?_eq_none
        simp
        omega
      rw [h1] at h
      cases h

theorem delayAfterGive_concat {l : List Action} {y : Action} (h : delayAfterGive l)
    (hy : y ≠ .vTaskDelay 1000) : delayAfterGive (l ++ [y]) := by
  intro i hi
  rcases getElem?_concat_cases l y _ i hi with h1 | ⟨_, h2⟩
  · obtain ⟨j, o, r, hj, h3, h4⟩ := h i h1
    have hlen : i < l.length := by
      by_contra hc
      rw [List.getElem?_eq_none (by omega)] at h1
      cases h1
    refine ⟨j, o, r, hj, ?_, ?_⟩
    · rw [List.getElem?_append_left (by omega)]; exact h3
    · rw [List.getElem?_append_left (by omega)]; exact h4
  · exact absurd h2 hy

theorem delayAfterGive_concat_delay {l2 : List Action} {o : WorkOrder_t} {r : Bool}
    (h : delayAfterGive (l2 ++ [.xQueueSend o true, .xSemaphoreGive r])) :
    delayAfterGive (l2 ++ [.xQueueSend o true, .xSemaphoreGive r] ++ [.vTaskDelay 1000]) := by
  intro i hi
  rcases getElem?_concat_cases _ _ _ i hi with h1 | ⟨h2, _⟩
  · obtain ⟨j, o2, r2, hj, h3, h4⟩ := h i h1
    have hlen : i < (l2 ++ [Action.xQueueSend o true, Action.xSemaphoreGive r]).length := by
      by_contra hc
      rw [List.getElem?_eq_none (by omega)] at h1
      cases h1
    refine ⟨j, o2, r2, hj, ?_, ?_⟩
    · rw [List.getElem?_append_left (by omega)]; exact h3
    · rw [List.getElem?_append_left (by omega)]; exact h4
  · refine ⟨l2.length, o, r, by simp at h2; omega, ?_, ?_⟩
    · rw [List.append_assoc, List.getElem?_append_right (Nat.le_refl _)]
      simp
    · rw [List.append_assoc, List.getElem?_append_right (by omega)]
      simp

theorem masterTraceInv_master (s : System) (r1 r2 : Nat) (l : List Action)
    (h : masterTraceInv s l) :
    masterTraceInv (vMasterTask s r1 r2).1 (l ++ masterCalls (vMasterTask s r1 r2).2) := by
  obtain ⟨hinv, hch, hd⟩ := h
  unfold masterTraceInv
  cases hm : s.master with
  | prime =>
    rw [hm] at hinv
    simp only [masterInv] at hinv
    subst hinv
    refine ⟨?_, ?_, ?_⟩
    · simp [vMasterTask, hm, masterCalls, isMasterCall, masterInv]
    · simp [vMasterTask, hm, masterCalls, isMasterCall]
    · simp only [vMasterTask, hm, masterCalls, List.filter, isMasterCall, List.nil_append]
      intro i hi
      cases i <;> simp at hi
  | build =>
    rw [hm] at hinv
    simp only [masterInv] at hinv
    have hcalls : masterCalls (vMasterTask s r1 r2).2 = [] := by
      simp [vMasterTask, hm, masterCalls]
    rw [hcalls, List.append_nil]
    refine ⟨?_, hch, hd⟩
    simp only [vMasterTask, hm, masterInv]
    refine ⟨trivial, ?_⟩
    rcases hinv with h1 | h1 | h1
    · exact Or.inl h1
    · exact Or.inr (Or.inl ⟨_, h1, rfl⟩)
    · exact Or.inr (Or.inr h1)
  | print =>
    rw [hm] at hinv
    simp only [masterInv] at hinv
    obtain ⟨hid, hlast⟩ := hinv
    have hcalls : masterCalls (vMasterTask s r1 r2).2 =
        [.vConsolePrint (.masterOrder s.xOrder.usOrderId s.xOrder.ucQuantity
          s.xOrder.eItem)] := by
      simp [vMasterTask, hm, masterCalls, isMasterCall]
    rw [hcalls]
    refine ⟨?_, ?_, ?_⟩
    · simp [vMasterTask, hm, masterInv, hid]
    · apply chain'_concat hch
      intro x hx
      rcases hlast with ⟨r, h1⟩ | ⟨id, h1, h2⟩ | ⟨l2, o, r, h1⟩
      · subst h1
        simp at hx
        subst hx
        exact Or.inr ⟨_, _, _, rfl⟩
      · rw [h1] at hx
        cases hx
        exact ⟨_, _, by rw [h2]⟩
      · subst h1
        simp at hx
        subst hx
        exact ⟨_, _, _, rfl⟩
    · exact delayAfterGive_concat hd (by simp)
  | send =>
    rw [hm] at hinv
    simp only [masterInv] at hinv
    obtain ⟨hid, hlast⟩ := hinv
    by_cases hf : s.g_xOrderQueue.full = true
    · have hstep : vMasterTask s r1 r2 = (s, []) := by
        simp [vMasterTask, hm, xQueueSend, hf]
      rw [hstep]
      simp only [masterCalls, List.filter, List.append_nil, hm, masterInv]
      exact ⟨⟨hid, hlast⟩, hch, hd⟩
    · have hcalls : masterCalls (vMasterTask s r1 r2).2 = [.xQueueSend s.xOrder true] := by
        simp [vMasterTask, hm, xQueueSend, hf, masterCalls, isMasterCall]
      rw [hcalls]
      refine ⟨?_, ?_, ?_⟩
      · simp [vMasterTask, hm, xQueueSend, hf, masterInv]
      · apply chain'_concat hch
        intro x hx
        rw [hlast] at hx
        cases hx
        exact ⟨true, rfl⟩
      · exact delayAfterGive_concat hd (by simp)
  | reportError =>
    rw [hm] at hinv
    simp only [masterInv] at hinv
    obtain ⟨hid, hlast⟩ := hinv
    have hcalls : masterCalls (vMasterTask s r1 r2).2 =
        [.vConsolePrint (.masterError s.xOrder.usOrderId)] := by
      simp [vMasterTask, hm, masterCalls, isMasterCall]
    rw [hcalls]
    refine ⟨?_, ?_, ?_⟩
    · simp [vMasterTask, hm, masterInv, hid]
    · apply chain'_concat hch
      intro x hx
      rw [hlast] at hx
      cases hx
      rfl
    · exact delayAfterGive_concat hd (by simp)
  | give =>
    rw [hm] at hinv
    simp only [masterInv] at hinv
    obtain ⟨l2, hl2⟩ := List.getLast?_eq_some_iff.mp hinv
    have hcalls : masterCalls (vMasterTask s r1 r2).2 =
        [.xSemaphoreGive (xSemaphoreGive s.g_xOrderReadySemaphore).2] := by
      simp [vMasterTask, hm, masterCalls, isMasterCall]
    rw [hcalls]
    refine ⟨?_, ?_, ?_⟩
    · simp only [vMasterTask, hm, masterInv]
      exact ⟨l2, s.xOrder, (xSemaphoreGive s.g_xOrderReadySemaphore).2, by rw [hl2]; simp⟩
    · apply chain'_concat hch
      intro x hx
      rw [hinv] at hx
      cases hx
      exact ⟨_, rfl⟩
    · exact delayAfterGive_concat hd (by simp)
  | delay =>
    rw [hm] at hinv
    simp only [masterInv] at hinv
    obtain ⟨l2, o, r, hl2⟩ := hinv
    have hcalls : masterCalls (vMasterTask s r1 r2).2 = [.vTaskDelay 1000] := by
      simp [vMasterTask, hm, masterCalls, isMasterCall]
    rw [hcalls]
    refine ⟨?_, ?_, ?_⟩
    · simp only [vMasterTask, hm, masterInv]
      exact ⟨l2, o, r, by rw [hl2]; simp⟩
    · apply chain'_concat hch
      intro x hx
      rw [hl2] at hx
      simp at hx
      subst hx
      exact Or.inl rfl
    · rw [hl2]
      rw [hl2] at hd
      exact delayAfterGive_concat_delay hd
  | sleeping =>
    have hstep : vMasterTask s r1 r2 = (s, []) := by
      simp [vMasterTask, hm]
    rw [hstep]
    simp only [masterCalls, List.filter, List.append_nil]
    exact ⟨hinv, hch, hd⟩

theorem masterTraceInv_masterSendTimeout (s : System) (l : List Action)
    (h : masterTraceInv s l) :
    masterTraceInv (masterSendTimeout s).1 (l ++ masterCalls (masterSendTimeout s).2) := by
  obtain ⟨hinv, hch, hd⟩ := h
  unfold masterTraceInv
  by_cases hc : s.master = .send ∧ s.g_xOrderQueue.full = true
  · have hcalls : masterCalls (masterSendTimeout s).2 = [.xQueueSend s.xOrder false] := by
      simp [masterSendTimeout, hc, masterCalls, isMasterCall]
    rw [hc.1] at hinv
    simp only [masterInv] at hinv
    obtain ⟨hid, hlast⟩ := hinv
    rw [hcalls]
    refine ⟨?_, ?_, ?_⟩
    · simp [masterSendTimeout, hc, masterInv, hid]
    · apply chain'_concat hch
      intro x hx
      rw [hlast] at hx
      cases hx
      exact ⟨false, rfl⟩
    · exact delayAfterGive_concat hd (by simp)
  · have hstep : masterSendTimeout s = (s, []) := by
      simp only [masterSendTimeout, hc, if_false]
    rw [hstep]
    simp only [masterCalls, List.filter, List.append_nil]
    exact ⟨hinv, hch, hd⟩

theorem masterTraceInv_masterWake (s : System) (l : List Action)
    (h : masterTraceInv s l) :
    masterTraceInv (masterWake s).1 (l ++ masterCalls (masterWake s).2) := by
  obtain ⟨hinv, hch, hd⟩ := h
  unfold masterTraceInv
  by_cases hc : s.master = .sleeping
  · have hcalls : masterCalls (masterWake s).2 = [] := by
      simp [masterWake, hc, masterCalls]
    rw [hc] at hinv
    simp only [masterInv] at hinv
    rw [hcalls, List.append_nil]
    refine ⟨?_, hch, hd⟩
    simp only [masterWake, hc, if_true, masterInv]
    exact Or.inr (Or.inr hinv)
  · have hstep : masterWake s = (s, []) := by
      simp only [masterWake, hc, if_false]
    rw [hstep]
    simp only [masterCalls, List.filter, List.append_nil]
    exact ⟨hinv, hch, hd⟩

/-- The slave makes no call of the master and leaves the master's variables alone. -/
theorem slave_frame (s : System) :
    masterCalls (vSlaveTask s).2 = [] ∧ (vSlaveTask s).1.master = s.master ∧
    (vSlaveTask s).1.xOrder = s.xOrder ∧
    (vSlaveTask s).1.usSequenceCounter = s.usSequenceCounter := by
  simp only [vSlaveTask]
  split <;> try simp [masterCalls, isMasterCall]
  all_goals (split <;> try simp [masterCalls, isMasterCall])
  all_goals (split <;> simp [masterCalls, isMasterCall])

theorem slaveWake_frame (s : System) :
    masterCalls (slaveWake s).2 = [] ∧ (slaveWake s).1.master = s.master ∧
    (slaveWake s).1.xOrder = s.xOrder ∧
    (slaveWake s).1.usSequenceCounter = s.usSequenceCounter := by
  simp only [slaveWake]
  split <;> simp [masterCalls]

theorem masterTraceInv_step (s : System) (e : Event) (l : List Action)
    (h : masterTraceInv s l) :
    masterTraceInv (step s e).1 (l ++ masterCalls (step s e).2) := by
  cases e with
  | master r1 r2 => exact masterTraceInv_master s r1 r2 l h
  | masterSendTimeout => exact masterTraceInv_masterSendTimeout s l h
  | masterWake => exact masterTraceInv_masterWake s l h
  | slave =>
    obtain ⟨h1, h2, h3, h4⟩ := slave_frame s
    simp only [step, masterTraceInv, h1, h2, h3, h4, List.append_nil]
    exact h
  | slaveWake =>
    obtain ⟨h1, h2, h3, h4⟩ := slaveWake_frame s
    simp only [step, masterTraceInv, h1, h2, h3, h4, List.append_nil]
    exact h

theorem masterCalls_append (xs ys : List Action) :
    masterCalls (xs ++ ys) = masterCalls xs ++ masterCalls ys := by
  simp [masterCalls]

theorem masterTraceInv_interleaved {s : System} {tr : List Action}
    (hr : Interleaved s tr) : masterTraceInv s (masterCalls tr) := by
  induction hr with
  | init =>
    refine ⟨rfl, List.chain'_nil, ?_⟩
    intro i hi
    simp [masterCalls] at hi
  | next s tr e _ ih =>
    rw [masterCalls_append]
    exact masterTraceInv_step s e _ ih

theorem isMasterCall_of_getElem? {tr : List Action} {i : Nat} {x : Action}
    (h : (masterCalls tr)[i]? = some x) : isMasterCall x = true := by
  have hmem : x ∈ masterCalls tr := List.getElem?_mem h
  simp only [masterCalls, List.mem_filter] at hmem
  exact hmem.2

/-- A give of the master that is not its first call comes directly after a successful send. -/
theorem give_after_send {x : Action} {r : Bool} (hx : isMasterCall x = true)
    (h : masterFollows x (.xSemaphoreGive r)) : ∃ o, x = .xQueueSend o true := by
  cases x with
  | xQueueSend o ok =>
    cases ok
    · simp [masterFollows] at h
    · exact ⟨o, rfl⟩
  | vConsolePrint line => cases line <;> simp_all [masterFollows, isMasterCall]
  | xSemaphoreGive r2 => simp [masterFollows] at h
  | vTaskDelay ms => simp [masterFollows] at h
  | xSemaphoreTake r2 => simp [isMasterCall] at hx
  | xQueueReceive o => simp [isMasterCall] at hx

/-- C11: in every run, among the calls of the master, an `xQueueSend` that did not return
`pdPASS` is directly followed by the enqueue-failed line for that order id, and that line by
the line of a new order carrying the next sequence id, which is the order the next
`xQueueSend` sends: no give, no delay and no second send of the failed order come in
between. A give that is not the master's first call directly follows an `xQueueSend` that
returned `pdPASS`, and every 1000 ms delay directly follows such a send and its give. A
master that stands in its error branch got there by a failed send and prints that line
next. -/
theorem failed_send_drops_order (s : System) (tr : List Action) (hr : Interleaved s tr) :
    (∀ i o y, (masterCalls tr)[i]? = some (.xQueueSend o false) →
      (masterCalls tr)[i + 1]? = some y →
        y = .vConsolePrint (.masterError o.usOrderId)) ∧
    (∀ i id y, (masterCalls tr)[i]? = some (.vConsolePrint (.masterError id)) →
      (masterCalls tr)[i + 1]? = some y →
        (id + 1) % 65536 ≠ id ∧
        ∃ q it, y = .vConsolePrint (.masterOrder ((id + 1) % 65536) q it)) ∧
    (∀ i id q it y, (masterCalls tr)[i]? = some (.vConsolePrint (.masterOrder id q it)) →
      (masterCalls tr)[i + 1]? = some y →
        ∃ r, y = .xQueueSend { usOrderId := id, eItem := it, ucQuantity := q } r) ∧
    (∀ i r, (masterCalls tr)[i + 1]? = some (.xSemaphoreGive r) →
      ∃ o, (masterCalls tr)[i]? = some (.xQueueSend o true)) ∧
    (∀ i, (masterCalls tr)[i]? = some (.vTaskDelay 1000) →
      ∃ j o r, i = j + 2 ∧ (masterCalls tr)[j]? = some (.xQueueSend o true) ∧
        (masterCalls tr)[j + 1]? = some (.xSemaphoreGive r)) ∧
    (s.master = .reportError →
      (masterCalls tr).getLast? = some (.xQueueSend s.xOrder false) ∧
      ∀ r1 r2, enabled s (.master r1 r2) = true ∧
        (vMasterTask s r1 r2).2 = [.vConsolePrint (.masterError s.xOrder.usOrderId)] ∧
        (vMasterTask s r1 r2).1.master = .build ∧
        (vMasterTask s r1 r2).1.g_xOrderReadySemaphore = s.g_xOrderReadySemaphore) := by
  obtain ⟨hinv, hch, hd⟩ := masterTraceInv_interleaved hr
  refine ⟨?_, ?_, ?_, ?_, hd, ?_⟩
  · intro i o y hx hy
    exact chain'_getElem? hch i _ _ hx hy
  · intro i id y hx hy
    exact ⟨by omega, chain'_getElem? hch i _ _ hx hy⟩
  · intro i id q it y hx hy
    exact chain'_getElem? hch i _ _ hx hy
  · intro i r hy
    have hlt : i < (masterCalls tr).length := by
      by_contra hc
      rw [List.getElem?_eq_none (by omega)] at hy
      cases hy
    have hx : (masterCalls tr)[i]? = some ((masterCalls tr)[i]) :=
      List.getElem?_eq_getElem hlt
    obtain ⟨o, ho⟩ := give_after_send (isMasterCall_of_getElem? hx)
      (chain'_getElem? hch i _ _ hx hy)
    exact ⟨o, by rw [hx, ho]⟩
  · intro hm
    rw [hm] at hinv
    simp only [masterInv] at hinv
    refine ⟨hinv.2, fun r1 r2 => ?_⟩
    simp [enabled, masterBlocked, vMasterTask, hm]

/-- Witness for C11: order 1 is sent and signalled; the master wakes before the slave has
run, so its send of order 2 finds the queue full and gives up; it prints the error line for
order 2 and goes on to print order 3. -/
theorem failed_send_drops_order_witness :
    (masterCalls ([] ++ (exec main_state [.master 0 0, .master 3 4, .master 0 0,
      .master 0 0, .master 0 0, .master 0 0, .masterWake, .master 9 9, .master 0 0,
      .masterSendTimeout, .master 0 0, .master 1 1, .master 0 0]).2))[7]? =
      some (.vConsolePrint (.masterError 2)) :=
  (failed_send_drops_order _ _
    (handoff_interleaved_exec Interleaved.init [.master 0 0, .master 3 4, .master 0 0,
      .master 0 0, .master 0 0, .master 0 0, .masterWake, .master 9 9, .master 0 0,
      .masterSendTimeout, .master 0 0, .master 1 1, .master 0 0])).1 6
    { usOrderId := 2, eItem := 1, ucQuantity := 10 } (.vConsolePrint (.masterError 2))
    (by decide) (by decide) ▸ rfl

end BinarySemaphore

namespace MutexDemo

/-! ## The lock invariant -/

theorem lockInv_main : lockInv main_state := by
  simp [lockInv, main_state, Loc.holds, TaskState.inBounds]

theorem lockInv_task1 (s : System) (h : lockInv s) : lockInv (vTask1 s).1 := by
  obtain ⟨m, ⟨l1, k1⟩, ⟨l2, k2⟩⟩ := s
  obtain ⟨h0, h1, h2, b1, b2⟩ := h
  simp only [TaskState.inBounds] at b1 b2
  simp only at h0 h1 h2 b1 b2
  cases l1 <;> rcases m with _ | _ | _ | _ <;>
    simp_all [lockInv, vTask1, taskBody, xSemaphoreTake, xSemaphoreGive, Loc.holds,
      TaskState.inBounds]
  split <;> simp_all

theorem lockInv_task2 (s : System) (r : Nat) (h : lockInv s) : lockInv (vTask2 s r).1 := by
  obtain ⟨m, ⟨l1, k1⟩, ⟨l2, k2⟩⟩ := s
  obtain ⟨h0, h1, h2, b1, b2⟩ := h
  simp only [TaskState.inBounds] at b1 b2
  simp only at h0 h1 h2 b1 b2
  cases l2 <;> rcases m with _ | _ | _ | _ <;>
    simp_all [lockInv, vTask2, taskBody, xSemaphoreTake, xSemaphoreGive, Loc.holds,
      TaskState.inBounds]
  split <;> simp_all

theorem lockInv_wake1 (s : System) (h : lockInv s) :
    lockInv { s with vTask1 := wake s.vTask1 } := by
  obtain ⟨m, ⟨l1, k1⟩, ⟨l2, k2⟩⟩ := s
  obtain ⟨h0, h1, h2, b1, b2⟩ := h
  simp only [TaskState.inBounds] at b1 b2
  simp only at h0 h1 h2 b1 b2
  cases l1 <;> simp_all [lockInv, wake, Loc.holds, TaskState.inBounds]

theorem lockInv_wake2 (s : System) (h : lockInv s) :
    lockInv { s with vTask2 := wake s.vTask2 } := by
  obtain ⟨m, ⟨l1, k1⟩, ⟨l2, k2⟩⟩ := s
  obtain ⟨h0, h1, h2, b1, b2⟩ := h
  simp only [TaskState.inBounds] at b1 b2
  simp only at h0 h1 h2 b1 b2
  cases l2 <;> simp_all [lockInv, wake, Loc.holds, TaskState.inBounds]

theorem lockInv_step (s : System) (e : Event) (h : lockInv s) : lockInv (step s e).1 := by
  cases e with
  | task1 => exact lockInv_task1 s h
  | task2 r => exact lockInv_task2 s r h
  | wake1 => exact lockInv_wake1 s h
  | wake2 => exact lockInv_wake2 s h

theorem lockInv_interleaved {s : System} {tr : List Action} (hr : Interleaved s tr) :
    lockInv s := by
  induction hr with
  | init => exact lockInv_main
  | next s tr e _ ih => exact lockInv_step s e ih

theorem lockInv_exec {s : System} (h : lockInv s) (es : List Event) :
    lockInv (exec s es).1 := by
  induction es generalizing s with
  | nil => exact h
  | cons e es ih => exact ih (lockInv_step s e h)

theorem mutex_interleaved_exec {s : System} {tr : List Action} (hr : Interleaved s tr)
    (es : List Event) : Interleaved (exec s es).1 (tr ++ (exec s es).2) := by
  induction es generalizing s tr with
  | nil => simpa [exec] using hr
  | cons e es ih =>
    have := ih (Interleaved.next s tr e hr)
    simpa [exec, List.append_assoc] using this

/-! ## Writes to the UART happen under the lock -/

/-- What a step of a task does: it may take the free mutex, give the mutex it holds,
transmit while it holds the mutex, or make a call that touches neither. -/
theorem transmitsUnderLock_step (s : System) (e : Event) (h : lockInv s)
    (rest : List Action) :
    transmitsUnderLock s.g_xMutex ((step s e).2 ++ rest) =
      transmitsUnderLock (step s e).1.g_xMutex rest := by
  obtain ⟨m, ⟨l1, k1⟩, ⟨l2, k2⟩⟩ := s
  obtain ⟨h0, h1, h2, b1, b2⟩ := h
  simp only at h0 h1 h2
  cases e with
  | task1 =>
    cases l1 <;> rcases m with _ | _ | _ | _ <;>
      simp_all [step, vTask1, taskBody, xSemaphoreTake, xSemaphoreGive, Loc.holds,
        transmitsUnderLock]
    split <;> simp [transmitsUnderLock]
  | task2 r =>
    cases l2 <;> rcases m with _ | _ | _ | _ <;>
      simp_all [step, vTask2, taskBody, xSemaphoreTake, xSemaphoreGive, Loc.holds,
        transmitsUnderLock]
    split <;> simp [transmitsUnderLock]
  | wake1 => simp [step]
  | wake2 => simp [step]

theorem transmitsUnderLock_exec (s : System) (h : lockInv s) (es : List Event) :
    transmitsUnderLock s.g_xMutex (exec s es).2 = true := by
  induction es generalizing s with
  | nil => rfl
  | cons e es ih =>
    simp only [exec]
    rw [transmitsUnderLock_step s e h]
    exact ih _ (lockInv_step s e h)

theorem transmit_only_by_holder {s : System} (h : lockInv s) {e : Event} {c : Caller}
    {data : List Char} (hmem : (⟨c, .HAL_UART_Transmit data⟩ : Action) ∈ (step s e).2) :
    s.g_xMutex = some c ∧ (step s e).1.g_xMutex = some c := by
  obtain ⟨m, ⟨l1, k1⟩, ⟨l2, k2⟩⟩ := s
  obtain ⟨h0, h1, h2, b1, b2⟩ := h
  simp only at h0 h1 h2
  cases e with
  | task1 =>
    cases l1 <;> rcases m with _ | _ | _ | _ <;>
      simp_all [step, vTask1, taskBody, xSemaphoreTake, xSemaphoreGive, Loc.holds]
    split at hmem <;> simp at hmem
  | task2 r =>
    cases l2 <;> rcases m with _ | _ | _ | _ <;>
      simp_all [step, vTask2, taskBody, xSemaphoreTake, xSemaphoreGive, Loc.holds]
    split at hmem <;> simp at hmem
  | wake1 => simp [step] at hmem
  | wake2 => simp [step] at hmem

/-! ## The UART output -/

theorem uartBytes_append (xs ys : List Action) :
    uartBytes (xs ++ ys) = uartBytes xs ++ uartBytes ys := by
  induction xs with
  | nil => rfl
  | cons a xs ih =>
    obtain ⟨c, call⟩ := a
    cases call <;> simp [uartBytes, ih]

theorem take_succ_getD (l : List Char) (k : Nat) (d : Char) (h : k < l.length) :
    l.take (k + 1) = l.take k ++ [l.getD k d] := by
  rw [List.take_succ, List.getD_eq_getElem?_getD, List.getElem?_eq_getElem h]
  rfl

/-- What one event does to the output: the message in progress grows, or it is completed
and the mutex given back. -/
theorem uart_step (s : System) (e : Event) (h : lockInv s) :
    messageInProgress s ++ uartBytes (step s e).2 = messageInProgress (step s e).1 ∨
    (∃ c, (c = .vTask1 ∨ c = .vTask2) ∧
      messageInProgress s ++ uartBytes (step s e).2 = message c ∧
      messageInProgress (step s e).1 = []) := by
  obtain ⟨m, ⟨l1, k1⟩, ⟨l2, k2⟩⟩ := s
  obtain ⟨h0, h1, h2, b1, b2⟩ := h
  simp only [TaskState.inBounds] at b1 b2
  simp only at h0 h1 h2 b1 b2
  cases e with
  | task1 =>
    cases l1 with
    | take =>
      left
      rcases m with _ | _ | _ | _ <;>
        simp_all [step, vTask1, taskBody, xSemaphoreTake, Loc.holds, messageInProgress,
          TaskState.sentBytes, uartBytes]
    | init =>
      left
      have hm : m = some .vTask1 := h1.mpr rfl
      subst hm
      simp [step, vTask1, taskBody, messageInProgress, TaskState.sentBytes, uartBytes]
    | test =>
      left
      have hm : m = some .vTask1 := h1.mpr rfl
      subst hm
      simp only [step, vTask1, taskBody]
      split <;> simp [messageInProgress, TaskState.sentBytes, uartBytes]
    | transmit =>
      left
      have hm : m = some .vTask1 := h1.mpr rfl
      subst hm
      simp only [step, vTask1, taskBody, messageInProgress, TaskState.sentBytes, uartBytes,
        List.append_nil]
      exact (take_succ_getD _ _ _ (b1.1 (Or.inl rfl))).symm
    | incr =>
      left
      have hm : m = some .vTask1 := h1.mpr rfl
      subst hm
      simp [step, vTask1, taskBody, messageInProgress, TaskState.sentBytes, uartBytes]
    | give =>
      right
      have hm : m = some .vTask1 := h1.mpr rfl
      subst hm
      refine ⟨.vTask1, by simp, ?_, ?_⟩
      · simp only [step, vTask1, taskBody, messageInProgress, TaskState.sentBytes,
          uartBytes, List.append_nil]
        exact List.take_of_length_le (b1.2 rfl)
      · simp [step, vTask1, taskBody, xSemaphoreGive, messageInProgress]
    | delay =>
      left
      rcases m with _ | _ | _ | _ <;>
        simp_all [step, vTask1, taskBody, Loc.holds, messageInProgress,
          TaskState.sentBytes, uartBytes]
    | sleeping =>
      left
      rcases m with _ | _ | _ | _ <;>
        simp_all [step, vTask1, taskBody, Loc.holds, messageInProgress,
          TaskState.sentBytes, uartBytes]
  | task2 r =>
    cases l2 with
    | take =>
      left
      rcases m with _ | _ | _ | _ <;>
        simp_all [step, vTask2, taskBody, xSemaphoreTake, Loc.holds, messageInProgress,
          TaskState.sentBytes, uartBytes]
    | init =>
      left
      have hm : m = some .vTask2 := h2.mpr rfl
      subst hm
      simp [step, vTask2, taskBody, messageInProgress, TaskState.sentBytes, uartBytes]
    | test =>
      left
      have hm : m = some .vTask2 := h2.mpr rfl
      subst hm
      simp only [step, vTask2, taskBody]
      split <;> simp [messageInProgress, TaskState.sentBytes, uartBytes]
    | transmit =>
      left
      have hm : m = some .vTask2 := h2.mpr rfl
      subst hm
      simp only [step, vTask2, taskBody, messageInProgress, TaskState.sentBytes, uartBytes,
        List.append_nil]
      exact (take_succ_getD _ _ _ (b2.1 (Or.inl rfl))).symm
    | incr =>
      left
      have hm : m = some .vTask2 := h2.mpr rfl
      subst hm
      simp [step, vTask2, taskBody, messageInProgress, TaskState.sentBytes, uartBytes]
    | give =>
      right
      have hm : m = some .vTask2 := h2.mpr rfl
      subst hm
      refine ⟨.vTask2, by simp, ?_, ?_⟩
      · simp only [step, vTask2, taskBody, messageInProgress, TaskState.sentBytes,
          uartBytes, List.append_nil]
        exact List.take_of_length_le (b2.2 rfl)
      · simp [step, vTask2, taskBody, xSemaphoreGive, messageInProgress]
    | delay =>
      left
      rcases m with _ | _ | _ | _ <;>
        simp_all [step, vTask2, taskBody, Loc.holds, messageInProgress,
          TaskState.sentBytes, uartBytes]
    | sleeping =>
      left
      rcases m with _ | _ | _ | _ <;>
        simp_all [step, vTask2, taskBody, Loc.holds, messageInProgress,
          TaskState.sentBytes, uartBytes]
  | wake1 =>
    left
    cases l1 <;> rcases m with _ | _ | _ | _ <;>
      simp_all [step, wake, Loc.holds, messageInProgress, TaskState.sentBytes, uartBytes]
  | wake2 =>
    left
    cases l2 <;> rcases m with _ | _ | _ | _ <;>
      simp_all [step, wake, Loc.holds, messageInProgress, TaskState.sentBytes, uartBytes]

theorem uart_interleaved {s : System} {tr : List Action} (hr : Interleaved s tr) :
    ∃ ms : List (List Char),
      (∀ m ∈ ms, m = message .vTask1 ∨ m = message .vTask2) ∧
      uartBytes tr = ms.flatten ++ messageInProgress s := by
  induction hr with
  | init => exact ⟨[], by simp, rfl⟩
  | next s tr e hprev ih =>
    obtain ⟨ms, hms, hu⟩ := ih
    rw [uartBytes_append, hu, List.append_assoc]
    rcases uart_step s e (lockInv_interleaved hprev) with h1 | ⟨c, hc, h1, h2⟩
    · exact ⟨ms, hms, by rw [h1]⟩
    · refine ⟨ms ++ [message c], ?_, ?_⟩
      · intro m hm
        rcases List.mem_append.mp hm with hm | hm
        · exact hms m hm
        · simp at hm
          subst hm
          rcases hc with rfl | rfl
          · exact Or.inl rfl
          · exact Or.inr rfl
      · rw [h1, h2]; simp

/-! ## The calls of each task -/

theorem callsOf_append (c : Caller) (xs ys : List Action) :
    callsOf c (xs ++ ys) = callsOf c xs ++ callsOf c ys := by
  simp [callsOf]

/-- What one event adds to the calls of `vTask1`: its pass through the loop grows, or is
completed by the delay. -/
theorem calls_step1 (s : System) (e : Event) (h : lockInv s) :
    s.vTask1.progress (message .vTask1) ++ callsOf .vTask1 (step s e).2 =
        (step s e).1.vTask1.progress (message .vTask1) ∨
    (∃ d, d = 100 ∧
      s.vTask1.progress (message .vTask1) ++ callsOf .vTask1 (step s e).2 =
        iteration (message .vTask1) d ∧
      (step s e).1.vTask1.progress (message .vTask1) = []) := by
  obtain ⟨m, ⟨l1, k1⟩, ⟨l2, k2⟩⟩ := s
  obtain ⟨h0, h1, h2, b1, b2⟩ := h
  simp only [TaskState.inBounds] at b1 b2
  simp only at h0 h1 h2 b1 b2
  cases e with
  | task1 =>
    cases l1 with
    | take =>
      left
      rcases m with _ | _ | _ | _ <;>
        simp_all [step, vTask1, taskBody, xSemaphoreTake, Loc.holds, callsOf,
          TaskState.progress]
    | init =>
      left
      simp [step, vTask1, taskBody, callsOf, TaskState.progress]
    | test =>
      left
      simp only [step, vTask1, taskBody]
      split <;> simp [callsOf, TaskState.progress]
    | transmit =>
      left
      simp only [step, vTask1, taskBody, callsOf, TaskState.progress]
      rw [take_succ_getD _ _ (Char.ofNat 0) (b1.1 (Or.inl rfl))]
      simp
    | incr =>
      left
      simp [step, vTask1, taskBody, callsOf, TaskState.progress]
    | give =>
      left
      have hm : m = some .vTask1 := h1.mpr rfl
      subst hm
      simp only [step, vTask1, taskBody, xSemaphoreGive, callsOf, TaskState.progress]
      rw [List.take_of_length_le (b1.2 rfl)]
      simp
    | delay =>
      right
      refine ⟨100, rfl, ?_, ?_⟩
      · simp [step, vTask1, taskBody, callsOf, TaskState.progress, iteration]
      · simp [step, vTask1, taskBody, TaskState.progress]
    | sleeping =>
      left
      simp [step, vTask1, taskBody, callsOf, TaskState.progress]
  | task2 r =>
    left
    cases l2 <;>
      simp [step, vTask2, taskBody, callsOf, xSemaphoreTake, xSemaphoreGive] <;>
      split <;> simp
  | wake1 =>
    left
    cases l1 <;> simp [step, wake, callsOf, TaskState.progress]
  | wake2 =>
    left
    simp [step, callsOf]

/-- What one event adds to the calls of `vTask2`: its pass through the loop grows, or is
completed by the delay. -/
theorem calls_step2 (s : System) (e : Event) (h : lockInv s) :
    s.vTask2.progress (message .vTask2) ++ callsOf .vTask2 (step s e).2 =
        (step s e).1.vTask2.progress (message .vTask2) ∨
    (∃ d, d < 500 ∧
      s.vTask2.progress (message .vTask2) ++ callsOf .vTask2 (step s e).2 =
        iteration (message .vTask2) d ∧
      (step s e).1.vTask2.progress (message .vTask2) = []) := by
  obtain ⟨m, ⟨l1, k1⟩, ⟨l2, k2⟩⟩ := s
  obtain ⟨h0, h1, h2, b1, b2⟩ := h
  simp only [TaskState.inBounds] at b1 b2
  simp only at h0 h1 h2 b1 b2
  cases e with
  | task2 r =>
    cases l2 with
    | take =>
      left
      rcases m with _ | _ | _ | _ <;>
        simp_all [step, vTask2, taskBody, xSemaphoreTake, Loc.holds, callsOf,
          TaskState.progress]
    | init =>
      left
      simp [step, vTask2, taskBody, callsOf, TaskState.progress]
    | test =>
      left
      simp only [step, vTask2, taskBody]
      split <;> simp [callsOf, TaskState.progress]
    | transmit =>
      left
      simp only [step, vTask2, taskBody, callsOf, TaskState.progress]
      rw [take_succ_getD _ _ (Char.ofNat 0) (b2.1 (Or.inl rfl))]
      simp
    | incr =>
      left
      simp [step, vTask2, taskBody, callsOf, TaskState.progress]
    | give =>
      left
      have hm : m = some .vTask2 := h2.mpr rfl
      subst hm
      simp only [step, vTask2, taskBody, xSemaphoreGive, callsOf, TaskState.progress]
      rw [List.take_of_length_le (b2.2 rfl)]
      simp
    | delay =>
      right
      refine ⟨r % 500, Nat.mod_lt _ (by decide), ?_, ?_⟩
      · simp [step, vTask2, taskBody, callsOf, TaskState.progress, iteration]
      · simp [step, vTask2, taskBody, TaskState.progress]
    | sleeping =>
      left
      simp [step, vTask2, taskBody, callsOf, TaskState.progress]
  | task1 =>
    left
    cases l1 <;>
      simp [step, vTask1, taskBody, callsOf, xSemaphoreTake, xSemaphoreGive] <;>
      split <;> simp
  | wake2 =>
    left
    cases l2 <;> simp [step, wake, callsOf, TaskState.progress]
  | wake1 =>
    left
    simp [step, callsOf]

theorem calls_interleaved1 {s : System} {tr : List Action} (hr : Interleaved s tr) :
    ∃ n : Nat, callsOf .vTask1 tr =
      (List.replicate n (iteration (message .vTask1) 100)).flatten ++
        s.vTask1.progress (message .vTask1) := by
  induction hr with
  | init => exact ⟨0, rfl⟩
  | next s tr e hprev ih =>
    obtain ⟨n, hn⟩ := ih
    rw [callsOf_append, hn, List.append_assoc]
    rcases calls_step1 s e (lockInv_interleaved hprev) with h1 | ⟨d, hd, h1, h2⟩
    · exact ⟨n, by rw [h1]⟩
    · refine ⟨n + 1, ?_⟩
      rw [h1, h2, hd, List.replicate_succ', List.flatten_append]
      simp

theorem calls_interleaved2 {s : System} {tr : List Action} (hr : Interleaved s tr) :
    ∃ ds : List Nat, (∀ d ∈ ds, d < 500) ∧ callsOf .vTask2 tr =
      (ds.map (iteration (message .vTask2))).flatten ++
        s.vTask2.progress (message .vTask2) := by
  induction hr with
  | init => exact ⟨[], by simp, rfl⟩
  | next s tr e hprev ih =>
    obtain ⟨ds, hds, hn⟩ := ih
    rw [callsOf_append, hn, List.append_assoc]
    rcases calls_step2 s e (lockInv_interleaved hprev) with h1 | ⟨d, hd, h1, h2⟩
    · exact ⟨ds, hds, by rw [h1]⟩
    · refine ⟨ds ++ [d], ?_, ?_⟩
      · intro x hx
        rcases List.mem_append.mp hx with hx | hx
        · exact hds x hx
        · simp at hx
          subst hx
          exact hd
      · rw [h1, h2]
        simp

/-! ## Results -/

theorem messageInProgress_initial_segment (s : System) :
    (s.g_xMutex = none → messageInProgress s = []) ∧
    ∀ c, s.g_xMutex = some c → ∃ k, messageInProgress s = (message c).take k := by
  obtain ⟨m, ⟨l1, k1⟩, ⟨l2, k2⟩⟩ := s
  constructor
  · intro hm
    simp only at hm
    subst hm
    rfl
  · intro c hc
    simp only at hc
    subst hc
    cases c with
    | main => exact ⟨0, by simp [messageInProgress]⟩
    | vTask1 =>
      cases l1
      case incr => exact ⟨k1 + 1, rfl⟩
      all_goals first
        | exact ⟨k1, rfl⟩
        | exact ⟨0, by simp [messageInProgress, TaskState.sentBytes]⟩
    | vTask2 =>
      cases l2
      case incr => exact ⟨k2 + 1, rfl⟩
      all_goals first
        | exact ⟨k2, rfl⟩
        | exact ⟨0, by simp [messageInProgress, TaskState.sentBytes]⟩

/-- C12: with `USE_MUTEX` defined, for every interleaving of the statements of `vTask1` and
`vTask2` (every pattern of preemption), the bytes the two tasks have written to the UART are
a concatenation of complete copies of `pcTask1String` and `pcTask2String`, followed only by
the part already sent of the one message in progress, that of the task holding the mutex;
when the mutex is free nothing is in progress. So no byte of one task falls inside a message
of the other. -/
theorem uart_output_whole_messages (s : System) (tr : List Action)
    (hr : Interleaved s tr) :
    ∃ ms : List (List Char),
      (∀ m ∈ ms, m = pcTask1String.toList ∨ m = pcTask2String.toList) ∧
      uartBytes tr = ms.flatten ++ messageInProgress s ∧
      (s.g_xMutex = none → uartBytes tr = ms.flatten) ∧
      (s.g_xMutex = some .vTask1 →
        ∃ k, uartBytes tr = ms.flatten ++ pcTask1String.toList.take k) ∧
      (s.g_xMutex = some .vTask2 →
        ∃ k, uartBytes tr = ms.flatten ++ pcTask2String.toList.take k) := by
  obtain ⟨ms, hms, hu⟩ := uart_interleaved hr
  obtain ⟨hfree, hheld⟩ := messageInProgress_initial_segment s
  refine ⟨ms, hms, hu, ?_, ?_, ?_⟩
  · intro hm
    rw [hu, hfree hm, List.append_nil]
  · intro hm
    obtain ⟨k, hk⟩ := hheld _ hm
    exact ⟨k, by rw [hu, hk]; rfl⟩
  · intro hm
    obtain ⟨k, hk⟩ := hheld _ hm
    exact ⟨k, by rw [hu, hk]; rfl⟩

/-- Witness for C12: `vTask1` takes the mutex and transmits its first byte; `vTask2` wakes
up in between and stays blocked in its take. -/
theorem uart_output_whole_messages_witness :
    ∃ ms : List (List Char),
      (∀ m ∈ ms, m = pcTask1String.toList ∨ m = pcTask2String.toList) ∧
      uartBytes ([] ++ (exec main_state [.task1, .task1, .task2 7, .task1, .task1]).2) =
        ms.flatten ++
          messageInProgress (exec main_state [.task1, .task1, .task2 7, .task1, .task1]).1 ∧
      ((exec main_state [.task1, .task1, .task2 7, .task1, .task1]).1.g_xMutex = none →
        uartBytes ([] ++ (exec main_state [.task1, .task1, .task2 7, .task1, .task1]).2) =
          ms.flatten) ∧
      ((exec main_state [.task1, .task1, .task2 7, .task1, .task1]).1.g_xMutex
          = some .vTask1 →
        ∃ k, uartBytes ([] ++ (exec main_state [.task1, .task1, .task2 7, .task1,
          .task1]).2) = ms.flatten ++ pcTask1String.toList.take k) ∧
      ((exec main_state [.task1, .task1, .task2 7, .task1, .task1]).1.g_xMutex
          = some .vTask2 →
        ∃ k, uartBytes ([] ++ (exec main_state [.task1, .task1, .task2 7, .task1,
          .task1]).2) = ms.flatten ++ pcTask2String.toList.take k) :=
  uart_output_whole_messages _ _
    (mutex_interleaved_exec Interleaved.init [.task1, .task1, .task2 7, .task1, .task1])

/-- C13: in every interleaving, the calls of `vTask1` are complete passes through its loop,
each one take of `g_xMutex`, one transmit per byte of the message, one give and the delay,
followed by the calls of the pass in progress; likewise for `vTask2`; so a pass takes the
mutex once before its first byte and gives it once after its last. A task that stands at
its give holds the mutex (every give returns `pdTRUE`), and a task that stands at
`vTaskDelay` or sleeps in it holds no lock. -/
theorem take_and_give_once_per_pass (s : System) (tr : List Action)
    (hr : Interleaved s tr) :
    (∃ n : Nat, callsOf .vTask1 tr =
      (List.replicate n (iteration pcTask1String.toList 100)).flatten ++
        s.vTask1.progress pcTask1String.toList) ∧
    (∃ ds : List Nat, (∀ d ∈ ds, d < 500) ∧ callsOf .vTask2 tr =
      (ds.map (iteration pcTask2String.toList)).flatten ++
        s.vTask2.progress pcTask2String.toList) ∧
    (s.vTask1.loc = .give → s.g_xMutex = some .vTask1) ∧
    (s.vTask2.loc = .give → s.g_xMutex = some .vTask2) ∧
    (s.vTask1.loc = .delay ∨ s.vTask1.loc = .sleeping → s.g_xMutex ≠ some .vTask1) ∧
    (s.vTask2.loc = .delay ∨ s.vTask2.loc = .sleeping → s.g_xMutex ≠ some .vTask2) := by
  obtain ⟨_, h1, h2, _, _⟩ := lockInv_interleaved hr
  refine ⟨calls_interleaved1 hr, calls_interleaved2 hr, ?_, ?_, ?_, ?_⟩
  · intro hl
    exact h1.mpr (by rw [hl]; rfl)
  · intro hl
    exact h2.mpr (by rw [hl]; rfl)
  · intro hl hm
    have := h1.mp hm
    rcases hl with hl | hl <;> rw [hl] at this <;> cases this
  · intro hl hm
    have := h2.mp hm
    rcases hl with hl | hl <;> rw [hl] at this <;> cases this

/-- Witness for C13: `vTask1` has taken the mutex and transmitted one byte. -/
theorem take_and_give_once_per_pass_witness :
    ∃ n : Nat, callsOf .vTask1 ([] ++ (exec main_state [.task1, .task1, .task1, .task1]).2) =
      (List.replicate n (iteration pcTask1String.toList 100)).flatten ++
        (exec main_state [.task1, .task1, .task1, .task1]).1.vTask1.progress
          pcTask1String.toList :=
  (take_and_give_once_per_pass _ _
    (mutex_interleaved_exec Interleaved.init [.task1, .task1, .task1, .task1])).1

/-- C14 as stated fails: the first call of `main` in the mutex demo is the
`HAL_UART_Transmit` of the banner, made through `vPrint` before the mutex is even created,
so no lock is held; and in the producer/consumer demo, which has no mutex, the master prints
its first order line through `vConsolePrint` before any semaphore has been taken. -/
theorem banner_write_counterexample :
    main.head? = some ⟨.main, .HAL_UART_Transmit bannerLine.toList⟩ ∧
    main.tail.head? = some ⟨.main, .xSemaphoreCreateMutex⟩ ∧
    transmitsUnderLock none main = false ∧
    (BinarySemaphore.exec BinarySemaphore.main_state
        [.master 0 0, .master 3 4, .master 0 0]).2 =
      [.xSemaphoreGive true, .vConsolePrint (.masterOrder 1 5 3)] := by
  refine ⟨rfl, rfl, ?_, by decide⟩
  simp [main, transmitsUnderLock]

/-- C14, amended: in the mutex demo with `USE_MUTEX` defined, every `HAL_UART_Transmit` made
by `vTask1` or `vTask2` is made while the calling task holds `g_xMutex`: in the trace of
every schedule each transmit lies between a take and the give of its caller, and a task
that is about to transmit is the holder. The banner `main` prints through `vPrint`, before
the mutex is created and the scheduler started, is written without a lock. -/
theorem task_transmits_hold_mutex (es : List Event) :
    transmitsUnderLock none (exec main_state es).2 = true ∧
    ∀ (e : Event) (c : Caller) (data : List Char),
      (⟨c, .HAL_UART_Transmit data⟩ : Action) ∈ (step (exec main_state es).1 e).2 →
        (exec main_state es).1.g_xMutex = some c ∧
        (step (exec main_state es).1 e).1.g_xMutex = some c := by
  refine ⟨transmitsUnderLock_exec main_state lockInv_main es, ?_⟩
  intro e c data hmem
  exact transmit_only_by_holder (lockInv_exec lockInv_main es) hmem

/-- Witness for C14: `vTask1` has taken the mutex and is about to transmit its first byte. -/
theorem task_transmits_hold_mutex_witness :
    transmitsUnderLock none (exec main_state [.task1, .task1, .task1, .task1]).2 = true ∧
    (exec main_state [.task1, .task1, .task1]).1.g_xMutex = some .vTask1 :=
  ⟨(task_transmits_hold_mutex [.task1, .task1, .task1, .task1]).1,
    ((task_transmits_hold_mutex [.task1, .task1, .task1]).2 .task1 .vTask1
      [(message .vTask1).getD 0 (Char.ofNat 0)]
      (by decide)).1⟩

end MutexDemo

namespace TaskNotification

/-! ## The debounce test and the tick counter -/

theorem tickSub_wrap {l d : Nat} (hl : l < tickModulus) (hd : d < tickModulus) :
    tickSub ((l + d) % tickModulus) l = d := by
  unfold tickSub tickModulus at *
  omega

theorem handler_discards_iff (s : System) (t : Nat) (w : Bool) :
    button_interrupt_handler s t w = (s, []) ↔ tickSub t s.last_press_time < 200 := by
  refine ⟨?_, fun h => handler_bounce w h⟩
  intro h
  by_contra hge
  cases hx : s.task_to_delete_handle with
  | none => rw [handler_accept_none w hge hx] at h; simp at h
  | some x => rw [handler_accept_some w hge hx] at h; simp at h

/-- C28: the debounce test of `button_interrupt_handler` is right across the wrap-around of
the 32-bit tick counter: for every `last_press_time` L (a `TickType_t`) and every true
elapsed time `d` below 2^32 ticks, with `current_time = (L + d) mod 2^32` the unsigned
difference the handler computes is `d` itself, so the event is discarded (state untouched,
no call made) exactly when `d < 200`. -/
theorem debounce_across_wraparound (s : System) (d : Nat) (woken : Bool)
    (hl : s.last_press_time < tickModulus) (hd : d < tickModulus) :
    tickSub ((s.last_press_time + d) % tickModulus) s.last_press_time = d ∧
    (button_interrupt_handler s ((s.last_press_time + d) % tickModulus) woken = (s, []) ↔
      d < 200) := by
  have hsub := tickSub_wrap hl hd
  refine ⟨hsub, ?_⟩
  rw [handler_discards_iff, hsub]

/-- Witness for C28: the last press was accepted 96 ticks before the counter wraps; an event
150 ticks later, at tick 54 after the wrap, is discarded, one 200 ticks later is not. -/
theorem debounce_across_wraparound_witness :
    (4294967200 + 150) % tickModulus = 54 ∧
    button_interrupt_handler { main_state with last_press_time := 4294967200 } 54 false =
      ({ main_state with last_press_time := 4294967200 }, []) ∧
    ¬ button_interrupt_handler { main_state with last_press_time := 4294967200 }
        ((4294967200 + 200) % tickModulus) false =
      ({ main_state with last_press_time := 4294967200 }, []) :=
  ⟨by decide,
   ((debounce_across_wraparound { main_state with last_press_time := 4294967200 } 150 false
      (by decide) (by decide)).2).mpr (by decide),
   fun h => absurd
     (((debounce_across_wraparound { main_state with last_press_time := 4294967200 } 200 false
      (by decide) (by decide)).2).mp h) (by decide)⟩

/-! ## The first trigger after boot -/

/-- A statement of a task neither stores `last_press_time` nor counts as a trigger. -/
theorem task_step_last_press_time (s : System) (e : Event) (he : ∀ t w, e ≠ .button t w) :
    acceptedAt (step s e).2 = [] ∧ (step s e).1.last_press_time = s.last_press_time := by
  cases e with
  | button t w => exact absurd rfl (he t w)
  | red =>
    cases hl : s.red <;> simp [step, task1_RED_LED, hl, acceptedAt, xTaskNotifyWait]
    split <;> simp [acceptedAt]
  | green =>
    cases hl : s.green <;> simp [step, task2_GREEN_LED, hl, acceptedAt, xTaskNotifyWait]
    split <;> simp [acceptedAt]

/-- One event from a state in which `last_press_time` is still 0: either no trigger is
accepted and `last_press_time` stays 0, or the event is a button event at a tick count of
200 or more and it is the one accepted trigger. -/
theorem first_trigger_step (s : System) (e : Event) (h0 : s.last_press_time = 0) :
    (acceptedAt (step s e).2 = [] ∧ (step s e).1.last_press_time = 0) ∨
    ∃ t, 200 ≤ t ∧ acceptedAt (step s e).2 = [t] := by
  cases e with
  | button t w =>
    by_cases hsub : tickSub t s.last_press_time < 200
    · left
      simp only [step]
      rw [handler_bounce w hsub]
      exact ⟨rfl, h0⟩
    · right
      refine ⟨t, ?_, (acceptedAt_handler_accept w hsub).1⟩
      rw [h0] at hsub
      unfold tickSub tickModulus at hsub
      omega
  | red =>
    left
    have := task_step_last_press_time s .red (fun _ _ h => by cases h)
    exact ⟨this.1, by rw [this.2, h0]⟩
  | green =>
    left
    have := task_step_last_press_time s .green (fun _ _ h => by cases h)
    exact ⟨this.1, by rw [this.2, h0]⟩

theorem first_trigger_exec (es : List Event) (s : System) (h0 : s.last_press_time = 0) :
    (acceptedAt (exec s es).2 = [] → (exec s es).1.last_press_time = 0) ∧
    (∀ t rest, acceptedAt (exec s es).2 = t :: rest → 200 ≤ t) := by
  induction es generalizing s with
  | nil =>
    refine ⟨fun _ => h0, ?_⟩
    intro t rest h
    simp [exec, acceptedAt] at h
  | cons e es ih =>
    simp only [exec, acceptedAt_append]
    rcases first_trigger_step s e h0 with ⟨hnil, hl⟩ | ⟨t, ht, hacc⟩
    · rw [hnil, List.nil_append]
      exact ih _ hl
    · rw [hacc]
      refine ⟨fun h => by simp at h, ?_⟩
      intro t2 rest h
      simp only [List.singleton_append, List.cons.injEq] at h
      rw [← h.1]
      exact ht

/-- C29: `last_press_time` is initialised to 0, so in every run from boot in which no event
has been accepted yet `last_press_time` is still 0 and a button event at a tick count below
200 is discarded (state untouched, no call made), although no trigger was accepted before
it; the first trigger accepted in any run is at tick 200 or later, and an event at tick 200
itself is accepted when none was before. -/
theorem boot_window_discards (es : List Event) :
    (acceptedAt (exec main_state es).2 = [] →
      (exec main_state es).1.last_press_time = 0 ∧
      (∀ t w, t < 200 →
        button_interrupt_handler (exec main_state es).1 t w = ((exec main_state es).1, [])) ∧
      ∀ w, acceptedAt (button_interrupt_handler (exec main_state es).1 200 w).2 = [200]) ∧
    (∀ t rest, acceptedAt (exec main_state es).2 = t :: rest → 200 ≤ t) := by
  obtain ⟨h1, h2⟩ := first_trigger_exec es main_state rfl
  refine ⟨fun hnil => ?_, h2⟩
  have hl := h1 hnil
  refine ⟨hl, ?_, ?_⟩
  · intro t w ht
    apply handler_bounce
    rw [hl]
    unfold tickSub tickModulus
    omega
  · intro w
    apply (acceptedAt_handler_accept w _).1
    rw [hl]
    decide

/-- Witness for C29: both tasks have run and an event at tick 150 has been discarded; an
event at tick 199 is discarded too, and in a run with events at ticks 150 and 320 the first
accepted trigger is the one at 320. -/
theorem boot_window_discards_witness :
    button_interrupt_handler (exec main_state [.green, .red, .button 150 false]).1 199 true =
      ((exec main_state [.green, .red, .button 150 false]).1, []) ∧
    200 ≤ 320 :=
  ⟨((boot_window_discards [.green, .red, .button 150 false]).1 (by decide)).2.1 199 true
      (by decide),
   (boot_window_discards [.green, .button 150 false, .button 320 false, .green]).2 320 []
      (by decide)⟩

/-! ## Coalescing of notifications -/

theorem notifyPending_idem (s : System) (h : TaskHandle_t) :
    notifyPending (notifyPending s h) h = notifyPending s h := by
  cases h <;> rfl

/-- C22: two button events that are both accepted while `task_to_delete_handle` points to
a task that has not yet reached its next `xTaskNotifyWait` both call `xTaskNotifyFromISR`
(with `eNoAction`) on that task, and the second leaves the mailbox as the first left it:
one notification is pending. The next `xTaskNotifyWait` of the task returns `pdTRUE` and
clears the mailbox, the task runs its termination path once and is deleted, and a further
wait on the mailbox would return `pdFALSE`. Stated for Green and for Red. -/
theorem notifications_coalesce (s : System) (t1 t2 : Nat) (w1 w2 : Bool) (fuel : Nat)
    (h1 : ¬ tickSub t1 s.last_press_time < pdMS_TO_TICKS 200)
    (h2 : ¬ tickSub t2 t1 < pdMS_TO_TICKS 200) :
    (∀ h, notifyPending (notifyPending s h) h = notifyPending s h) ∧
    (s.task_to_delete_handle = some .task2_GREEN_LED_handle → s.green.blinking = true →
      notified (exec s [.button t1 w1, .button t2 w2]).2 =
        [.task2_GREEN_LED_handle, .task2_GREEN_LED_handle] ∧
      (exec s [.button t1 w1]).1.greenPending = true ∧
      (exec s [.button t1 w1, .button t2 w2]).1 =
        { (exec s [.button t1 w1]).1 with last_press_time := t2 } ∧
      (runGreen (fuel + 7) (exec s [.button t1 w1, .button t2 w2]).1).2 =
        (if s.green = .toggle then [.HAL_GPIO_TogglePin 12] else []) ++
        [.xTaskNotifyWait true, .portENTER_CRITICAL,
         .store_task_to_delete_handle (some .task1_RED_LED_handle),
         .HAL_GPIO_WritePin 12 true, .portEXIT_CRITICAL,
         .vTaskDelete_NULL .task2_GREEN_LED_handle] ∧
      (runGreen (fuel + 7) (exec s [.button t1 w1, .button t2 w2]).1).1.green = .deleted ∧
      (runGreen (fuel + 7) (exec s [.button t1 w1, .button t2 w2]).1).1.greenPending
        = false ∧
      xTaskNotifyWait
        (xTaskNotifyWait (exec s [.button t1 w1, .button t2 w2]).1.greenPending).1
        = (false, false)) ∧
    (s.task_to_delete_handle = some .task1_RED_LED_handle → s.red.blinking = true →
      notified (exec s [.button t1 w1, .button t2 w2]).2 =
        [.task1_RED_LED_handle, .task1_RED_LED_handle] ∧
      (exec s [.button t1 w1]).1.redPending = true ∧
      (exec s [.button t1 w1, .button t2 w2]).1 =
        { (exec s [.button t1 w1]).1 with last_press_time := t2 } ∧
      (runRed (fuel + 7) (exec s [.button t1 w1, .button t2 w2]).1).2 =
        (if s.red = .toggle then [.HAL_GPIO_TogglePin 14] else []) ++
        [.xTaskNotifyWait true, .portENTER_CRITICAL,
         .store_task_to_delete_handle none,
         .HAL_GPIO_WritePin 14 true, .portEXIT_CRITICAL,
         .vTaskDelete_NULL .task1_RED_LED_handle] ∧
      (runRed (fuel + 7) (exec s [.button t1 w1, .button t2 w2]).1).1.red = .deleted ∧
      (runRed (fuel + 7) (exec s [.button t1 w1, .button t2 w2]).1).1.redPending
        = false ∧
      xTaskNotifyWait
        (xTaskNotifyWait (exec s [.button t1 w1, .button t2 w2]).1.redPending).1
        = (false, false)) := by
  rw [pdMS_TO_TICKS_200] at h1 h2
  refine ⟨notifyPending_idem s, ?_, ?_⟩
  · intro hp hb
    have e1 := handler_accept_some w1 h1 hp
    have hp2 : (notifyPending { s with last_press_time := t1 }
        .task2_GREEN_LED_handle).task_to_delete_handle = some .task2_GREEN_LED_handle := by
      rw [notifyPending_handle]; exact hp
    have hl2 : ¬ tickSub t2 (notifyPending { s with last_press_time := t1 }
        .task2_GREEN_LED_handle).last_press_time < 200 := by
      rw [notifyPending_last_press_time]; exact h2
    have e2 := handler_accept_some w2 hl2 hp2
    have hrun : exec s [.button t1 w1, .button t2 w2] =
        ({ s with last_press_time := t2, greenPending := true },
          [.store_last_press_time t1, .xTaskNotifyFromISR .task2_GREEN_LED_handle 0 .eNoAction,
           .portYIELD_FROM_ISR w1, .store_last_press_time t2,
           .xTaskNotifyFromISR .task2_GREEN_LED_handle 0 .eNoAction,
           .portYIELD_FROM_ISR w2]) := by
      simp only [exec, step, e1, e2]
      rfl
    have hone : exec s [.button t1 w1] =
        ({ s with last_press_time := t1, greenPending := true },
          [.store_last_press_time t1, .xTaskNotifyFromISR .task2_GREEN_LED_handle 0 .eNoAction,
           .portYIELD_FROM_ISR w1]) := by
      simp only [exec, step, e1]
      rfl
    rw [hrun, hone]
    have hn := runGreen_notified { s with last_press_time := t2, greenPending := true } hb rfl
    have hdel : (runGreen 7 { s with last_press_time := t2, greenPending := true }).1.green
        = .deleted := by
      rw [hn.1]
    have hfuel : runGreen (fuel + 7) { s with last_press_time := t2, greenPending := true } =
        runGreen 7 { s with last_press_time := t2, greenPending := true } := by
      rw [Nat.add_comm]; exact runGreen_add 7 fuel _ hdel
    rw [hfuel]
    refine ⟨rfl, rfl, rfl, ?_, hdel, ?_, rfl⟩
    · obtain ⟨p, l, r, g, rp, gp, bp, op, p12, p14⟩ := s
      cases g <;> simp [Loc.blinking] at hb <;>
        simp [runGreen, task2_GREEN_LED, xTaskNotifyWait]
    · rw [hn.1]
  · intro hp hb
    have e1 := handler_accept_some w1 h1 hp
    have hp2 : (notifyPending { s with last_press_time := t1 }
        .task1_RED_LED_handle).task_to_delete_handle = some .task1_RED_LED_handle := by
      rw [notifyPending_handle]; exact hp
    have hl2 : ¬ tickSub t2 (notifyPending { s with last_press_time := t1 }
        .task1_RED_LED_handle).last_press_time < 200 := by
      rw [notifyPending_last_press_time]; exact h2
    have e2 := handler_accept_some w2 hl2 hp2
    have hrun : exec s [.button t1 w1, .button t2 w2] =
        ({ s with last_press_time := t2, redPending := true },
          [.store_last_press_time t1, .xTaskNotifyFromISR .task1_RED_LED_handle 0 .eNoAction,
           .portYIELD_FROM_ISR w1, .store_last_press_time t2,
           .xTaskNotifyFromISR .task1_RED_LED_handle 0 .eNoAction,
           .portYIELD_FROM_ISR w2]) := by
      simp only [exec, step, e1, e2]
      rfl
    have hone : exec s [.button t1 w1] =
        ({ s with last_press_time := t1, redPending := true },
          [.store_last_press_time t1, .xTaskNotifyFromISR .task1_RED_LED_handle 0 .eNoAction,
           .portYIELD_FROM_ISR w1]) := by
      simp only [exec, step, e1]
      rfl
    rw [hrun, hone]
    have hn := runRed_notified { s with last_press_time := t2, redPending := true } hb rfl
    have hdel : (runRed 7 { s with last_press_time := t2, redPending := true }).1.red
        = .deleted := by
      rw [hn.1]
    have hfuel : runRed (fuel + 7) { s with last_press_time := t2, redPending := true } =
        runRed 7 { s with last_press_time := t2, redPending := true } := by
      rw [Nat.add_comm]; exact runRed_add 7 fuel _ hdel
    rw [hfuel]
    refine ⟨rfl, rfl, rfl, ?_, hdel, ?_, rfl⟩
    · obtain ⟨p, l, r, g, rp, gp, bp, op, p12, p14⟩ := s
      cases r <;> simp [Loc.blinking] at hb <;>
        simp [runRed, task1_RED_LED, xTaskNotifyWait]
    · rw [hn.1]

/-- Witness for C22: from boot, events at ticks 200 and 400 both notify Green before it has
run; Green is then woken once and deletes itself. -/
theorem notifications_coalesce_witness :
    notified (exec main_state [.button 200 false, .button 400 false]).2 =
      [.task2_GREEN_LED_handle, .task2_GREEN_LED_handle] ∧
    (runGreen 7 (exec main_state [.button 200 false, .button 400 false]).1).2 =
      [.HAL_GPIO_TogglePin 12, .xTaskNotifyWait true, .portENTER_CRITICAL,
       .store_task_to_delete_handle (some .task1_RED_LED_handle),
       .HAL_GPIO_WritePin 12 true, .portEXIT_CRITICAL,
       .vTaskDelete_NULL .task2_GREEN_LED_handle] :=
  have h := (notifications_coalesce main_state 200 400 false false 0 (by decide)
    (by decide)).2.1 rfl rfl
  ⟨h.1, h.2.2.2.1⟩

/-! ## Waits that time out -/

/-- What one event adds to the calls of Green: its pass through the loop grows, or a wait
that timed out completes a blink pass. -/
theorem green_calls_step (s : System) (e : Event) :
    s.green.progress 12 (some .task1_RED_LED_handle) .task2_GREEN_LED_handle ++
        (if e.task = some .task2_GREEN_LED_handle then (step s e).2 else []) =
      (step s e).1.green.progress 12 (some .task1_RED_LED_handle) .task2_GREEN_LED_handle ∨
    (s.green.progress 12 (some .task1_RED_LED_handle) .task2_GREEN_LED_handle ++
        (if e.task = some .task2_GREEN_LED_handle then (step s e).2 else []) = blinkPass 12 ∧
      (step s e).1.green = .toggle) := by
  cases e with
  | button t w =>
    left
    have hg : (button_interrupt_handler s t w).1.green = s.green := by
      unfold button_interrupt_handler
      split
      · rfl
      · cases hx : s.task_to_delete_handle with
        | none => rfl
        | some x => cases x <;> rfl
    simp [step, Event.task, hg]
  | red =>
    left
    have hg : (task1_RED_LED s).1.green = s.green := by
      unfold task1_RED_LED
      cases s.red <;> simp
      split <;> rfl
    simp [step, Event.task, hg]
  | green =>
    cases hl : s.green with
    | wait =>
      cases hp : s.greenPending with
      | true =>
        left
        simp [step, Event.task, task2_GREEN_LED, hl, hp, xTaskNotifyWait, Loc.progress]
      | false =>
        right
        simp [step, Event.task, task2_GREEN_LED, hl, hp, xTaskNotifyWait, Loc.progress,
          blinkPass]
    | _ =>
      left
      simp [step, Event.task, task2_GREEN_LED, hl, Loc.progress]

/-- What one event adds to the calls of Red. -/
theorem red_calls_step (s : System) (e : Event) :
    s.red.progress 14 none .task1_RED_LED_handle ++
        (if e.task = some .task1_RED_LED_handle then (step s e).2 else []) =
      (step s e).1.red.progress 14 none .task1_RED_LED_handle ∨
    (s.red.progress 14 none .task1_RED_LED_handle ++
        (if e.task = some .task1_RED_LED_handle then (step s e).2 else []) = blinkPass 14 ∧
      (step s e).1.red = .toggle) := by
  cases e with
  | button t w =>
    left
    have hg : (button_interrupt_handler s t w).1.red = s.red := by
      unfold button_interrupt_handler
      split
      · rfl
      · cases hx : s.task_to_delete_handle with
        | none => rfl
        | some x => cases x <;> rfl
    simp [step, Event.task, hg]
  | green =>
    left
    have hg : (task2_GREEN_LED s).1.red = s.red := by
      unfold task2_GREEN_LED
      cases s.green <;> simp
      split <;> rfl
    simp [step, Event.task, hg]
  | red =>
    cases hl : s.red with
    | wait =>
      cases hp : s.redPending with
      | true =>
        left
        simp [step, Event.task, task1_RED_LED, hl, hp, xTaskNotifyWait, Loc.progress]
      | false =>
        right
        simp [step, Event.task, task1_RED_LED, hl, hp, xTaskNotifyWait, Loc.progress,
          blinkPass]
    | _ =>
      left
      simp [step, Event.task, task1_RED_LED, hl, Loc.progress]

theorem green_calls_exec (es : List Event) (s : System) (n : Nat) :
    ∃ m, (List.replicate n (blinkPass 12)).flatten ++
        s.green.progress 12 (some .task1_RED_LED_handle) .task2_GREEN_LED_handle ++
        taskCalls .task2_GREEN_LED_handle s es =
      (List.replicate m (blinkPass 12)).flatten ++
        (exec s es).1.green.progress 12 (some .task1_RED_LED_handle)
          .task2_GREEN_LED_handle := by
  induction es generalizing s n with
  | nil => exact ⟨n, by simp [taskCalls, exec]⟩
  | cons e es ih =>
    simp only [taskCalls, exec]
    rcases green_calls_step s e with h | ⟨h, hl⟩
    · obtain ⟨m, hm⟩ := ih (step s e).1 n
      refine ⟨m, ?_⟩
      rw [← hm, ← h]
      simp only [List.append_assoc]
    · obtain ⟨m, hm⟩ := ih (step s e).1 (n + 1)
      refine ⟨m, ?_⟩
      rw [← hm, hl, List.replicate_succ', List.flatten_append]
      simp only [List.append_assoc, List.flatten_cons, List.flatten_nil,
        List.append_nil]
      congr 1
      rw [← h, List.append_assoc]
      rfl

theorem red_calls_exec (es : List Event) (s : System) (n : Nat) :
    ∃ m, (List.replicate n (blinkPass 14)).flatten ++
        s.red.progress 14 none .task1_RED_LED_handle ++
        taskCalls .task1_RED_LED_handle s es =
      (List.replicate m (blinkPass 14)).flatten ++
        (exec s es).1.red.progress 14 none .task1_RED_LED_handle := by
  induction es generalizing s n with
  | nil => exact ⟨n, by simp [taskCalls, exec]⟩
  | cons e es ih =>
    simp only [taskCalls, exec]
    rcases red_calls_step s e with h | ⟨h, hl⟩
    · obtain ⟨m, hm⟩ := ih (step s e).1 n
      refine ⟨m, ?_⟩
      rw [← hm, ← h]
      simp only [List.append_assoc]
    · obtain ⟨m, hm⟩ := ih (step s e).1 (n + 1)
      refine ⟨m, ?_⟩
      rw [← hm, hl, List.replicate_succ', List.flatten_append]
      simp only [List.append_assoc, List.flatten_cons, List.flatten_nil,
        List.append_nil]
      congr 1
      rw [← h, List.append_assoc]
      rfl

/-- C23: the timeout of the wait, `pdMS_TO_TICKS(1000)`, is 1000 ticks. When
`xTaskNotifyWait` returns `pdFALSE` in Green (no notification pending), the task goes back to the top of its loop and the state is otherwise untouched; its next
statement toggles its own LED once and leaves it at the wait again, so
`task_to_delete_handle` is not changed and the task is not deleted; the same for Red. In
every run from boot the calls and stores of each task are a number of blink passes (toggle,
wait returning `pdFALSE`) followed by the part done of the pass in progress, and only a pass
whose wait returned `pdTRUE` goes on to the store and to `vTaskDelete(NULL)`. -/
theorem timed_out_wait_keeps_blinking (s : System) (es : List Event) :
    pdMS_TO_TICKS 1000 = 1000 ∧
    (s.green = .wait → s.greenPending = false →
      task2_GREEN_LED s = ({ s with green := .toggle }, [.xTaskNotifyWait false]) ∧
      task2_GREEN_LED { s with green := .toggle } =
        ({ s with pd12 := !s.pd12, green := .wait }, [.HAL_GPIO_TogglePin 12])) ∧
    (s.red = .wait → s.redPending = false →
      task1_RED_LED s = ({ s with red := .toggle }, [.xTaskNotifyWait false]) ∧
      task1_RED_LED { s with red := .toggle } =
        ({ s with pd14 := !s.pd14, red := .wait }, [.HAL_GPIO_TogglePin 14])) ∧
    (∃ n, taskCalls .task2_GREEN_LED_handle main_state es =
      (List.replicate n (blinkPass 12)).flatten ++
        (exec main_state es).1.green.progress 12 (some .task1_RED_LED_handle)
          .task2_GREEN_LED_handle) ∧
    (∃ n, taskCalls .task1_RED_LED_handle main_state es =
      (List.replicate n (blinkPass 14)).flatten ++
        (exec main_state es).1.red.progress 14 none .task1_RED_LED_handle) := by
  refine ⟨by simp [pdMS_TO_TICKS, configTICK_RATE_HZ, tickModulus], ?_, ?_, ?_, ?_⟩
  · intro hl hp
    obtain ⟨p, l, r, g, rp, gp, bp, op, p12, p14⟩ := s
    simp only at hl hp
    subst hl hp
    simp [task2_GREEN_LED, xTaskNotifyWait]
  · intro hl hp
    obtain ⟨p, l, r, g, rp, gp, bp, op, p12, p14⟩ := s
    simp only at hl hp
    subst hl hp
    simp [task1_RED_LED, xTaskNotifyWait]
  · obtain ⟨m, hm⟩ := green_calls_exec es main_state 0
    exact ⟨m, by simpa [main_state, Loc.progress] using hm⟩
  · obtain ⟨m, hm⟩ := red_calls_exec es main_state 0
    exact ⟨m, by simpa [main_state, Loc.progress] using hm⟩

/-- Witness for C23: Green has toggled its LED and waits with nothing pending; in a run in
which its wait times out it has toggled, waited and toggled again. -/
theorem timed_out_wait_keeps_blinking_witness :
    task2_GREEN_LED (exec main_state [.green]).1 =
      ({ (exec main_state [.green]).1 with green := .toggle }, [.xTaskNotifyWait false]) ∧
    ∃ n, taskCalls .task2_GREEN_LED_handle main_state [.green, .red, .green, .green] =
      (List.replicate n (blinkPass 12)).flatten ++
        (exec main_state [.green, .red, .green, .green]).1.green.progress 12
          (some .task1_RED_LED_handle) .task2_GREEN_LED_handle :=
  ⟨((timed_out_wait_keeps_blinking (exec main_state [.green]).1 []).2.1 rfl rfl).1,
   (timed_out_wait_keeps_blinking main_state [.green, .red, .green, .green]).2.2.2.1⟩

/-! ## Interrupt priorities -/

/-- C27: `MX_GPIO_Init` sets the button interrupt EXTI0 to priority 6, inside the range
5..15 (`configLIBRARY_MAX_SYSCALL_INTERRUPT_PRIORITY` ..
`configLIBRARY_LOWEST_INTERRUPT_PRIORITY`) from which `FromISR` calls are allowed; with 4
priority bits `configMAX_SYSCALL_INTERRUPT_PRIORITY` is `5 << 4 = 80`, not zero, and
`configKERNEL_INTERRUPT_PRIORITY` is `15 << 4 = 240`; the priority byte of EXTI0 is
`6 << 4 = 96`, at least 80, so EXTI0 is in the class a critical section masks; of the 16
priority levels the masked ones are exactly those from which `FromISR` calls are allowed. -/
theorem exti0_priority_in_masked_class :
    EXTI0_IRQn_PreemptPriority = 6 ∧
    configLIBRARY_MAX_SYSCALL_INTERRUPT_PRIORITY = 5 ∧
    configLIBRARY_LOWEST_INTERRUPT_PRIORITY = 15 ∧
    configLIBRARY_MAX_SYSCALL_INTERRUPT_PRIORITY ≤ EXTI0_IRQn_PreemptPriority ∧
    EXTI0_IRQn_PreemptPriority ≤ configLIBRARY_LOWEST_INTERRUPT_PRIORITY ∧
    fromISRAllowed EXTI0_IRQn_PreemptPriority = true ∧
    configPRIO_BITS = 4 ∧
    configMAX_SYSCALL_INTERRUPT_PRIORITY = 80 ∧
    configMAX_SYSCALL_INTERRUPT_PRIORITY ≠ 0 ∧
    configKERNEL_INTERRUPT_PRIORITY = 240 ∧
    priorityByte EXTI0_IRQn_PreemptPriority = 96 ∧
    configMAX_SYSCALL_INTERRUPT_PRIORITY ≤ priorityByte EXTI0_IRQn_PreemptPriority ∧
    maskedInCritical (priorityByte EXTI0_IRQn_PreemptPriority) = true ∧
    (∀ p : Fin 16, fromISRAllowed p.val = maskedInCritical (priorityByte p.val)) := by
  refine ⟨rfl, rfl, rfl, by decide, by decide, by decide, rfl, by decide, by decide,
    by decide, by decide, by decide, by decide, by decide⟩

end TaskNotification

namespace BinarySemaphore

/-! ## Sequence ids -/

theorem handoff_exec_append (s : System) (es fs : List Event) :
    exec s (es ++ fs) =
      ((exec (exec s es).1 fs).1, (exec s es).2 ++ (exec (exec s es).1 fs).2) := by
  induction es generalizing s with
  | nil => simp [exec]
  | cons e es ih => simp [exec, ih, List.append_assoc]

theorem allEnabled_append (s : System) (es fs : List Event) :
    allEnabled s (es ++ fs) = (allEnabled s es && allEnabled (exec s es).1 fs) := by
  induction es generalizing s with
  | nil => simp [allEnabled, exec]
  | cons e es ih => simp [allEnabled, exec, ih, Bool.and_assoc]

theorem built_append (s : System) (es fs : List Event) :
    built s (es ++ fs) = built s es ++ built (exec s es).1 fs := by
  induction es generalizing s with
  | nil => simp [built, exec]
  | cons e es ih => simp [built, exec, ih, List.append_assoc]

/-- One pass from a state between passes: the counter goes up by one modulo 2^16, one order
with that id is built, and every event of the pass is enabled when its turn comes. -/
theorem pass_exec (c sem : Nat) (hsem : sem ≤ 1) (o : WorkOrder_t)
    (x : Option WorkOrder_t) (u : Nat) :
    (exec (betweenPasses c sem o x u) pass).1 =
      betweenPasses ((c + 1) % 65536) 0
        { usOrderId := (c + 1) % 65536, eItem := 0, ucQuantity := 1 }
        (some { usOrderId := (c + 1) % 65536, eItem := 0, ucQuantity := 1 }) 2 ∧
    allEnabled (betweenPasses c sem o x u) pass = true ∧
    built (betweenPasses c sem o x u) pass =
      [{ usOrderId := (c + 1) % 65536, eItem := 0, ucQuantity := 1 }] := by
  interval_cases sem <;> refine ⟨?_, ?_, ?_⟩ <;>
    simp [exec, step, pass, betweenPasses, vMasterTask, vSlaveTask, masterWake, slaveWake,
      xQueueSend, xQueueReceive, xSemaphoreGive, xSemaphoreTake, Queue_t.full, allEnabled,
      enabled, masterBlocked, slaveBlocked, built, builtBy, ITEM_COUNT, MAX_ORDER_QUANTITY]

theorem passes_succ (n : Nat) : passes (n + 1) = passes n ++ pass := by
  simp [passes, List.replicate_succ', List.flatten_append]

/-- After the priming give and `n + 1` passes the demo is between passes with the counter at
`(n + 1) mod 2^16`; the schedule respects the scheduling rule, and the orders built have the
ids `1, 2, ..` modulo 2^16. -/
theorem passes_exec (n : Nat) :
    (exec main_state (passes (n + 1))).1 =
      betweenPasses ((n + 1) % 65536) 0
        { usOrderId := (n + 1) % 65536, eItem := 0, ucQuantity := 1 }
        (some { usOrderId := (n + 1) % 65536, eItem := 0, ucQuantity := 1 }) 2 ∧
    allEnabled main_state (passes (n + 1)) = true ∧
    built main_state (passes (n + 1)) =
      (List.range (n + 1)).map
        (fun i => { usOrderId := (i + 1) % 65536, eItem := 0, ucQuantity := 1 }) := by
  induction n with
  | zero =>
    have h0 : (exec main_state [.master 0 0]).1 =
        betweenPasses 0 1 { usOrderId := 0, eItem := 0, ucQuantity := 0 } none 0 := rfl
    have hp := pass_exec 0 1 (le_refl 1) { usOrderId := 0, eItem := 0, ucQuantity := 0 } none 0
    have hsplit : passes (0 + 1) = [.master 0 0] ++ pass := by
      simp [passes]
    rw [hsplit, handoff_exec_append, allEnabled_append, built_append, h0, hp.1, hp.2.1,
      hp.2.2]
    exact ⟨rfl, rfl, rfl⟩
  | succ n ih =>
    obtain ⟨hs, hen, hb⟩ := ih
    have hp := pass_exec ((n + 1) % 65536) 0 (Nat.zero_le 1)
      { usOrderId := (n + 1) % 65536, eItem := 0, ucQuantity := 1 }
      (some { usOrderId := (n + 1) % 65536, eItem := 0, ucQuantity := 1 }) 2
    have hmod : ((n + 1) % 65536 + 1) % 65536 = (n + 1 + 1) % 65536 := by omega
    rw [passes_succ (n + 1), handoff_exec_append, allEnabled_append, built_append, hs, hen,
      hb, hp.1, hp.2.1, hp.2.2, hmod]
    refine ⟨rfl, rfl, ?_⟩
    conv_rhs => rw [List.range_succ, List.map_append]
    rfl

/-- A step other than the master's `build` leaves the counter alone and builds nothing;
the `build` statement raises the counter by one modulo 2^16 and uses it as the order id. -/
theorem built_step (s : System) (e : Event) :
    (builtBy s e = [] ∧ (step s e).1.usSequenceCounter = s.usSequenceCounter) ∨
    (∃ o, builtBy s e = [o] ∧ o.usOrderId = (s.usSequenceCounter + 1) % 65536 ∧
      (step s e).1.usSequenceCounter = (s.usSequenceCounter + 1) % 65536) := by
  cases e with
  | master r1 r2 =>
    cases hm : s.master with
    | build =>
      right
      refine ⟨(step s (.master r1 r2)).1.xOrder, by simp [builtBy, hm], ?_, ?_⟩ <;>
        simp [step, vMasterTask, hm]
    | send =>
      left
      refine ⟨by simp [builtBy, hm], ?_⟩
      simp only [step, vMasterTask, hm]
      split <;> rfl
    | _ =>
      left
      exact ⟨by simp [builtBy, hm], by simp [step, vMasterTask, hm]⟩
  | masterSendTimeout =>
    left
    refine ⟨rfl, ?_⟩
    simp only [step, masterSendTimeout]
    split <;> rfl
  | masterWake =>
    left
    refine ⟨rfl, ?_⟩
    simp only [step, masterWake]
    split <;> rfl
  | slave =>
    left
    refine ⟨rfl, ?_⟩
    simp only [step, vSlaveTask]
    cases s.slave <;> simp only [] <;> (repeat' split) <;> rfl
  | slaveWake =>
    left
    refine ⟨rfl, ?_⟩
    simp only [step, slaveWake]
    split <;> rfl

/-- In every run the ids of the orders built count up from the counter, modulo 2^16. -/
theorem built_ids (es : List Event) (s : System) :
    (built s es).map WorkOrder_t.usOrderId =
      (List.range (built s es).length).map
        (fun i => (s.usSequenceCounter + i + 1) % 65536) := by
  induction es generalizing s with
  | nil => rfl
  | cons e es ih =>
    simp only [built]
    rcases built_step s e with ⟨hnil, hc⟩ | ⟨o, ho, hid, hc⟩
    · rw [hnil, List.nil_append, ih, hc]
    · rw [ho, List.singleton_append, List.map_cons, List.length_cons, List.range_succ_eq_map,
        List.map_cons, List.map_map, ih, hc, hid]
      congr 1
      apply List.map_congr_left
      intro i _
      simp only [Function.comp]
      omega

/-- C21, the defect: `usSequenceCounter` is a `uint16_t`, so in every run the ids of the
orders built are `1, 2, ..` taken modulo 2^16. In the schedule of 65536 passes with an idle
slave, every event of which is enabled under the scheduling rule, the 65535-th order built
has `usOrderId` 65535 and the 65536-th has `usOrderId` 0, which is not greater. -/
theorem sequence_id_wraps :
    (∀ es : List Event, (built main_state es).map WorkOrder_t.usOrderId =
      (List.range (built main_state es).length).map (fun i => (i + 1) % 65536)) ∧
    allEnabled main_state (passes 65536) = true ∧
    (built main_state (passes 65536)).length = 65536 ∧
    ((built main_state (passes 65536)).map WorkOrder_t.usOrderId)[0]? = some 1 ∧
    ((built main_state (passes 65536)).map WorkOrder_t.usOrderId)[65534]? = some 65535 ∧
    ((built main_state (passes 65536)).map WorkOrder_t.usOrderId)[65535]? = some 0 := by
  refine ⟨?_, (passes_exec 65535).2.1, ?_, ?_, ?_, ?_⟩
  · intro es
    have := built_ids es main_state
    simpa [main_state] using this
  all_goals rw [(passes_exec 65535).2.2]
  all_goals simp

/-! ## The slave's hand-out loop -/

theorem runSlave_take (n : Nat) (s : System) (h : s.slave = .take) :
    runSlave n s = (s, []) := by
  cases n <;> simp [runSlave, h]

/-- The hand-out loop from its test with `n` units left: `n` iterations, then the COMPLETE
line, and the slave is back at its take. -/
theorem runSlave_loop (o : WorkOrder_t) (n : Nat) (s : System) (k : Nat)
    (hl : s.slave = .loopTest) (ho : s.xReceivedOrder = some o)
    (hq : o.ucQuantity ≤ 254) (hu : s.ucUnit + n = o.ucQuantity + 1) :
    runSlave (5 * n + 2 + k) s =
      ({ s with ucUnit := o.ucQuantity + 1, slave := .take },
        handOutCalls o s.ucUnit n ++
          [.vConsolePrint (.slaveComplete o.usOrderId o.ucQuantity o.eItem)]) := by
  induction n generalizing s with
  | zero =>
    obtain ⟨sem, q, c, xo, m, ro, u, sl⟩ := s
    simp only at hl ho hu
    subst hl ho
    have hgt : ¬ u ≤ o.ucQuantity := by omega
    have hu2 : u = o.ucQuantity + 1 := by omega
    subst hu2
    have hfuel : 5 * 0 + 2 + k = (k + 1) + 1 := by omega
    rw [hfuel]
    simp [runSlave, vSlaveTask, runSlave_take, handOutCalls]
  | succ n ih =>
    obtain ⟨sem, q, c, xo, m, ro, u, sl⟩ := s
    simp only at hl ho hu
    subst hl ho
    have hle : u ≤ o.ucQuantity := by omega
    have hmod : (u + 1) % 256 = u + 1 := by omega
    have hfuel : 5 * (n + 1) + 2 + k = (5 * n + 2 + k) + 5 := by omega
    rw [hfuel]
    simp only [runSlave, vSlaveTask, slaveWake, hle, hmod, if_true, if_false, reduceCtorEq]
    simp only [handOutCalls]
    rw [ih _ rfl rfl (by simp only; omega)]
    simp

theorem handOutCalls_eq (o : WorkOrder_t) (n u : Nat) :
    handOutCalls o u n =
      ((List.range n).map (fun i =>
        [Action.vConsolePrint (.slaveHandingOut o.eItem (u + i) o.ucQuantity),
         Action.vTaskDelay 50])).flatten := by
  induction n generalizing u with
  | zero => rfl
  | succ n ih =>
    rw [handOutCalls, ih, List.range_succ_eq_map, List.map_cons, List.flatten_cons,
      List.map_map]
    congr 2
    apply List.map_congr_left
    intro i _
    simp only [Function.comp]
    rw [Nat.add_assoc, Nat.add_comm 1 i]

/-- No statement of the master and no expiry of its delay touches the local variables or
the location of the slave. -/
theorem master_frame (s : System) (e : Event) (h1 : e ≠ .slave) (h2 : e ≠ .slaveWake) :
    (step s e).1.slave = s.slave ∧ (step s e).1.xReceivedOrder = s.xReceivedOrder ∧
    (step s e).1.ucUnit = s.ucUnit := by
  cases e with
  | master r1 r2 =>
    cases hm : s.master <;> simp only [step, vMasterTask, hm] <;> (try split) <;> simp
  | masterSendTimeout =>
    simp only [step, masterSendTimeout]
    split <;> exact ⟨rfl, rfl, rfl⟩
  | masterWake =>
    simp only [step, masterWake]
    split <;> exact ⟨rfl, rfl, rfl⟩
  | slave => exact absurd rfl h1
  | slaveWake => exact absurd rfl h2

/-- C24: for every order `o` the slave receives with a quantity `q` in 1..15, the slave's
run from its `xQueueReceive` comes back to `xSemaphoreTake` (the hand-out loop terminates,
with `ucUnit = q + 1`), and its calls are the receive, then for the units 1, 2, .., q in
ascending order a "Handing out" line with that unit number followed by a 50 ms delay, then
one COMPLETE line with the id, quantity and item of `o`, and nothing else. Whatever the
master does in between does not touch the slave's order, counter or location. -/
theorem hand_out_loop (s : System) (o : WorkOrder_t) (rest : List WorkOrder_t) (k : Nat)
    (hl : s.slave = .receive) (hq : s.g_xOrderQueue.items = o :: rest)
    (h1 : 1 ≤ o.ucQuantity) (h15 : o.ucQuantity ≤ 15) :
    runSlave (5 * o.ucQuantity + 4 + k) s =
      ({ s with
          g_xOrderQueue := { s.g_xOrderQueue with items := rest }
          xReceivedOrder := some o
          ucUnit := o.ucQuantity + 1
          slave := .take },
        [.xQueueReceive (some o)] ++
          ((List.range o.ucQuantity).map (fun i =>
            [Action.vConsolePrint (.slaveHandingOut o.eItem (1 + i) o.ucQuantity),
             Action.vTaskDelay 50])).flatten ++
          [.vConsolePrint (.slaveComplete o.usOrderId o.ucQuantity o.eItem)]) ∧
    (runSlave (5 * o.ucQuantity + 4 + k) s).2[1]? =
      some (.vConsolePrint (.slaveHandingOut o.eItem 1 o.ucQuantity)) ∧
    (∀ e, e ≠ .slave → e ≠ .slaveWake →
      (step s e).1.slave = s.slave ∧ (step s e).1.xReceivedOrder = s.xReceivedOrder ∧
      (step s e).1.ucUnit = s.ucUnit) := by
  have hrun : runSlave (5 * o.ucQuantity + 4 + k) s =
      ({ s with
          g_xOrderQueue := { s.g_xOrderQueue with items := rest }
          xReceivedOrder := some o
          ucUnit := o.ucQuantity + 1
          slave := .take },
        [.xQueueReceive (some o)] ++ handOutCalls o 1 o.ucQuantity ++
          [.vConsolePrint (.slaveComplete o.usOrderId o.ucQuantity o.eItem)]) := by
    obtain ⟨sem, q, c, xo, m, ro, u, sl⟩ := s
    obtain ⟨len, items⟩ := q
    simp only at hl hq
    subst hl hq
    have hfuel : 5 * o.ucQuantity + 4 + k = ((5 * o.ucQuantity + 2 + k) + 1) + 1 := by omega
    rw [hfuel]
    simp only [runSlave, vSlaveTask, xQueueReceive, if_false, reduceCtorEq]
    rw [runSlave_loop o o.ucQuantity _ k rfl rfl (by omega) (by simp only; omega)]
    simp
  refine ⟨?_, ?_, master_frame s⟩
  · rw [hrun, handOutCalls_eq]
  · rw [hrun]
    obtain ⟨n, hn⟩ : ∃ n, o.ucQuantity = n + 1 := ⟨o.ucQuantity - 1, by omega⟩
    have hc : handOutCalls o 1 o.ucQuantity =
        [.vConsolePrint (.slaveHandingOut o.eItem 1 o.ucQuantity), .vTaskDelay 50] ++
          handOutCalls o 2 n := by
      conv_lhs => rw [hn]
      rfl
    rw [hc]
    simp

/-- Witness for C24: the master has sent its first order, 5 markers (`rand()` returning 4
twice), and sleeps; the slave has taken the semaphore. -/
theorem hand_out_loop_witness :
    (runSlave 29 (exec main_state
      [.master 0 0, .master 4 4, .master 0 0, .master 0 0, .master 0 0, .master 0 0,
       .slave]).1).2[1]? = some (.vConsolePrint (.slaveHandingOut 4 1 5)) :=
  (hand_out_loop (exec main_state
      [.master 0 0, .master 4 4, .master 0 0, .master 0 0, .master 0 0, .master 0 0,
       .slave]).1 { usOrderId := 1, eItem := 4, ucQuantity := 5 } [] 0
    (by decide) (by decide) (by decide) (by decide)).2.1

/-- C25: when the slave has taken the semaphore and its `xQueueReceive` finds the queue
empty (the call returns something other than `pdPASS`), the slave prints the one WARNING
line and is back at its `xSemaphoreTake`: no hand-out line, no COMPLETE line, and nothing
else in the state changes. The buffer `xReceivedOrder` is neither written nor read: whatever
it holds, the calls made are the same and it is left as it was. -/
theorem empty_queue_warning (s : System) (k : Nat)
    (hl : s.slave = .receive) (hq : s.g_xOrderQueue.items = []) :
    runSlave (2 + k) s =
      ({ s with slave := .take }, [.xQueueReceive none, .vConsolePrint .slaveWarning]) ∧
    (∀ x, (runSlave (2 + k) { s with xReceivedOrder := x }).2 =
        [.xQueueReceive none, .vConsolePrint .slaveWarning] ∧
      (runSlave (2 + k) { s with xReceivedOrder := x }).1.xReceivedOrder = x) := by
  obtain ⟨sem, q, c, xo, m, ro, u, sl⟩ := s
  obtain ⟨len, items⟩ := q
  simp only at hl hq
  subst hl hq
  have hfuel : 2 + k = (k + 1) + 1 := by omega
  rw [hfuel]
  refine ⟨?_, fun x => ⟨?_, ?_⟩⟩ <;>
    simp [runSlave, vSlaveTask, xQueueReceive, runSlave_take]

/-- Witness for C25: after the priming give the slave takes the semaphore although nothing
has been sent yet. -/
theorem empty_queue_warning_witness :
    runSlave 2 (exec main_state [.master 0 0, .slave]).1 =
      ({ (exec main_state [.master 0 0, .slave]).1 with slave := .take },
        [.xQueueReceive none, .vConsolePrint .slaveWarning]) :=
  (empty_queue_warning (exec main_state [.master 0 0, .slave]).1 0 (by decide)
    (by decide)).1

/-! ## Name lookups -/

theorem nameLookups_append (xs ys : List Action) :
    nameLookups (xs ++ ys) = nameLookups xs ++ nameLookups ys := by
  induction xs with
  | nil => rfl
  | cons a xs ih => cases a <;> simp [nameLookups, ih]

theorem itemsInv_main : itemsInv main_state := by
  refine ⟨Or.inl rfl, ?_, ?_⟩
  · intro o ho
    simp [main_state, xQueueCreate] at ho
  · intro o ho
    simp [main_state] at ho

theorem itemsInv_step (s : System) (e : Event) (h : itemsInv s) :
    itemsInv (step s e).1 ∧ ∀ i ∈ nameLookups (step s e).2, i < ITEM_COUNT := by
  obtain ⟨sem, q, c, xo, m, ro, u, sl⟩ := s
  obtain ⟨len, items⟩ := q
  obtain ⟨h1, h2, h3⟩ := h
  simp only at h1 h2 h3
  cases e with
  | master r1 r2 =>
    cases m with
    | build =>
      refine ⟨⟨?_, h2, h3⟩, by simp [step, vMasterTask, nameLookups]⟩
      right; right
      simp only [step, vMasterTask, ITEM_COUNT]
      omega
    | send =>
      have hx : xo.eItem < ITEM_COUNT := by simpa using h1
      by_cases hf : Queue_t.full { uxLength := len, items := items } = true
      · simp only [step, vMasterTask, xQueueSend, hf, if_true, Bool.false_eq_true, if_false]
        exact ⟨⟨Or.inr (Or.inr hx), h2, h3⟩, by simp [nameLookups]⟩
      · simp only [step, vMasterTask, xQueueSend, hf, if_true, if_false]
        refine ⟨⟨Or.inr (Or.inr hx), ?_, h3⟩, by simp [nameLookups]⟩
        intro o ho
        rcases List.mem_append.mp ho with ho | ho
        · exact h2 o ho
        · rw [List.mem_singleton.mp ho]
          exact hx
    | print =>
      have hx : xo.eItem < ITEM_COUNT := by simpa using h1
      exact ⟨⟨Or.inr (Or.inr hx), h2, h3⟩,
        by simpa [step, vMasterTask, nameLookups, Line.itemIndex] using hx⟩
    | prime =>
      exact ⟨⟨Or.inr (Or.inl rfl), h2, h3⟩, by simp [step, vMasterTask, nameLookups]⟩
    | reportError =>
      exact ⟨⟨Or.inr (Or.inl rfl), h2, h3⟩,
        by simp [step, vMasterTask, nameLookups, Line.itemIndex]⟩
    | give =>
      have hx : xo.eItem < ITEM_COUNT := by simpa using h1
      exact ⟨⟨Or.inr (Or.inr hx), h2, h3⟩, by simp [step, vMasterTask, nameLookups]⟩
    | delay =>
      have hx : xo.eItem < ITEM_COUNT := by simpa using h1
      exact ⟨⟨Or.inr (Or.inr hx), h2, h3⟩, by simp [step, vMasterTask, nameLookups]⟩
    | sleeping =>
      have hx : xo.eItem < ITEM_COUNT := by simpa using h1
      exact ⟨⟨Or.inr (Or.inr hx), h2, h3⟩, by simp [step, vMasterTask, nameLookups]⟩
  | masterSendTimeout =>
    simp only [step, masterSendTimeout]
    split
    · rename_i hc
      have hx : xo.eItem < ITEM_COUNT := by
        rcases h1 with h | h | h
        · rw [hc.1] at h; cases h
        · rw [hc.1] at h; cases h
        · exact h
      exact ⟨⟨Or.inr (Or.inr hx), h2, h3⟩, by simp [nameLookups]⟩
    · exact ⟨⟨h1, h2, h3⟩, by simp [nameLookups]⟩
  | masterWake =>
    simp only [step, masterWake]
    split
    · exact ⟨⟨Or.inr (Or.inl rfl), h2, h3⟩, by simp [nameLookups]⟩
    · exact ⟨⟨h1, h2, h3⟩, by simp [nameLookups]⟩
  | slave =>
    cases sl with
    | take =>
      simp only [step, vSlaveTask]
      split
      · exact ⟨⟨h1, h2, h3⟩, by simp [nameLookups]⟩
      · exact ⟨⟨h1, h2, h3⟩, by simp [nameLookups]⟩
    | receive =>
      cases items with
      | nil => exact ⟨⟨h1, h2, h3⟩, by simp [step, vSlaveTask, xQueueReceive, nameLookups]⟩
      | cons o rest =>
        refine ⟨⟨h1, ?_, ?_⟩, by simp [step, vSlaveTask, xQueueReceive, nameLookups]⟩
        · intro x hx
          exact h2 x (List.mem_cons_of_mem _ hx)
        · intro x hx
          simp only [step, vSlaveTask, xQueueReceive, Option.some.injEq] at hx
          rw [← hx]
          exact h2 o (List.mem_cons_self _ _)
    | loopTest =>
      cases ro with
      | none => exact ⟨⟨h1, h2, h3⟩, by simp [step, vSlaveTask, nameLookups]⟩
      | some o =>
        simp only [step, vSlaveTask]
        split
        · exact ⟨⟨h1, h2, h3⟩, by simp [nameLookups]⟩
        · exact ⟨⟨h1, h2, h3⟩, by simp [nameLookups]⟩
    | handOut =>
      cases ro with
      | none => exact ⟨⟨h1, h2, h3⟩, by simp [step, vSlaveTask, nameLookups]⟩
      | some o =>
        exact ⟨⟨h1, h2, h3⟩,
          by simpa [step, vSlaveTask, nameLookups, Line.itemIndex] using h3 o rfl⟩
    | complete =>
      cases ro with
      | none => exact ⟨⟨h1, h2, h3⟩, by simp [step, vSlaveTask, nameLookups]⟩
      | some o =>
        exact ⟨⟨h1, h2, h3⟩,
          by simpa [step, vSlaveTask, nameLookups, Line.itemIndex] using h3 o rfl⟩
    | loopInit => exact ⟨⟨h1, h2, h3⟩, by simp [step, vSlaveTask, nameLookups]⟩
    | handOutDelay => exact ⟨⟨h1, h2, h3⟩, by simp [step, vSlaveTask, nameLookups]⟩
    | handOutSleeping => exact ⟨⟨h1, h2, h3⟩, by simp [step, vSlaveTask, nameLookups]⟩
    | loopIncr => exact ⟨⟨h1, h2, h3⟩, by simp [step, vSlaveTask, nameLookups]⟩
    | warning =>
      exact ⟨⟨h1, h2, h3⟩, by simp [step, vSlaveTask, nameLookups, Line.itemIndex]⟩
  | slaveWake =>
    simp only [step, slaveWake]
    split
    · exact ⟨⟨h1, h2, h3⟩, by simp [nameLookups]⟩
    · exact ⟨⟨h1, h2, h3⟩, by simp [nameLookups]⟩

theorem itemsInv_interleaved {s : System} {tr : List Action} (hr : Interleaved s tr) :
    itemsInv s ∧ ∀ i ∈ nameLookups tr, i < ITEM_COUNT := by
  induction hr with
  | init => exact ⟨itemsInv_main, by simp [nameLookups]⟩
  | next s tr e _ ih =>
    obtain ⟨hinv, hlook⟩ := ih
    obtain ⟨h1, h2⟩ := itemsInv_step s e hinv
    refine ⟨h1, ?_⟩
    intro i hi
    rw [nameLookups_append, List.mem_append] at hi
    rcases hi with hi | hi
    · exact hlook i hi
    · exact h2 i hi

/-- C30: for every value `rand()` returns (it is never negative) the item of the order the
master builds, `rand() % ITEM_COUNT`, is one of the 8 enumerators `ITEM_PEN` (0) ..
`ITEM_STICKY_NOTE` (7); `g_apcItemNames` holds a name, not `NULL`, at each of the indices
0..7; and in every interleaving of the two tasks every lookup of `g_apcItemNames` made for a
printed line, by the master for the order it built and by the slave for the order it
received, is at an index below `ITEM_COUNT`, where the table holds a name. -/
theorem item_name_lookups_defined :
    (∀ (s : System) (r1 r2 : Nat), s.master = .build →
      (vMasterTask s r1 r2).1.xOrder.eItem = r1 % ITEM_COUNT ∧
      ITEM_PEN ≤ r1 % ITEM_COUNT ∧ r1 % ITEM_COUNT ≤ ITEM_STICKY_NOTE) ∧
    (∀ i, i < ITEM_COUNT → ∃ name, g_apcItemNames[i]? = some (some name)) ∧
    (∀ (s : System) (tr : List Action), Interleaved s tr →
      ∀ i ∈ nameLookups tr, i < ITEM_COUNT ∧ ∃ name, g_apcItemNames[i]? = some (some name)) ∧
    (∀ (s : System) (tr : List Action), Interleaved s tr →
      ∀ o, s.xReceivedOrder = some o → ∃ name, g_apcItemNames[o.eItem]? = some (some name)) := by
  have htable : ∀ i, i < ITEM_COUNT → ∃ name, g_apcItemNames[i]? = some (some name) := by
    intro i hi
    unfold ITEM_COUNT at hi
    interval_cases i <;> exact ⟨_, rfl⟩
  refine ⟨?_, htable, ?_, ?_⟩
  · intro s r1 r2 hm
    refine ⟨by simp [vMasterTask, hm], Nat.zero_le _, ?_⟩
    unfold ITEM_COUNT ITEM_STICKY_NOTE
    omega
  · intro s tr hr i hi
    have := (itemsInv_interleaved hr).2 i hi
    exact ⟨this, htable i this⟩
  · intro s tr hr o ho
    exact htable _ ((itemsInv_interleaved hr).1.2.2 o ho)

/-- Witness for C30: the master builds a stapler order (`rand()` returning 13), and in the
run in which it prints and sends it and the slave hands out the first unit every lookup is
defined. -/
theorem item_name_lookups_defined_witness :
    (vMasterTask (exec main_state [.master 0 0]).1 13 2).1.xOrder.eItem = 13 % ITEM_COUNT ∧
    ∀ i ∈ nameLookups ([] ++ (exec main_state
        [.master 0 0, .master 13 2, .master 0 0, .master 0 0, .master 0 0, .master 0 0,
         .slave, .slave, .slave, .slave, .slave]).2),
      i < ITEM_COUNT ∧ ∃ name, g_apcItemNames[i]? = some (some name) :=
  ⟨(item_name_lookups_defined.1 (exec main_state [.master 0 0]).1 13 2 rfl).1,
   item_name_lookups_defined.2.2.1 _ _
    (handoff_interleaved_exec Interleaved.init
      [.master 0 0, .master 13 2, .master 0 0, .master 0 0, .master 0 0, .master 0 0,
       .slave, .slave, .slave, .slave, .slave])⟩

end BinarySemaphore

namespace MutexDemo

/-! ## The sleep of the high-priority task -/

set_option maxRecDepth 100000 in
/-- One pass of `vTask2` with `rand()` returning 0 ends in a delay of 0 ms. -/
theorem task2Pass_zero :
    (exec main_state (task2Pass 0)).1.vTask2.loc = .sleeping ∧
    (exec main_state (task2Pass 0)).2.getLast? = some ⟨.vTask2, .vTaskDelay 0⟩ := by
  decide

theorem pdMS_TO_TICKS_below_500 (x : Nat) (hx : x < 500) : pdMS_TO_TICKS 1000 x = x := by
  unfold pdMS_TO_TICKS
  rw [Nat.mod_eq_of_lt (by omega : x * 1000 < 4294967296), Nat.mul_div_cancel x (by omega),
    Nat.mod_eq_of_lt (by omega : x < 4294967296)]

/-- C26, the defect: the argument of `vTaskDelay` in `vTask2` is
`pdMS_TO_TICKS(rand() % 500)`, without the `+ 1` its comment ("RANDOM ticks (1 to 500)")
calls for. In the run in which `vTask2` makes one pass through its loop and `rand()` returns
0 it ends in `vTaskDelay(pdMS_TO_TICKS(0))`, which is 0 ticks at every tick rate, not a
sleep of 1 to 500 ticks. In general the delay is `rand() % 500` ms, at most 499, which at
1000 ticks per second is 0 to 499 ticks: 500 is never reached. -/
theorem task2_sleep_zero_ticks :
    (exec main_state (task2Pass 0)).1.vTask2.loc = .sleeping ∧
    (exec main_state (task2Pass 0)).2.getLast? = some ⟨.vTask2, .vTaskDelay (0 % 500)⟩ ∧
    (∀ rate, pdMS_TO_TICKS rate (0 % 500) = 0) ∧
    (∀ (m : Option Caller) (t1 : TaskState) (k r : Nat),
      (vTask2 { g_xMutex := m, vTask1 := t1, vTask2 := { loc := .delay, pcChar := k } } r).2 =
        [⟨.vTask2, .vTaskDelay (r % 500)⟩] ∧
      r % 500 ≤ 499 ∧ pdMS_TO_TICKS 1000 (r % 500) = r % 500) := by
  refine ⟨task2Pass_zero.1, task2Pass_zero.2, ?_, ?_⟩
  · intro rate
    simp [pdMS_TO_TICKS]
  · intro m t1 k r
    exact ⟨rfl, by omega, pdMS_TO_TICKS_below_500 _ (Nat.mod_lt _ (by omega))⟩

end MutexDemo
